import Mathlib

/-!
# Bytecode metadata reader (`runtime/vm/compiler/frontend/bytecode_reader.cc`)

A shallow embedding of `BytecodeMetadataHelper::ReadPoolEntries`,
`ReadBytecode`, `NativeEntry` and `ReadMetadata`, followed by theorems
about them.

Conventions of the embedding.

* The kernel reader (`helper_`, `helper_->reader_`), the translation helper
  (`H`), the type translator (`T`) and the runtime services the decoder calls
  are not defined in this source file.  They are the fields of `Env`; every
  theorem quantifies over all of them.  `tokenEnv` is one executable instance,
  used to evaluate the decoder on concrete inputs.
* The macros `ASSERT`, `UNREACHABLE` and `UNIMPLEMENTED` are defined outside the
  source files; following the spec, each of them ends the decode with an error:
  a false assertion is the failure `DecodeError.assertFailed`, naming the
  assertion (see `ASSERT`).
* A function that threads the decoder state returns either
  `.ok (value, state)` or `.error (error, state at the point of failure)`.
* `intptr_t` values are `Nat` or `Int` (no overflow is modelled); the two
  `uint32_t` halves of `kInt` / `kDouble` are reduced modulo `2^32` and the
  assembled word modulo `2^64`.
-/

namespace BytecodeReader

/-! ## Runtime objects -/

/-- The `ICData::RebindRule` values used by the decoder. -/
inductive RebindRule where
  | kInstance
  | kStatic
  deriving DecidableEq, Repr

/-- The native call wrappers `NativeEntry` chooses between. -/
inductive Trampoline where
  | BootstrapNativeCallWrapper
  | AutoScopeNativeCallWrapper
  | NoScopeNativeCallWrapper
  deriving DecidableEq, Repr

/-- The `MethodRecognizer::Kind` values: the intrinsics `NativeEntry` lists,
`kUnknown`, and every other recognized kind. -/
inductive MethodRecognizerKind where
  | kUnknown
  | kObjectEquals
  | kStringBaseLength
  | kStringBaseIsEmpty
  | kGrowableArrayLength
  | kObjectArrayLength
  | kImmutableArrayLength
  | kTypedDataLength
  | kClassIDgetID
  | kGrowableArrayCapacity
  | kListFactory
  | kObjectArrayAllocate
  | kLinkedHashMap_getIndex
  | kLinkedHashMap_setIndex
  | kLinkedHashMap_getData
  | kLinkedHashMap_setData
  | kLinkedHashMap_getHashMask
  | kLinkedHashMap_setHashMask
  | kLinkedHashMap_getUsedData
  | kLinkedHashMap_setUsedData
  | kLinkedHashMap_getDeletedKeys
  | kLinkedHashMap_setDeletedKeys
  | other (id : Nat)
  deriving DecidableEq, Repr

/-- The classes of runtime objects that the decoder obtains from its
collaborators (lookups, type translator) without building them itself. -/
inductive ForeignKind where
  | field
  | cls
  | function
  | library
  | abstractType
  | typeArguments
  | context
  | other
  deriving DecidableEq, Repr

/-- The state of a closure function built by the `kClosureFunction` case:
the setters called on `closure`, in the order of the source. -/
structure ClosureData (O : Type) where
  name : String
  parent : O
  type_parameters : O
  num_fixed_parameters : Int
  num_optional_parameters : Int
  optional_are_positional : Bool
  parameter_count : Int
  parameterTypeWrites : List (Nat × O)
  parameterNameWrites : List (Nat × String)
  result_type : O
  signature_type : O

/-- Modelled from the spec: the runtime objects ("Decoded Value"), whose classes
are declared outside the source files, as far as the decoder builds or inspects
them.  An object is the record of the call that built it. -/
inductive Obj where
  | null
  | string (s : String)
  | integer (value : Int)
  | double (bits : Nat)
  | bool (b : Bool)
  | smi (value : Int)
  | argumentsDescriptor (num_type_args num_arguments : Nat) (names : List String)
  | icData (owner : Obj) (name : String) (args_descriptor : Obj) (deopt_id : Nat)
      (num_args_tested : Int) (rebind : RebindRule) (targets : List Obj)
  | array (elem_type : Obj) (elems : List Obj)
  | plainInstance (cls : Obj) (type_args : Obj) (fields : List (Obj × Obj))
  | closure (instantiator_type_arguments function_type_arguments
      delayed_type_arguments function context : Obj)
  | closureFunction (d : ClosureData Obj)
  | nativeEntryData (kind : MethodRecognizerKind) (trampoline : Option Trampoline)
      (native_function : Option Nat) (argc_tag : Nat)
  | subtypeTestCache
  | emptyTypeArguments
  | foreign (kind : ForeignKind) (id : Nat)

instance : Inhabited Obj := ⟨Obj.null⟩

/-- Test `obj.IsNull()` / `obj == Object::null()`. -/
def Obj.IsNull : Obj → Bool
  | .null => true
  | _ => false

/-- Test `obj.IsString()`. -/
def Obj.IsString : Obj → Bool
  | .string _ => true
  | _ => false

/-- Test `obj.IsField()`. -/
def Obj.IsField : Obj → Bool
  | .foreign .field _ => true
  | _ => false

/-- Test `obj.IsClass()`. -/
def Obj.IsClass : Obj → Bool
  | .foreign .cls _ => true
  | _ => false

/-- Test `obj.IsFunction()`. -/
def Obj.IsFunction : Obj → Bool
  | .foreign .function _ => true
  | .closureFunction _ => true
  | _ => false

/-- Test `obj.IsAbstractType()`. -/
def Obj.IsAbstractType : Obj → Bool
  | .foreign .abstractType _ => true
  | _ => false

/-- Test `obj.IsTypeArguments()`. -/
def Obj.IsTypeArguments : Obj → Bool
  | .foreign .typeArguments _ => true
  | .emptyTypeArguments => true
  | _ => false

/-- Test `obj.IsInstance()`: the objects that are instances of Dart classes. -/
def Obj.IsInstance : Obj → Bool
  | .null => false
  | .foreign .field _ => false
  | .foreign .cls _ => false
  | .foreign .function _ => false
  | .foreign .library _ => false
  | .foreign .typeArguments _ => false
  | .foreign .context _ => false
  | .closureFunction _ => false
  | .icData .. => false
  | .nativeEntryData .. => false
  | .subtypeTestCache => false
  | .emptyTypeArguments => false
  | _ => true

/-! ## Failures -/

/-- The assertions of the source, one name per `ASSERT`. -/
inductive Check where
  /-- Assertion `ASSERT(arg_desc_index < i)`, `kICData`. -/
  | icDataArgDescIndex
  /-- Assertion `ASSERT(arg_desc_index < i)`, `kStaticICData`. -/
  | staticICDataArgDescIndex
  /-- Assertion `ASSERT(elem_index < i)`, `kList`. -/
  | listElemIndex
  /-- Assertion `ASSERT(type_args_index < i)`, `kInstance`. -/
  | instanceTypeArgsIndex
  /-- Assertion `ASSERT(elem_index < i)`, `kInstance`. -/
  | instanceElemIndex
  /-- Assertion `ASSERT(tearoff_index < i)`, `kPartialTearOffInstantiation`. -/
  | tearoffIndex
  /-- Assertion `ASSERT(type_args_index < i)`, `kPartialTearOffInstantiation`. -/
  | partialTypeArgsIndex
  /-- Assertion `ASSERT(i < obj_count)`, `kInstanceField`. -/
  | instanceFieldSecondSlot
  /-- Assertion `ASSERT(pool.ObjectAt(i) == Object::null())`, `kClosureFunction`. -/
  | closureScopeClosed
  /-- Assertion `ASSERT(named_parameter_count_check == named_parameter_count)`. -/
  | namedParameterCount
  /-- Assertion `ASSERT(argument_count <= 2)`, `kICData`. -/
  | argumentCount
  /-- Assertion `ASSERT(kind == InvocationKind::method)`. -/
  | kindIsMethod
  /-- Assertion `ASSERT(obj.IsString())`. -/
  | isString
  /-- Assertion `ASSERT(obj.IsField())`. -/
  | isField
  /-- Assertion `ASSERT(obj.IsClass())`. -/
  | isClass
  /-- Assertion `ASSERT(obj.IsFunction())` and `ASSERT(elem.IsFunction())`. -/
  | isFunction
  /-- Assertion `ASSERT(obj.IsInstance())`. -/
  | isInstance
  /-- Assertion `ASSERT(obj.IsAbstractType())`. -/
  | isAbstractType
  /-- Assertion `ASSERT(obj.IsNull() || obj.IsTypeArguments())`. -/
  | isNullOrTypeArguments
  /-- Assertion `ASSERT(!obj.IsNull())`, `kList`. -/
  | notNull
  /-- Assertion `ASSERT(H.IsField(field_name))`, `kInstance`. -/
  | nameIsField
  /-- The three assertions on the symbol class and its name field, `kSymbol`. -/
  | symbolClass
  /-- The check of `Closure::CheckedHandle`, `kPartialTearOffInstantiation`. -/
  | checkedHandleClosure
  /-- Assertion `ASSERT(native_function != NULL)`, `NativeEntry`. -/
  | nativeFunctionResolved
  /-- Assertion `ASSERT(closure_index < obj_count)`, `ReadMetadata`. -/
  | closureIndex
  /-- Assertion `ASSERT(function.IsGenerativeConstructor())`, `ReadMetadata`. -/
  | isGenerativeConstructor
  /-- Assertion `ASSERT(type_count > 0)`, `ReadExceptionsTable`. -/
  | typeCount
  /-- Assertion `ASSERT(type_index < pool.Length())`, `ReadExceptionsTable`. -/
  | typeIndex
  /-- Assertion `ASSERT(!FLAG_precompiled_mode)`, `ReadFunctionBytecode`. -/
  | notPrecompiledMode
  /-- Assertion `ASSERT(!function.HasBytecode())`, `ReadFunctionBytecode`. -/
  | hasNoBytecode
  /-- Assertion `ASSERT(thread->sticky_error() == Error::null())`. -/
  | noStickyError
  deriving DecidableEq, Repr

/-- Why a decode stopped. -/
inductive DecodeError where
  /-- Reached `UNREACHABLE()`. -/
  | unreachable
  /-- Reached `UNIMPLEMENTED()`. -/
  | unimplemented
  /-- A false `ASSERT`. -/
  | assertFailed (c : Check)
  /-- A failure reported by a collaborator (for example a read past the end
  of the buffer); the code is the collaborator's. -/
  | collaborator (code : Nat)
  /-- The failure `TruncatedStream` of the specification: `Reader.BufferAt` or
  `Reader.set_offset` was asked for a position past the end of the buffer. -/
  | truncatedStream
  /-- The bound of `ReadPoolEntriesLoop` was too small; see `ReadPoolEntriesLoop_fuel`. -/
  | outOfFuel
  deriving DecidableEq, Repr

/-- Modelled from the spec: the macro `ASSERT`, whose definition
(`platform/assert.h`) is not among the source files.  The spec makes a violated
assertion a decode error that ends the load ("violating it is a decode error",
"enforced as a hard assertion/error, not a lint"): `ASSERT(c)` with `c` false
fails with `assertFailed`, naming the assertion. -/
def ASSERT (c : Bool) (name : Check) : Except DecodeError Unit :=
  if c then .ok () else .error (.assertFailed name)

/-! ## Collaborators -/

/-- The active type-parameter scope: the closures whose
`ActiveTypeParametersScope` is open, innermost first. -/
abbrev Scope := List Obj

/-- The fields `FunctionNodeHelper` exposes to the decoder. -/
structure FunctionNodeHelper where
  required_parameter_count_ : Int
  total_parameter_count_ : Int
  deriving DecidableEq, Repr

/-- Everything the decoder calls that is defined outside the source file,
over a reader cursor of type `σ`.  A read returns the value read and the
advanced cursor, or fails. -/
structure Env (σ : Type) where
  -- the kernel reader
  ReadTag : σ → Except DecodeError (Nat × σ)
  ReadByte : σ → Except DecodeError (Nat × σ)
  ReadUInt : σ → Except DecodeError (Nat × σ)
  ReadUInt32 : σ → Except DecodeError (Nat × σ)
  ReadListLength : σ → Except DecodeError (Nat × σ)
  ReadStringReference : σ → Except DecodeError (Nat × σ)
  ReadCanonicalNameReference : σ → Except DecodeError (Nat × σ)
  SkipCanonicalNameReference : σ → Except DecodeError σ
  ReadNameAsGetterName : σ → Except DecodeError (String × σ)
  ReadNameAsSetterName : σ → Except DecodeError (String × σ)
  ReadNameAsMethodName : σ → Except DecodeError (String × σ)
  SkipExpression : σ → Except DecodeError σ
  /-- The length of the byte buffer under the cursor; only `Reader.BufferAt`
  and `Reader.set_offset` below look at it. -/
  size : σ → Nat
  /-- The position of the cursor, `reader_.offset()`. -/
  offset : σ → Nat
  /-- The store to the position of the cursor alone; the call
  `reader_.set_offset` of the source is `Reader.set_offset` below. -/
  set_offset : Nat → σ → σ
  /-- The cursor of `AlternativeReadingScope` over the metadata payloads. -/
  metadata_payloads : Nat → σ
  GetNextMetadataPayloadOffset : Obj → Int
  /-- Tag `kSomething` of the kernel format. -/
  kSomething : Nat
  -- `FunctionNodeHelper` and `VariableDeclarationHelper`
  FunctionNode_ReadUntilExcluding_kTypeParameters :
    σ → Except DecodeError (FunctionNodeHelper × σ)
  FunctionNode_ReadUntilExcluding_kPositionalParameters :
    FunctionNodeHelper → σ → Except DecodeError (FunctionNodeHelper × σ)
  FunctionNode_ReadUntilExcluding_kEnd :
    FunctionNodeHelper → σ → Except DecodeError σ
  VariableDeclaration_ReadUntilExcluding_kType : σ → Except DecodeError (Nat × σ)
  -- the type translator, under the active type-parameter scope
  BuildType : Scope → σ → Except DecodeError (Obj × σ)
  BuildVariableType : Scope → σ → Except DecodeError (Obj × σ)
  BuildTypeArguments : Scope → Nat → σ → Except DecodeError (Obj × σ)
  BuildInstantiatedTypeArguments : Scope → Obj → Nat → σ → Except DecodeError (Obj × σ)
  LoadAndSetupTypeParameters : Scope → String → Obj → Nat → σ → Except DecodeError (Obj × σ)
  -- the translation helper
  DartString : Nat → String
  DartSymbolPlain : Nat → String
  DartIdentifier : Obj → Nat → String
  DartConstructorName : Nat → String
  DartGetterName : Nat → String
  DartSetterName : Nat → String
  DartProcedureName : Nat → String
  IsConstructor : Nat → Bool
  IsField : Nat → Bool
  IsGetter : Nat → Bool
  IsRoot : Nat → Bool
  Canonicalize : Obj → Obj
  LookupFieldByKernelField : Nat → Except DecodeError Obj
  LookupClassByKernelClass : Nat → Except DecodeError Obj
  LookupLibraryByKernelLibrary : Nat → Except DecodeError Obj
  LookupConstructorByKernelConstructor : Nat → Except DecodeError Obj
  LookupStaticMethodByKernelProcedure : Nat → Except DecodeError Obj
  -- the runtime
  kWordSize : Int
  FieldOffset : Obj → Int
  FieldOwner : Obj → Obj
  type_arguments_field_offset : Obj → Int
  LookupFunctionAllowPrivate : Obj → String → Obj
  GetMethodExtractor : Obj → String → Obj
  ImplicitClosureFunction : Obj → Obj
  ImplicitStaticClosure : Obj → Obj
  /-- Result of `ArgumentsDescriptor(array).Count()` when `array` is not an
  arguments descriptor built by this decoder. -/
  CountOfOther : Obj → Int
  /-- Whether `MethodTokenRecognizer::RecognizeTokenKind(name)` differs from
  `Token::kILLEGAL`. -/
  RecognizeTokenKind : String → Bool
  NumArgsCheckedForStaticCall : Obj → Int
  CreateDynamicInvocationForwarderName : String → String
  /-- The name `Library::PrivateCoreLibName(Symbols::_simpleInstanceOf())`. -/
  simpleInstanceOf : String
  Symbols_EqualOperator : String
  Symbols_Call : String
  FLAG_precompiled_mode : Bool
  should_emit_strong_mode_checks : Bool
  GetNextDeoptId : Nat → Nat × Nat
  active_class_library : Obj
  /-- The type `AbstractType::dynamic_type()`. -/
  dynamic_type : Obj
  Symbols_ClosureParameter : String
  SignatureType : ClosureData Obj → Obj
  FinalizeType : Obj → Obj
  InternalLibrary : Obj
  /-- The class `Symbol` of the internal library. -/
  LookupSymbolClass : Obj → Obj
  /-- The field `_name` of the class `Symbol`. -/
  LookupSymbolNameField : Obj → Obj
  -- native entries
  RecognizeKind : Obj → MethodRecognizerKind
  FLAG_link_natives_lazily : Bool
  FunctionOwner : Obj → Obj
  ClassLibrary : Obj → Obj
  IsBootstrapResolver : Obj → Bool
  ParameterCountForResolution : Obj → Int
  /-- The native function found, if any, and the value left in `is_auto_scope`. -/
  ResolveNative : Obj → String → Int → Option Nat × Bool
  ComputeArgcTag : Obj → Nat
  -- the rest of `ReadMetadata`
  BytecodePcToOffset : Nat → Bool → Int
  IsGenerativeConstructor : Obj → Bool
  use_field_guards : Bool
  /-- Default value of the parameter `has_exceptions_table` of
  `ReadExceptionsTable`, declared in the header. -/
  has_exceptions_table_default : Bool

/-! ## The object pool -/

/-- The `ObjectPool::EntryType` values the decoder writes. -/
inductive EntryType where
  | kTaggedObject
  | kNativeEntryData
  deriving DecidableEq, Repr

/-- The `ObjectPool::Patchability` values. -/
inductive Patchability where
  | kPatchable
  | kNotPatchable
  deriving DecidableEq, Repr

/-- One slot of the pool: what `SetTypeAt` and `SetObjectAt` last stored,
`none` while the slot has not been set. -/
structure Slot where
  type : Option (EntryType × Patchability)
  obj : Option Obj

/-- Modelled from the spec: the class `ObjectPool`, declared outside the source
files ("a fixed-length, 0-indexed ordered sequence of slots", each with a
patchability flag).  The methods below are the ones the decoder calls. -/
structure ObjectPool where
  slots : List Slot

/-- The constructor `ObjectPool::New(len)`: `len` slots, none of them set. -/
def ObjectPool.New (len : Nat) : ObjectPool :=
  ⟨List.replicate len ⟨none, none⟩⟩

/-- The method `pool.Length()`. -/
def ObjectPool.Length (pool : ObjectPool) : Nat :=
  pool.slots.length

/-- The method `pool.SetTypeAt(i, type, patchable)`. -/
def ObjectPool.SetTypeAt (pool : ObjectPool) (i : Nat) (type : EntryType)
    (patchable : Patchability) : ObjectPool :=
  ⟨pool.slots.modify (fun s => { s with type := some (type, patchable) }) i⟩

/-- The method `pool.SetObjectAt(i, obj)`. -/
def ObjectPool.SetObjectAt (pool : ObjectPool) (i : Nat) (obj : Obj) : ObjectPool :=
  ⟨pool.slots.modify (fun s => { s with obj := some obj }) i⟩

/-- The method `pool.TypeAt(i)` with the patchability of the slot. -/
def ObjectPool.TypeAt (pool : ObjectPool) (i : Nat) : Option (EntryType × Patchability) :=
  (pool.slots.get? i).bind Slot.type

/-- The method `pool.ObjectAt(i)`; a slot that holds no object reads as null. -/
def ObjectPool.ObjectAt (pool : ObjectPool) (i : Nat) : Obj :=
  ((pool.slots.get? i).bind Slot.obj).getD Obj.null

/-! ## Pool entries that occupy one slot and end in `break` -/

section Entries

variable {σ : Type}

/-- The value of an `int64_t` with the given bit pattern. -/
def toInt64 (bits : Nat) : Int :=
  if bits % 2 ^ 64 < 2 ^ 63 then ((bits % 2 ^ 64 : Nat) : Int)
  else ((bits % 2 ^ 64 : Nat) : Int) - 2 ^ 64

/-- Case `kString`. -/
def ReadPoolEntries_kString (env : Env σ) (rd : σ) : Except DecodeError (Obj × σ) := do
  let (ref, rd) ← env.ReadStringReference rd
  let obj := Obj.string (env.DartString ref)
  ASSERT obj.IsString .isString
  pure (env.Canonicalize obj, rd)

/-- Case `kInt`. -/
def ReadPoolEntries_kInt (env : Env σ) (rd : σ) : Except DecodeError (Obj × σ) := do
  let (low_bits, rd) ← env.ReadUInt32 rd
  let low_bits := low_bits % 2 ^ 32
  let (value, rd) ← env.ReadUInt32 rd
  let value := value % 2 ^ 32
  let value := toInt64 ((value <<< 32) ||| low_bits)
  let obj := Obj.integer value
  pure (env.Canonicalize obj, rd)

/-- Case `kDouble`; the double is kept as its 64-bit pattern. -/
def ReadPoolEntries_kDouble (env : Env σ) (rd : σ) : Except DecodeError (Obj × σ) := do
  let (low_bits, rd) ← env.ReadUInt32 rd
  let low_bits := low_bits % 2 ^ 32
  let (bits, rd) ← env.ReadUInt32 rd
  let bits := bits % 2 ^ 32
  let bits := ((bits <<< 32) % 2 ^ 64) ||| low_bits
  let obj := Obj.double bits
  pure (env.Canonicalize obj, rd)

/-- Case `kBool`. -/
def ReadPoolEntries_kBool (env : Env σ) (rd : σ) : Except DecodeError (Obj × σ) := do
  let (v, rd) ← env.ReadUInt rd
  if v = 1 then pure (Obj.bool true, rd) else pure (Obj.bool false, rd)

/-- The loop of `kArgDesc` over the argument names: `n` names still to read. -/
def ReadArgNames (env : Env σ) : Nat → σ → Except DecodeError (List String × σ)
  | 0, rd => pure ([], rd)
  | n + 1, rd => do
    let (ref, rd) ← env.ReadStringReference rd
    let (rest, rd) ← ReadArgNames env n rd
    pure (env.DartSymbolPlain ref :: rest, rd)

/-- Case `kArgDesc`. -/
def ReadPoolEntries_kArgDesc (env : Env σ) (rd : σ) : Except DecodeError (Obj × σ) := do
  let (num_arguments, rd) ← env.ReadUInt rd
  let (num_type_args, rd) ← env.ReadUInt rd
  let (num_arg_names, rd) ← env.ReadListLength rd
  if num_arg_names = 0 then
    pure (Obj.argumentsDescriptor num_type_args num_arguments [], rd)
  else do
    let (array, rd) ← ReadArgNames env num_arg_names rd
    pure (Obj.argumentsDescriptor num_type_args num_arguments array, rd)

/-- The call `ArgumentsDescriptor(array).Count()`. -/
def ArgumentsDescriptor_Count (env : Env σ) : Obj → Int
  | .argumentsDescriptor _ num_arguments _ => num_arguments
  | o => env.CountOfOther o

/-- The values of `InvocationKind`: `method`. -/
def InvocationKind.method : Nat := 0

/-- The values of `InvocationKind`: `getter`. -/
def InvocationKind.getter : Nat := 1

/-- The values of `InvocationKind`: `setter`. -/
def InvocationKind.setter : Nat := 2

/-- Constant `kInvocationKindMask`. -/
def kInvocationKindMask : Nat := 0x3

/-- Constant `kFlagDynamic`. -/
def kFlagDynamic : Nat := 1 <<< 2

/-- The name read by case `kICData` for an invocation of kind `kind`. -/
def ReadICDataName (env : Env σ) (kind : Nat) (rd : σ) : Except DecodeError (String × σ) :=
  if kind = InvocationKind.getter then env.ReadNameAsGetterName rd
  else if kind = InvocationKind.setter then env.ReadNameAsSetterName rd
  else do
    ASSERT (kind = InvocationKind.method) .kindIsMethod
    env.ReadNameAsMethodName rd

/-- Case `kICData`, at slot `i`, with the deopt-id counter `deopt`. -/
def ReadPoolEntries_kICData (env : Env σ) (function : Obj) (pool : ObjectPool) (i : Nat)
    (rd : σ) (deopt : Nat) : Except DecodeError (Obj × σ × Nat) := do
  let (flags, rd) ← env.ReadByte rd
  let kind := flags &&& kInvocationKindMask
  let isDynamic := (flags &&& kFlagDynamic) != 0
  let (name, rd) ← ReadICDataName env kind rd
  let (arg_desc_index, rd) ← env.ReadUInt rd
  ASSERT (arg_desc_index < i) .icDataArgDescIndex
  let array := pool.ObjectAt arg_desc_index
  let recognized := kind = InvocationKind.method ∧
    (env.RecognizeTokenKind name = true ∨ name = env.simpleInstanceOf)
  let argument_count := ArgumentsDescriptor_Count env array
  if recognized then ASSERT (argument_count ≤ 2) .argumentCount
  let checked_argument_count : Int := if recognized then argument_count else 1
  let name :=
    if isDynamic ∧ kind ≠ InvocationKind.getter ∧ env.FLAG_precompiled_mode = false ∧
        env.should_emit_strong_mode_checks = true ∧ name ≠ env.Symbols_EqualOperator ∧
        name ≠ env.Symbols_Call then
      env.CreateDynamicInvocationForwarderName name
    else name
  let (id, deopt) := env.GetNextDeoptId deopt
  pure (Obj.icData function name array id checked_argument_count .kInstance [], rd, deopt)

/-- The name and the target (`elem`) case `kStaticICData` resolves for the
canonical name `target` and an invocation of kind `kind`. -/
def StaticICDataTarget (env : Env σ) (kind target : Nat) : Except DecodeError (String × Obj) :=
  if env.IsConstructor target then do
    let elem ← env.LookupConstructorByKernelConstructor target
    pure (env.DartConstructorName target, elem)
  else if env.IsField target then do
    let name ←
      if kind = InvocationKind.getter then pure (env.DartGetterName target)
      else if kind = InvocationKind.setter then pure (env.DartSetterName target)
      else do
        ASSERT (kind = InvocationKind.method) .kindIsMethod
        throw DecodeError.unimplemented
    let field ← env.LookupFieldByKernelField target
    let cls := env.FieldOwner field
    pure (name, env.LookupFunctionAllowPrivate cls name)
  else do
    if kind = InvocationKind.method ∧ env.IsGetter target = true then
      throw DecodeError.unimplemented
    let elem ← env.LookupStaticMethodByKernelProcedure target
    if kind = InvocationKind.getter ∧ env.IsGetter target = false then
      let name := env.DartGetterName target
      pure (name, env.GetMethodExtractor elem name)
    else
      pure (env.DartProcedureName target, elem)

/-- Case `kStaticICData`, at slot `i`. -/
def ReadPoolEntries_kStaticICData (env : Env σ) (function : Obj) (pool : ObjectPool)
    (i : Nat) (rd : σ) (deopt : Nat) : Except DecodeError (Obj × σ × Nat) := do
  let (kind, rd) ← env.ReadByte rd
  let (target, rd) ← env.ReadCanonicalNameReference rd
  let (name, elem) ← StaticICDataTarget env kind target
  let num_args_checked := env.NumArgsCheckedForStaticCall elem
  ASSERT elem.IsFunction .isFunction
  let (arg_desc_index, rd) ← env.ReadUInt rd
  ASSERT (arg_desc_index < i) .staticICDataArgDescIndex
  let array := pool.ObjectAt arg_desc_index
  let (id, deopt) := env.GetNextDeoptId deopt
  pure (Obj.icData function name array id num_args_checked .kStatic [elem], rd, deopt)

/-- Case `kStaticField`. -/
def ReadPoolEntries_kStaticField (env : Env σ) (rd : σ) : Except DecodeError (Obj × σ) := do
  let (ref, rd) ← env.ReadCanonicalNameReference rd
  let obj ← env.LookupFieldByKernelField ref
  ASSERT obj.IsField .isField
  pure (obj, rd)

/-- Case `kClass`. -/
def ReadPoolEntries_kClass (env : Env σ) (rd : σ) : Except DecodeError (Obj × σ) := do
  let (ref, rd) ← env.ReadCanonicalNameReference rd
  let obj ← env.LookupClassByKernelClass ref
  ASSERT obj.IsClass .isClass
  pure (obj, rd)

/-- Case `kTypeArgumentsField`. -/
def ReadPoolEntries_kTypeArgumentsField (env : Env σ) (rd : σ) :
    Except DecodeError (Obj × σ) := do
  let (ref, rd) ← env.ReadCanonicalNameReference rd
  let cls ← env.LookupClassByKernelClass ref
  pure (Obj.smi ((env.type_arguments_field_offset cls).tdiv env.kWordSize), rd)

/-- Case `kTearOff`. -/
def ReadPoolEntries_kTearOff (env : Env σ) (rd : σ) : Except DecodeError (Obj × σ) := do
  let (ref, rd) ← env.ReadCanonicalNameReference rd
  let obj ← env.LookupStaticMethodByKernelProcedure ref
  ASSERT obj.IsFunction .isFunction
  let obj := env.ImplicitClosureFunction obj
  ASSERT obj.IsFunction .isFunction
  let obj := env.ImplicitStaticClosure obj
  ASSERT obj.IsInstance .isInstance
  pure (env.Canonicalize obj, rd)

/-- Case `kType`. -/
def ReadPoolEntries_kType (env : Env σ) (scope : Scope) (rd : σ) :
    Except DecodeError (Obj × σ) := do
  let (obj, rd) ← env.BuildType scope rd
  ASSERT obj.IsAbstractType .isAbstractType
  pure (obj, rd)

/-- Case `kTypeArguments`. -/
def ReadPoolEntries_kTypeArguments (env : Env σ) (scope : Scope) (rd : σ) :
    Except DecodeError (Obj × σ) := do
  let (len, rd) ← env.ReadListLength rd
  let (obj, rd) ← env.BuildTypeArguments scope len rd
  ASSERT (obj.IsNull || obj.IsTypeArguments) .isNullOrTypeArguments
  pure (obj, rd)

/-- The element loop of `kList` at slot `i`: `n` elements still to read. -/
def ReadListElements (env : Env σ) (pool : ObjectPool) (i : Nat) :
    Nat → σ → Except DecodeError (List Obj × σ)
  | 0, rd => pure ([], rd)
  | n + 1, rd => do
    let (elem_index, rd) ← env.ReadUInt rd
    ASSERT (elem_index < i) .listElemIndex
    let elem := pool.ObjectAt elem_index
    let (rest, rd) ← ReadListElements env pool i n rd
    pure (elem :: rest, rd)

/-- Case `kList`, at slot `i`. -/
def ReadPoolEntries_kList (env : Env σ) (scope : Scope) (pool : ObjectPool) (i : Nat)
    (rd : σ) : Except DecodeError (Obj × σ) := do
  let (obj, rd) ← env.BuildType scope rd
  ASSERT obj.IsAbstractType .isAbstractType
  let (length, rd) ← env.ReadListLength rd
  let (elems, rd) ← ReadListElements env pool i length rd
  let obj := env.Canonicalize (Obj.array obj elems)
  ASSERT (!obj.IsNull) .notNull
  pure (obj, rd)

/-- The field loop of `kInstance` at slot `i`: `n` fields still to read. -/
def ReadInstanceFields (env : Env σ) (pool : ObjectPool) (i : Nat) :
    Nat → σ → Except DecodeError (List (Obj × Obj) × σ)
  | 0, rd => pure ([], rd)
  | n + 1, rd => do
    let (field_name, rd) ← env.ReadCanonicalNameReference rd
    ASSERT (env.IsField field_name) .nameIsField
    let field ← env.LookupFieldByKernelField field_name
    let (elem_index, rd) ← env.ReadUInt rd
    ASSERT (elem_index < i) .instanceElemIndex
    let elem := pool.ObjectAt elem_index
    let (rest, rd) ← ReadInstanceFields env pool i n rd
    pure ((field, elem) :: rest, rd)

/-- Case `kInstance`, at slot `i`. -/
def ReadPoolEntries_kInstance (env : Env σ) (pool : ObjectPool) (i : Nat) (rd : σ) :
    Except DecodeError (Obj × σ) := do
  let (ref, rd) ← env.ReadCanonicalNameReference rd
  let cls ← env.LookupClassByKernelClass ref
  let (type_args_index, rd) ← env.ReadUInt rd
  ASSERT (type_args_index < i) .instanceTypeArgsIndex
  let type_args := pool.ObjectAt type_args_index
  let (num_fields, rd) ← env.ReadUInt rd
  let (fields, rd) ← ReadInstanceFields env pool i num_fields rd
  pure (env.Canonicalize (Obj.plainInstance cls type_args fields), rd)

/-- Case `kTypeArgumentsForInstanceAllocation`. -/
def ReadPoolEntries_kTypeArgumentsForInstanceAllocation (env : Env σ) (scope : Scope)
    (rd : σ) : Except DecodeError (Obj × σ) := do
  let (ref, rd) ← env.ReadCanonicalNameReference rd
  let cls ← env.LookupClassByKernelClass ref
  let (len, rd) ← env.ReadListLength rd
  let (obj, rd) ← env.BuildInstantiatedTypeArguments scope cls len rd
  ASSERT (obj.IsNull || obj.IsTypeArguments) .isNullOrTypeArguments
  pure (obj, rd)

/-- Case `kPartialTearOffInstantiation`, at slot `i`. -/
def ReadPoolEntries_kPartialTearOffInstantiation (env : Env σ) (pool : ObjectPool)
    (i : Nat) (rd : σ) : Except DecodeError (Obj × σ) := do
  let (tearoff_index, rd) ← env.ReadUInt rd
  ASSERT (tearoff_index < i) .tearoffIndex
  match pool.ObjectAt tearoff_index with
  | .closure instantiator_type_arguments function_type_arguments _ function context => do
    let (type_args_index, rd) ← env.ReadUInt rd
    ASSERT (type_args_index < i) .partialTypeArgsIndex
    let type_args := pool.ObjectAt type_args_index
    let obj := Obj.closure instantiator_type_arguments function_type_arguments type_args
      function context
    pure (env.Canonicalize obj, rd)
  | _ => throw (DecodeError.assertFailed .checkedHandleClosure)

/-- Case `kSymbol`. -/
def ReadPoolEntries_kSymbol (env : Env σ) (rd : σ) : Except DecodeError (Obj × σ) := do
  let (lib_index, rd) ← env.ReadCanonicalNameReference rd
  let lib ←
    if env.IsRoot lib_index then pure Obj.null
    else env.LookupLibraryByKernelLibrary lib_index
  let (ref, rd) ← env.ReadStringReference rd
  let symbol := env.DartIdentifier lib ref
  let elem := env.InternalLibrary
  ASSERT (!elem.IsNull) .symbolClass
  let symbol_class := env.LookupSymbolClass elem
  ASSERT (!symbol_class.IsNull) .symbolClass
  let symbol_name_field := env.LookupSymbolNameField symbol_class
  ASSERT (!symbol_name_field.IsNull) .symbolClass
  let obj := Obj.plainInstance symbol_class Obj.null [(symbol_name_field, Obj.string symbol)]
  pure (env.Canonicalize obj, rd)

/-! ## Closures and native entries -/

/-- The two parameter loops of `kClosureFunction`: `n` parameters still to
read, the next one written at position `pos`.  Returns the calls of
`SetParameterTypeAt` and `SetParameterNameAt`, in order. -/
def ReadClosureParameters (env : Env σ) (scope : Scope) (lib : Obj) :
    Nat → Nat → σ → Except DecodeError (List (Nat × Obj) × List (Nat × String) × σ)
  | 0, _, rd => pure ([], [], rd)
  | n + 1, pos, rd => do
    let (name_index, rd) ← env.VariableDeclaration_ReadUntilExcluding_kType rd
    let (type, rd) ← env.BuildVariableType scope rd
    let (tag, rd) ← env.ReadTag rd
    let rd ← if tag = env.kSomething then env.SkipExpression rd else pure rd
    let (types, names, rd) ← ReadClosureParameters env scope lib n (pos + 1) rd
    pure ((pos, type) :: types, (pos, env.DartIdentifier lib name_index) :: names, rd)

/-- Case `kClosureFunction` up to, and excluding, the store into the pool:
the closure function that is built. -/
def ReadPoolEntries_kClosureFunction (env : Env σ) (inner_function : Obj) (scope : Scope)
    (rd : σ) : Except DecodeError (ClosureData Obj × σ) := do
  let (ref, rd) ← env.ReadStringReference rd
  let name := env.DartSymbolPlain ref
  let (function_node_helper, rd) ← env.FunctionNode_ReadUntilExcluding_kTypeParameters rd
  let (num_type_params, rd) ← env.ReadListLength rd
  let (type_parameters, rd) ←
    env.LoadAndSetupTypeParameters scope name inner_function num_type_params rd
  let scope := type_parameters :: scope
  let (function_node_helper, rd) ←
    env.FunctionNode_ReadUntilExcluding_kPositionalParameters function_node_helper rd
  let required_parameter_count := function_node_helper.required_parameter_count_
  let total_parameter_count := function_node_helper.total_parameter_count_
  let (positional_parameter_count, rd) ← env.ReadListLength rd
  let named_parameter_count : Int := total_parameter_count - positional_parameter_count
  let extra_parameters : Int := 1
  let parameter_count := extra_parameters + total_parameter_count
  let lib := env.active_class_library
  let (types1, names1, rd) ←
    ReadClosureParameters env scope lib positional_parameter_count 1 rd
  let (named_parameter_count_check, rd) ← env.ReadListLength rd
  ASSERT ((named_parameter_count_check : Int) = named_parameter_count) .namedParameterCount
  let (types2, names2, rd) ←
    ReadClosureParameters env scope lib named_parameter_count.toNat
      (1 + positional_parameter_count) rd
  let (return_type, rd) ← env.BuildVariableType scope rd
  let rd ← env.FunctionNode_ReadUntilExcluding_kEnd function_node_helper rd
  let closure : ClosureData Obj :=
    { name := name
      parent := inner_function
      type_parameters := type_parameters
      num_fixed_parameters := extra_parameters + required_parameter_count
      num_optional_parameters :=
        if named_parameter_count > 0 then named_parameter_count
        else positional_parameter_count - required_parameter_count
      optional_are_positional := if named_parameter_count > 0 then false else true
      parameter_count := parameter_count
      parameterTypeWrites := (0, env.dynamic_type) :: (types1 ++ types2)
      parameterNameWrites := (0, env.Symbols_ClosureParameter) :: (names1 ++ names2)
      result_type := return_type
      signature_type := Obj.null }
  let signature_type := env.FinalizeType (env.SignatureType closure)
  pure ({ closure with signature_type := signature_type }, rd)

/-- The `switch` of `NativeEntry`: the recognized kinds that are kept. -/
def NativeEntry_kind : MethodRecognizerKind → MethodRecognizerKind
  | .kObjectEquals => .kObjectEquals
  | .kStringBaseLength => .kStringBaseLength
  | .kStringBaseIsEmpty => .kStringBaseIsEmpty
  | .kGrowableArrayLength => .kGrowableArrayLength
  | .kObjectArrayLength => .kObjectArrayLength
  | .kImmutableArrayLength => .kImmutableArrayLength
  | .kTypedDataLength => .kTypedDataLength
  | .kClassIDgetID => .kClassIDgetID
  | .kGrowableArrayCapacity => .kGrowableArrayCapacity
  | .kListFactory => .kListFactory
  | .kObjectArrayAllocate => .kObjectArrayAllocate
  | .kLinkedHashMap_getIndex => .kLinkedHashMap_getIndex
  | .kLinkedHashMap_setIndex => .kLinkedHashMap_setIndex
  | .kLinkedHashMap_getData => .kLinkedHashMap_getData
  | .kLinkedHashMap_setData => .kLinkedHashMap_setData
  | .kLinkedHashMap_getHashMask => .kLinkedHashMap_getHashMask
  | .kLinkedHashMap_setHashMask => .kLinkedHashMap_setHashMask
  | .kLinkedHashMap_getUsedData => .kLinkedHashMap_getUsedData
  | .kLinkedHashMap_setUsedData => .kLinkedHashMap_setUsedData
  | .kLinkedHashMap_getDeletedKeys => .kLinkedHashMap_getDeletedKeys
  | .kLinkedHashMap_setDeletedKeys => .kLinkedHashMap_setDeletedKeys
  | _ => .kUnknown

/-- The case labels of the `switch` of `NativeEntry`, in the order of the
source. -/
def NativeEntry_cases : List MethodRecognizerKind :=
  [.kObjectEquals, .kStringBaseLength, .kStringBaseIsEmpty, .kGrowableArrayLength,
    .kObjectArrayLength, .kImmutableArrayLength, .kTypedDataLength, .kClassIDgetID,
    .kGrowableArrayCapacity, .kListFactory, .kObjectArrayAllocate, .kLinkedHashMap_getIndex,
    .kLinkedHashMap_setIndex, .kLinkedHashMap_getData, .kLinkedHashMap_setData,
    .kLinkedHashMap_getHashMask, .kLinkedHashMap_setHashMask, .kLinkedHashMap_getUsedData,
    .kLinkedHashMap_setUsedData, .kLinkedHashMap_getDeletedKeys,
    .kLinkedHashMap_setDeletedKeys]

/-- The function `BytecodeMetadataHelper::NativeEntry`. -/
def NativeEntry (env : Env σ) (function : Obj) (external_name : String) :
    Except DecodeError Obj := do
  let kind := NativeEntry_kind (env.RecognizeKind function)
  if kind = .kUnknown then
    if env.FLAG_link_natives_lazily = false then
      let cls := env.FunctionOwner function
      let library := env.ClassLibrary cls
      let is_bootstrap_native := env.IsBootstrapResolver library
      let num_params := env.ParameterCountForResolution function
      let (native_function, is_auto_scope) :=
        env.ResolveNative library external_name num_params
      ASSERT native_function.isSome .nativeFunctionResolved
      let trampoline :=
        if is_bootstrap_native then Trampoline.BootstrapNativeCallWrapper
        else if is_auto_scope then Trampoline.AutoScopeNativeCallWrapper
        else Trampoline.NoScopeNativeCallWrapper
      pure (Obj.nativeEntryData kind (some trampoline) native_function
        (env.ComputeArgcTag function))
    else
      pure (Obj.nativeEntryData kind none none (env.ComputeArgcTag function))
  else
    pure (Obj.nativeEntryData kind none none 0)

/-- Case `kNativeEntry` up to, and excluding, the store into the pool. -/
def ReadPoolEntries_kNativeEntry (env : Env σ) (function : Obj) (rd : σ) :
    Except DecodeError (Obj × σ) := do
  let (ref, rd) ← env.ReadStringReference rd
  let name := env.DartString ref
  let obj ← NativeEntry env function name
  pure (obj, rd)

/-- Case `kInstanceField` up to, and excluding, the first store: the offset
stored in the first slot and the field stored in the second. -/
def ReadPoolEntries_kInstanceField (env : Env σ) (rd : σ) :
    Except DecodeError (Obj × Obj × σ) := do
  let (ref, rd) ← env.ReadCanonicalNameReference rd
  let field ← env.LookupFieldByKernelField ref
  pure (Obj.smi ((env.FieldOffset field).tdiv env.kWordSize), field, rd)

/-! ## The tag dispatch -/

/-- The enumeration `ConstantPoolTag`. -/
inductive ConstantPoolTag where
  | kInvalid
  | kNull
  | kString
  | kInt
  | kDouble
  | kBool
  | kArgDesc
  | kICData
  | kStaticICData
  | kStaticField
  | kInstanceField
  | kClass
  | kTypeArgumentsField
  | kTearOff
  | kType
  | kTypeArguments
  | kList
  | kInstance
  | kTypeArgumentsForInstanceAllocation
  | kClosureFunction
  | kEndClosureFunctionScope
  | kNativeEntry
  | kSubtypeTestCache
  | kPartialTearOffInstantiation
  | kEmptyTypeArguments
  | kSymbol
  deriving DecidableEq, Repr

/-- The enumerator with a given value, if there is one. -/
def ConstantPoolTag.ofValue : Nat → Option ConstantPoolTag
  | 0 => some .kInvalid
  | 1 => some .kNull
  | 2 => some .kString
  | 3 => some .kInt
  | 4 => some .kDouble
  | 5 => some .kBool
  | 6 => some .kArgDesc
  | 7 => some .kICData
  | 8 => some .kStaticICData
  | 9 => some .kStaticField
  | 10 => some .kInstanceField
  | 11 => some .kClass
  | 12 => some .kTypeArgumentsField
  | 13 => some .kTearOff
  | 14 => some .kType
  | 15 => some .kTypeArguments
  | 16 => some .kList
  | 17 => some .kInstance
  | 18 => some .kTypeArgumentsForInstanceAllocation
  | 19 => some .kClosureFunction
  | 20 => some .kEndClosureFunctionScope
  | 21 => some .kNativeEntry
  | 22 => some .kSubtypeTestCache
  | 23 => some .kPartialTearOffInstantiation
  | 24 => some .kEmptyTypeArguments
  | 25 => some .kSymbol
  | _ => none

/-- The value of an enumerator. -/
def ConstantPoolTag.value : ConstantPoolTag → Nat
  | .kInvalid => 0
  | .kNull => 1
  | .kString => 2
  | .kInt => 3
  | .kDouble => 4
  | .kBool => 5
  | .kArgDesc => 6
  | .kICData => 7
  | .kStaticICData => 8
  | .kStaticField => 9
  | .kInstanceField => 10
  | .kClass => 11
  | .kTypeArgumentsField => 12
  | .kTearOff => 13
  | .kType => 14
  | .kTypeArguments => 15
  | .kList => 16
  | .kInstance => 17
  | .kTypeArgumentsForInstanceAllocation => 18
  | .kClosureFunction => 19
  | .kEndClosureFunctionScope => 20
  | .kNativeEntry => 21
  | .kSubtypeTestCache => 22
  | .kPartialTearOffInstantiation => 23
  | .kEmptyTypeArguments => 24
  | .kSymbol => 25

/-- Pairs `(obj, rd)` of a case that leaves the deopt-id counter alone. -/
def keepDeopt (deopt : Nat) (r : Except DecodeError (Obj × σ)) :
    Except DecodeError (Obj × σ × Nat) :=
  r.map fun p => (p.1, p.2, deopt)

/-- The cases of the `switch` that compute `obj` for slot `i` and leave the
store to the end of the loop body (`break`), with `kInvalid` and `default`.
The four cases that store by themselves (`kInstanceField`, `kClosureFunction`,
`kEndClosureFunctionScope`, `kNativeEntry`) are in `ReadPoolEntriesLoop`. -/
def ReadPoolEntry (env : Env σ) (function : Obj) (scope : Scope) (pool : ObjectPool)
    (i : Nat) (tag : Option ConstantPoolTag) (rd : σ) (deopt : Nat) :
    Except DecodeError (Obj × σ × Nat) :=
  match tag with
  | some .kInvalid => throw DecodeError.unreachable
  | some .kNull => pure (Obj.null, rd, deopt)
  | some .kString => keepDeopt deopt (ReadPoolEntries_kString env rd)
  | some .kInt => keepDeopt deopt (ReadPoolEntries_kInt env rd)
  | some .kDouble => keepDeopt deopt (ReadPoolEntries_kDouble env rd)
  | some .kBool => keepDeopt deopt (ReadPoolEntries_kBool env rd)
  | some .kArgDesc => keepDeopt deopt (ReadPoolEntries_kArgDesc env rd)
  | some .kICData => ReadPoolEntries_kICData env function pool i rd deopt
  | some .kStaticICData => ReadPoolEntries_kStaticICData env function pool i rd deopt
  | some .kStaticField => keepDeopt deopt (ReadPoolEntries_kStaticField env rd)
  | some .kClass => keepDeopt deopt (ReadPoolEntries_kClass env rd)
  | some .kTypeArgumentsField => keepDeopt deopt (ReadPoolEntries_kTypeArgumentsField env rd)
  | some .kTearOff => keepDeopt deopt (ReadPoolEntries_kTearOff env rd)
  | some .kType => keepDeopt deopt (ReadPoolEntries_kType env scope rd)
  | some .kTypeArguments => keepDeopt deopt (ReadPoolEntries_kTypeArguments env scope rd)
  | some .kList => keepDeopt deopt (ReadPoolEntries_kList env scope pool i rd)
  | some .kInstance => keepDeopt deopt (ReadPoolEntries_kInstance env pool i rd)
  | some .kTypeArgumentsForInstanceAllocation =>
    keepDeopt deopt (ReadPoolEntries_kTypeArgumentsForInstanceAllocation env scope rd)
  | some .kSubtypeTestCache => pure (Obj.subtypeTestCache, rd, deopt)
  | some .kPartialTearOffInstantiation =>
    keepDeopt deopt (ReadPoolEntries_kPartialTearOffInstantiation env pool i rd)
  | some .kEmptyTypeArguments => pure (Obj.emptyTypeArguments, rd, deopt)
  | some .kSymbol => keepDeopt deopt (ReadPoolEntries_kSymbol env rd)
  | _ => throw DecodeError.unreachable

/-! ## The loop of `ReadPoolEntries` -/

/-- What the loop did, in order: a tag read for a slot, and a store
(`SetTypeAt` followed by `SetObjectAt`) into a slot. -/
inductive Event where
  | tag (i : Nat) (tag : Nat)
  | store (i : Nat)
  deriving DecidableEq, Repr

/-- The state the decoder threads: the reader cursor, the pool, the deopt-id
counter of the compiler state, and the record of what the loop did. -/
structure DecodeState (σ : Type) where
  reader : σ
  pool : ObjectPool
  deopt_id : Nat
  trace : List Event

/-- The pair `pool.SetTypeAt(i, type, ObjectPool::kNotPatchable);
pool.SetObjectAt(i, obj);`. -/
def DecodeState.store (st : DecodeState σ) (i : Nat) (type : EntryType) (obj : Obj) :
    DecodeState σ :=
  { st with
    pool := (st.pool.SetTypeAt i type .kNotPatchable).SetObjectAt i obj
    trace := st.trace ++ [Event.store i] }

/-- The state after `ReadTag` returned `tag` for slot `i`. -/
def DecodeState.afterTag (st : DecodeState σ) (i tag : Nat) (rd : σ) : DecodeState σ :=
  { st with reader := rd, trace := st.trace ++ [Event.tag i tag] }

/-- The loop of `ReadPoolEntries` from index `i`, with `inner_function` and
the active scope.  The first argument bounds the depth of nested loop
iterations and recursive calls; the result is `none` when it is too small
(`ReadPoolEntries` supplies enough, see `ReadPoolEntriesLoop_fuel`).  A failure
inside an entry is reported with the state reached when its tag had been
read. -/
def ReadPoolEntriesLoop (env : Env σ) (function : Obj) :
    Nat → Obj → Scope → Nat → DecodeState σ →
      Option (Except (DecodeError × DecodeState σ) (Int × DecodeState σ))
  | 0, _, _, _, _ => none
  | fuel + 1, inner_function, scope, i, st =>
    let obj_count := st.pool.Length
    if i < obj_count then
      match env.ReadTag st.reader with
      | .error e => some (.error (e, st))
      | .ok (tag, rd) =>
        let st := st.afterTag i tag rd
        match ConstantPoolTag.ofValue tag with
        | some .kInstanceField =>
          match ReadPoolEntries_kInstanceField env rd with
          | .error e => some (.error (e, st))
          | .ok (obj, field, rd) =>
            let st := ({ st with reader := rd }).store i .kTaggedObject obj
            if i + 1 < obj_count then
              ReadPoolEntriesLoop env function fuel inner_function scope (i + 1 + 1)
                (st.store (i + 1) .kTaggedObject field)
            else some (.error (.assertFailed .instanceFieldSecondSlot, st))
        | some .kClosureFunction =>
          match ReadPoolEntries_kClosureFunction env inner_function scope rd with
          | .error e => some (.error (e, st))
          | .ok (closure, rd) =>
            let st := ({ st with reader := rd }).store i .kTaggedObject
              (Obj.closureFunction closure)
            match ReadPoolEntriesLoop env function fuel (Obj.closureFunction closure)
                (closure.type_parameters :: scope) (i + 1) st with
            | none => none
            | some (.error e) => some (.error e)
            | some (.ok (r, st)) =>
              if (st.pool.ObjectAt r.toNat).IsNull then
                ReadPoolEntriesLoop env function fuel inner_function scope (r.toNat + 1) st
              else some (.error (.assertFailed .closureScopeClosed, st))
        | some .kEndClosureFunctionScope =>
          some (.ok ((i : Int), st.store i .kTaggedObject Obj.null))
        | some .kNativeEntry =>
          match ReadPoolEntries_kNativeEntry env function rd with
          | .error e => some (.error (e, st))
          | .ok (obj, rd) =>
            ReadPoolEntriesLoop env function fuel inner_function scope (i + 1)
              (({ st with reader := rd }).store i .kNativeEntryData obj)
        | tag =>
          match ReadPoolEntry env function scope st.pool i tag rd st.deopt_id with
          | .error e => some (.error (e, st))
          | .ok (obj, rd, deopt) =>
            ReadPoolEntriesLoop env function fuel inner_function scope (i + 1)
              (({ st with reader := rd, deopt_id := deopt }).store i .kTaggedObject obj)
    else some (.ok ((obj_count : Int) - 1, st))

/-- The function `BytecodeMetadataHelper::ReadPoolEntries(function,
inner_function, pool, from_index)`, under the active scope.  The bound given
to the loop is never exhausted (`ReadPoolEntriesLoop_fuel`), so the last
alternative is not taken. -/
def ReadPoolEntries (env : Env σ) (function inner_function : Obj) (scope : Scope)
    (st : DecodeState σ) (from_index : Nat) :
    Except (DecodeError × DecodeState σ) (Int × DecodeState σ) :=
  match ReadPoolEntriesLoop env function (st.pool.Length - from_index + 1) inner_function
      scope from_index st with
  | some r => r
  | none => .error (.outOfFuel, st)

/-! ## Bytecode, exception tables and `ReadMetadata` -/

/-- The values of `RawPcDescriptors::Kind`: `kOther`, the only one the decoder
passes to `AddDescriptor`, and every other kind. -/
inductive PcDescriptorKind where
  | kOther
  | other (id : Nat)
  deriving DecidableEq, Repr

/-- One call of `DescriptorList::AddDescriptor(kind,
pc_offset, DeoptId::kNone, TokenPosition::kNoSource, try_index)`. -/
structure PcDescriptor where
  kind : PcDescriptorKind
  pc_offset : Int
  try_index : Int
  deriving DecidableEq, Repr

/-- One call of `ExceptionHandlerList::AddHandler`. -/
structure ExceptionHandler where
  try_index : Nat
  outer_try_index : Int
  pc_offset : Int
  is_generated : Bool
  handler_types : List Obj
  needs_stacktrace : Bool

/-- A code object made by `Code::FinalizeBytecode(data, size, pool)`: the
offset of its instructions in the buffer, their size, its pool, and the
descriptors and handlers once they are set. -/
structure Code where
  data : Nat
  size : Nat
  object_pool : ObjectPool
  pc_descriptors : Option (List PcDescriptor)
  exception_handlers : Option (List ExceptionHandler)

/-- Modelled from the spec: `Reader::BufferAt(offset)`, whose body is not in
the source tree.  The specification gives the reader one failure of its own,
`TruncatedStream`, for a read past the end of the buffer: a position past the
last byte is reported, every other position is returned as the start of the
byte range. -/
def Reader.BufferAt (env : Env σ) (offset : Nat) (rd : σ) : Except DecodeError Nat :=
  if offset ≤ env.size rd then .ok offset else .error .truncatedStream

/-- Modelled from the spec: `Reader::set_offset(offset)`, whose body is not in
the source tree.  Moving the cursor past the end of the buffer is
`TruncatedStream`; every other position is stored in the cursor. -/
def Reader.set_offset (env : Env σ) (offset : Nat) (rd : σ) : Except DecodeError σ :=
  if offset ≤ env.size rd then .ok (env.set_offset offset rd) else .error .truncatedStream

/-- The function `BytecodeMetadataHelper::ReadBytecode`.  The code object of
`Code::FinalizeBytecode(data, size, pool)` keeps the start of the byte range,
its length and the pool. -/
def ReadBytecode (env : Env σ) (pool : ObjectPool) (rd : σ) : Except DecodeError (Code × σ) := do
  let (size, rd) ← env.ReadUInt rd
  let offset := env.offset rd
  let data ← Reader.BufferAt env offset rd
  let rd ← Reader.set_offset env (offset + size) rd
  pure (⟨data, size, pool, none, none⟩, rd)

/-- The loop of `ReadExceptionsTable` over the handled types of one region:
`n` types still to read. -/
def ReadHandlerTypes (env : Env σ) (pool : ObjectPool) :
    Nat → σ → Except DecodeError (List Obj × σ)
  | 0, rd => pure ([], rd)
  | n + 1, rd => do
    let (type_index, rd) ← env.ReadUInt rd
    ASSERT (type_index < pool.Length) .typeIndex
    let handler_type := pool.ObjectAt type_index
    let (rest, rd) ← ReadHandlerTypes env pool n rd
    pure (handler_type :: rest, rd)

/-- Constant `kFlagNeedsStackTrace`. -/
def kFlagNeedsStackTrace : Nat := 1 <<< 0

/-- Constant `kFlagIsSynthetic`. -/
def kFlagIsSynthetic : Nat := 1 <<< 1

/-- The loop of `ReadExceptionsTable` over the try blocks: `n` blocks still to
read, the next one with index `try_index`. -/
def ReadTryBlocks (env : Env σ) (pool : ObjectPool) :
    Nat → Nat → σ → Except DecodeError (List PcDescriptor × List ExceptionHandler × σ)
  | 0, _, rd => pure ([], [], rd)
  | n + 1, try_index, rd => do
    let (outer_try_index_plus1, rd) ← env.ReadUInt rd
    let outer_try_index : Int := (outer_try_index_plus1 : Int) - 1
    let (pc, rd) ← env.ReadUInt rd
    let start_pc := env.BytecodePcToOffset pc true
    let (pc, rd) ← env.ReadUInt rd
    let end_pc := env.BytecodePcToOffset pc true
    let (pc, rd) ← env.ReadUInt rd
    let handler_pc := env.BytecodePcToOffset pc false
    let (flags, rd) ← env.ReadByte rd
    let flags := flags % 2 ^ 8
    let needs_stacktrace := (flags &&& kFlagNeedsStackTrace) != 0
    let is_generated := (flags &&& kFlagIsSynthetic) != 0
    let (type_count, rd) ← env.ReadListLength rd
    ASSERT (type_count > 0) .typeCount
    let (handler_types, rd) ← ReadHandlerTypes env pool type_count rd
    let (descriptors, handlers, rd) ← ReadTryBlocks env pool n (try_index + 1) rd
    pure (⟨.kOther, start_pc, try_index⟩ :: ⟨.kOther, end_pc, -1⟩ :: descriptors,
      ⟨try_index, outer_try_index, handler_pc, is_generated, handler_types,
        needs_stacktrace⟩ :: handlers, rd)

/-- The function `BytecodeMetadataHelper::ReadExceptionsTable`: the code
object with its descriptors and handlers set. -/
def ReadExceptionsTable (env : Env σ) (bytecode : Code) (has_exceptions_table : Bool)
    (rd : σ) : Except DecodeError (Code × σ) := do
  let (try_block_count, rd) ←
    if has_exceptions_table then env.ReadListLength rd else pure (0, rd)
  if try_block_count > 0 then
    let pool := bytecode.object_pool
    let (descriptors, handlers, rd) ← ReadTryBlocks env pool try_block_count 0 rd
    pure ({ bytecode with
      pc_descriptors := some descriptors, exception_handlers := some handlers }, rd)
  else
    pure ({ bytecode with pc_descriptors := some [], exception_handlers := some [] }, rd)

/-- The state of one load: the decoder state, the calls of `AttachBytecode`
(target and code object, the code object as updated since), and the fields for
which `RecordStore(Object::null_object())` was called. -/
structure LoadState (σ : Type) where
  dec : DecodeState σ
  attached : List (Obj × Code)
  recorded_stores : List Obj

/-- The loop of `ReadMetadata` over the nullable fields: `n` still to read. -/
def ReadNullableFields (env : Env σ) : Nat → σ → Except DecodeError (List Obj × σ)
  | 0, rd => pure ([], rd)
  | n + 1, rd =>
    if env.use_field_guards then do
      let (name_index, rd) ← env.ReadCanonicalNameReference rd
      let field ← env.LookupFieldByKernelField name_index
      let (rest, rd) ← ReadNullableFields env n rd
      pure (field :: rest, rd)
    else do
      let rd ← env.SkipCanonicalNameReference rd
      ReadNullableFields env n rd

/-- The loop of `ReadMetadata` over the closures: `n` still to read. -/
def ReadClosures (env : Env σ) (pool : ObjectPool) (obj_count : Nat) :
    Nat → LoadState σ → Except (DecodeError × LoadState σ) (LoadState σ)
  | 0, ls => .ok ls
  | n + 1, ls =>
    match env.ReadUInt ls.dec.reader with
    | .error e => .error (e, ls)
    | .ok (closure_index, rd) =>
      let ls := { ls with dec := { ls.dec with reader := rd } }
      if closure_index < obj_count then
        let closure := pool.ObjectAt closure_index
        match ReadBytecode env pool rd with
        | .error e => .error (e, ls)
        | .ok (closure_bytecode, rd) =>
          let ls := { ls with
            dec := { ls.dec with reader := rd }
            attached := ls.attached ++ [(closure, closure_bytecode)] }
          match ReadExceptionsTable env closure_bytecode env.has_exceptions_table_default rd with
          | .error e => .error (e, ls)
          | .ok (closure_bytecode, rd) =>
            ReadClosures env pool obj_count n
              { ls with
                dec := { ls.dec with reader := rd }
                attached := ls.attached.dropLast ++ [(closure, closure_bytecode)] }
      else .error (.assertFailed .closureIndex, ls)

/-- Constant `kHasExceptionsTableFlag`. -/
def kHasExceptionsTableFlag : Nat := 1 <<< 0

/-- Constant `kHasNullableFieldsFlag`. -/
def kHasNullableFieldsFlag : Nat := 1 <<< 1

/-- Constant `kHasClosuresFlag`. -/
def kHasClosuresFlag : Nat := 1 <<< 2

/-- The function `BytecodeMetadataHelper::ReadMetadata(function)`, started
with the bytecode attached so far and the current deopt-id counter.  Returns
`none` when the function has no bytecode metadata; the cursor of the state
returned is that of the `AlternativeReadingScope` when the function ends.
The dump under `FLAG_dump_kernel_bytecode` is left out. -/
def ReadMetadata (env : Env σ) (function : Obj) (attached : List (Obj × Code))
    (deopt_id : Nat) : Except (DecodeError × LoadState σ) (Option (LoadState σ)) :=
  let md_offset := env.GetNextMetadataPayloadOffset function
  if md_offset < 0 then .ok none
  else
    let rd := env.metadata_payloads md_offset.toNat
    let ls : LoadState σ := ⟨⟨rd, ObjectPool.New 0, deopt_id, []⟩, attached, []⟩
    match env.ReadUInt rd with
    | .error e => .error (e, ls)
    | .ok (flags, rd) =>
      let has_exceptions_table := (flags &&& kHasExceptionsTableFlag) != 0
      let has_nullable_fields := (flags &&& kHasNullableFieldsFlag) != 0
      let has_closures := (flags &&& kHasClosuresFlag) != 0
      let ls := { ls with dec := { ls.dec with reader := rd } }
      match env.ReadListLength rd with
      | .error e => .error (e, ls)
      | .ok (obj_count, rd) =>
        let pool := ObjectPool.New obj_count
        match ReadPoolEntries env function function [] ⟨rd, pool, 0, []⟩ 0 with
        | .error (e, st) => .error (e, { ls with dec := st })
        | .ok (_, st) =>
          let st := { st with deopt_id := deopt_id }
          let pool := st.pool
          let ls := { ls with dec := st }
          match ReadBytecode env pool st.reader with
          | .error e => .error (e, ls)
          | .ok (bytecode, rd) =>
            let ls := { ls with
              dec := { ls.dec with reader := rd }
              attached := ls.attached ++ [(function, bytecode)] }
            match ReadExceptionsTable env bytecode has_exceptions_table rd with
            | .error e => .error (e, ls)
            | .ok (bytecode, rd) =>
              let ls := { ls with
                dec := { ls.dec with reader := rd }
                attached := ls.attached.dropLast ++ [(function, bytecode)] }
              let nullable : Except (DecodeError × LoadState σ) (LoadState σ) :=
                if has_nullable_fields then
                  if env.IsGenerativeConstructor function then
                    match env.ReadListLength rd with
                    | .error e => .error (e, ls)
                    | .ok (num_fields, rd) =>
                      let ls := { ls with dec := { ls.dec with reader := rd } }
                      match ReadNullableFields env num_fields rd with
                      | .error e => .error (e, ls)
                      | .ok (fields, rd) =>
                        .ok { ls with
                          dec := { ls.dec with reader := rd }
                          recorded_stores := ls.recorded_stores ++ fields }
                  else .error (.assertFailed .isGenerativeConstructor, ls)
                else .ok ls
              match nullable with
              | .error e => .error e
              | .ok ls =>
                if has_closures then
                  match env.ReadListLength ls.dec.reader with
                  | .error e => .error (e, ls)
                  | .ok (num_closures, rd) =>
                    (ReadClosures env pool obj_count num_closures
                      { ls with dec := { ls.dec with reader := rd } }).map some
                else .ok (some ls)

/-- What a call of `ReadFunctionBytecode` leaves behind: the error it returns
(`none` for `Error::null()`), the calls of `AttachBytecode` made (target and
code object, as updated since) and the fields `RecordStore` was called for. -/
structure LoadResult where
  error : Option DecodeError
  attached : List (Obj × Code)
  recorded_stores : List Obj

/-- The function `BytecodeReader::ReadFunctionBytecode`, called when
`function.HasBytecode()` is `has_bytecode` and the sticky error of the thread
is `sticky_error`.  A failure inside `ReadMetadata` ends the first branch of
`setjmp`; the second branch returns the error and does nothing else to the
function. -/
def ReadFunctionBytecode (env : Env σ) (function : Obj) (has_bytecode : Bool)
    (sticky_error : Option DecodeError) (deopt_id : Nat) : LoadResult :=
  let asserts : Except DecodeError Unit := do
    ASSERT (!env.FLAG_precompiled_mode) .notPrecompiledMode
    ASSERT (!has_bytecode) .hasNoBytecode
    ASSERT sticky_error.isNone .noStickyError
  match asserts with
  | .error e => ⟨some e, [], []⟩
  | .ok _ =>
    match ReadMetadata env function [] deopt_id with
    | .ok none => ⟨none, [], []⟩
    | .ok (some ls) => ⟨none, ls.attached, ls.recorded_stores⟩
    | .error (e, ls) => ⟨some e, ls.attached, ls.recorded_stores⟩

end Entries

/-! ## An executable instance of the collaborators -/

/-- A reader over a buffer of already-split values: every primitive read
takes the value at the cursor and advances the cursor by one. -/
structure TokenReader where
  buf : List Nat
  pos : Nat
  deriving DecidableEq, Repr

/-- One read of a `TokenReader`; reading past the end of the buffer fails. -/
def TokenReader.next (rd : TokenReader) : Except DecodeError (Nat × TokenReader) :=
  match rd.buf.get? rd.pos with
  | some v => .ok (v, { rd with pos := rd.pos + 1 })
  | none => .error (.collaborator 0)

/-- A name made of `n` letters. -/
def tokenName (c : Char) (n : Nat) : String :=
  String.mk (List.replicate n c)

/-- Collaborators over a `TokenReader`: names, classes, fields, functions and
types are numbered, a lookup of number `n` returns the foreign object `n` of
its kind, word size 8, no canonicalization beyond identity of values. -/
def tokenEnv : Env TokenReader where
  ReadTag := TokenReader.next
  ReadByte := TokenReader.next
  ReadUInt := TokenReader.next
  ReadUInt32 := TokenReader.next
  ReadListLength := TokenReader.next
  ReadStringReference := TokenReader.next
  ReadCanonicalNameReference := TokenReader.next
  SkipCanonicalNameReference := fun rd => (TokenReader.next rd).map Prod.snd
  ReadNameAsGetterName := fun rd => (TokenReader.next rd).map fun p => (tokenName 'g' p.1, p.2)
  ReadNameAsSetterName := fun rd => (TokenReader.next rd).map fun p => (tokenName 's' p.1, p.2)
  ReadNameAsMethodName := fun rd => (TokenReader.next rd).map fun p => (tokenName 'm' p.1, p.2)
  SkipExpression := fun rd => (TokenReader.next rd).map Prod.snd
  size := fun rd => rd.buf.length
  offset := fun rd => rd.pos
  set_offset := fun n rd => { rd with pos := n }
  metadata_payloads := fun _ => ⟨[], 0⟩
  GetNextMetadataPayloadOffset := fun _ => 0
  kSomething := 1
  FunctionNode_ReadUntilExcluding_kTypeParameters := fun rd =>
    match TokenReader.next rd with
    | .error e => .error e
    | .ok (total, rd) =>
      match TokenReader.next rd with
      | .error e => .error e
      | .ok (required, rd) => .ok (⟨required, total⟩, rd)
  FunctionNode_ReadUntilExcluding_kPositionalParameters := fun h rd => .ok (h, rd)
  FunctionNode_ReadUntilExcluding_kEnd := fun _ rd => .ok rd
  VariableDeclaration_ReadUntilExcluding_kType := TokenReader.next
  BuildType := fun _ rd => (TokenReader.next rd).map fun p => (Obj.foreign .abstractType p.1, p.2)
  BuildVariableType := fun _ rd =>
    (TokenReader.next rd).map fun p => (Obj.foreign .abstractType p.1, p.2)
  BuildTypeArguments := fun _ n rd => .ok (Obj.foreign .typeArguments n, rd)
  BuildInstantiatedTypeArguments := fun _ _ n rd => .ok (Obj.foreign .typeArguments n, rd)
  LoadAndSetupTypeParameters := fun _ _ _ n rd => .ok (Obj.foreign .typeArguments n, rd)
  DartString := tokenName 'x'
  DartSymbolPlain := tokenName 'y'
  DartIdentifier := fun _ n => tokenName 'i' n
  DartConstructorName := tokenName 'c'
  DartGetterName := tokenName 'g'
  DartSetterName := tokenName 's'
  DartProcedureName := tokenName 'm'
  IsConstructor := fun n => n % 4 == 1
  IsField := fun n => n % 4 == 2
  IsGetter := fun n => n % 4 == 3
  IsRoot := fun n => n == 0
  Canonicalize := id
  LookupFieldByKernelField := fun n => .ok (Obj.foreign .field n)
  LookupClassByKernelClass := fun n => .ok (Obj.foreign .cls n)
  LookupLibraryByKernelLibrary := fun n => .ok (Obj.foreign .library n)
  LookupConstructorByKernelConstructor := fun n => .ok (Obj.foreign .function n)
  LookupStaticMethodByKernelProcedure := fun n => .ok (Obj.foreign .function n)
  kWordSize := 8
  FieldOffset := fun
    | .foreign .field n => 8 * n
    | _ => 0
  FieldOwner := fun _ => Obj.foreign .cls 0
  type_arguments_field_offset := fun _ => 8
  LookupFunctionAllowPrivate := fun _ _ => Obj.foreign .function 0
  GetMethodExtractor := fun f _ => f
  ImplicitClosureFunction := fun f => f
  ImplicitStaticClosure := fun f => Obj.closure Obj.null Obj.null Obj.null f Obj.null
  CountOfOther := fun _ => 0
  RecognizeTokenKind := fun s => s.length == 1
  NumArgsCheckedForStaticCall := fun _ => 0
  CreateDynamicInvocationForwarderName := fun s => String.mk ('d' :: s.data)
  simpleInstanceOf := tokenName 'm' 7
  Symbols_EqualOperator := tokenName 'm' 2
  Symbols_Call := tokenName 'm' 4
  FLAG_precompiled_mode := false
  should_emit_strong_mode_checks := true
  GetNextDeoptId := fun n => (n, n + 1)
  active_class_library := Obj.foreign .library 0
  dynamic_type := Obj.foreign .abstractType 0
  Symbols_ClosureParameter := tokenName 'p' 1
  SignatureType := fun d => d.result_type
  FinalizeType := id
  InternalLibrary := Obj.foreign .library 1
  LookupSymbolClass := fun _ => Obj.foreign .cls 1
  LookupSymbolNameField := fun _ => Obj.foreign .field 1
  RecognizeKind := fun
    | .foreign .function 1 => .kObjectEquals
    | .foreign .function 2 => .other 0
    | _ => .kUnknown
  FLAG_link_natives_lazily := false
  FunctionOwner := fun _ => Obj.foreign .cls 0
  ClassLibrary := fun _ => Obj.foreign .library 0
  IsBootstrapResolver := fun _ => false
  ParameterCountForResolution := fun _ => 0
  ResolveNative := fun _ name _ => (if name.length = 0 then none else some name.length, true)
  ComputeArgcTag := fun _ => 0
  BytecodePcToOffset := fun pc is_return_address => if is_return_address then pc else pc + 1
  IsGenerativeConstructor := fun _ => true
  use_field_guards := true
  has_exceptions_table_default := true

/-- The collaborators `tokenEnv` with the metadata payloads `buf`. -/
def tokenEnvOn (buf : List Nat) : Env TokenReader :=
  { tokenEnv with metadata_payloads := fun off => ⟨buf, off⟩ }

/-- A fresh decoder state over the given buffer, with a pool of `n` slots. -/
def tokenState (buf : List Nat) (n : Nat) : DecodeState TokenReader :=
  { reader := ⟨buf, 0⟩, pool := ObjectPool.New n, deopt_id := 0, trace := [] }

/-! ## Successful runs of the loop -/

/-- The tags whose case stores into the pool by itself. -/
def ConstantPoolTag.storesItself : Option ConstantPoolTag → Bool
  | some .kInstanceField => true
  | some .kClosureFunction => true
  | some .kEndClosureFunctionScope => true
  | some .kNativeEntry => true
  | _ => false

/-- The relation `Run env function inner scope i st r st' δ`: the loop started
at index `i` in state `st` returns `r` in state `st'`, and `δ` are the events
it adds to the trace.  One rule per way through the loop body; `Run_of_loop`
derives it from `ReadPoolEntriesLoop`. -/
inductive Run {σ : Type} (env : Env σ) (function : Obj) :
    Obj → Scope → Nat → DecodeState σ → Int → DecodeState σ → List Event → Prop where
  | exit (inner : Obj) (scope : Scope) (i : Nat) (st : DecodeState σ)
      (hi : ¬ i < st.pool.Length) :
      Run env function inner scope i st ((st.pool.Length : Int) - 1) st []
  | endScope (inner : Obj) (scope : Scope) (i : Nat) (st : DecodeState σ) (tag : Nat) (rd : σ)
      (hi : i < st.pool.Length) (htag : env.ReadTag st.reader = .ok (tag, rd))
      (hk : ConstantPoolTag.ofValue tag = some .kEndClosureFunctionScope) :
      Run env function inner scope i st (i : Int)
        ((st.afterTag i tag rd).store i .kTaggedObject Obj.null)
        [Event.tag i tag, Event.store i]
  | instanceField (inner : Obj) (scope : Scope) (i : Nat) (st : DecodeState σ) (tag : Nat)
      (rd rd' : σ) (obj field : Obj) (r : Int) (st' : DecodeState σ) (δ : List Event)
      (hi : i < st.pool.Length) (htag : env.ReadTag st.reader = .ok (tag, rd))
      (hk : ConstantPoolTag.ofValue tag = some .kInstanceField)
      (hentry : ReadPoolEntries_kInstanceField env rd = .ok (obj, field, rd'))
      (hi1 : i + 1 < st.pool.Length)
      (hrest : Run env function inner scope (i + 1 + 1)
        ((({ st.afterTag i tag rd with reader := rd' }).store i .kTaggedObject obj).store
          (i + 1) .kTaggedObject field) r st' δ) :
      Run env function inner scope i st r st'
        (Event.tag i tag :: Event.store i :: Event.store (i + 1) :: δ)
  | nativeEntry (inner : Obj) (scope : Scope) (i : Nat) (st : DecodeState σ) (tag : Nat)
      (rd rd' : σ) (obj : Obj) (r : Int) (st' : DecodeState σ) (δ : List Event)
      (hi : i < st.pool.Length) (htag : env.ReadTag st.reader = .ok (tag, rd))
      (hk : ConstantPoolTag.ofValue tag = some .kNativeEntry)
      (hentry : ReadPoolEntries_kNativeEntry env function rd = .ok (obj, rd'))
      (hrest : Run env function inner scope (i + 1)
        (({ st.afterTag i tag rd with reader := rd' }).store i .kNativeEntryData obj) r st' δ) :
      Run env function inner scope i st r st' (Event.tag i tag :: Event.store i :: δ)
  | plain (inner : Obj) (scope : Scope) (i : Nat) (st : DecodeState σ) (tag : Nat)
      (rd rd' : σ) (obj : Obj) (deopt : Nat) (r : Int) (st' : DecodeState σ) (δ : List Event)
      (hi : i < st.pool.Length) (htag : env.ReadTag st.reader = .ok (tag, rd))
      (hk : ConstantPoolTag.storesItself (ConstantPoolTag.ofValue tag) = false)
      (hentry : ReadPoolEntry env function scope st.pool i (ConstantPoolTag.ofValue tag) rd
        st.deopt_id = .ok (obj, rd', deopt))
      (hrest : Run env function inner scope (i + 1)
        (({ st.afterTag i tag rd with reader := rd', deopt_id := deopt }).store i
          .kTaggedObject obj) r st' δ) :
      Run env function inner scope i st r st' (Event.tag i tag :: Event.store i :: δ)
  | closure (inner : Obj) (scope : Scope) (i : Nat) (st : DecodeState σ) (tag : Nat)
      (rd rd' : σ) (closure : ClosureData Obj) (r1 : Int) (st1 : DecodeState σ) (r : Int)
      (st' : DecodeState σ) (δ1 δ2 : List Event)
      (hi : i < st.pool.Length) (htag : env.ReadTag st.reader = .ok (tag, rd))
      (hk : ConstantPoolTag.ofValue tag = some .kClosureFunction)
      (hentry : ReadPoolEntries_kClosureFunction env inner scope rd = .ok (closure, rd'))
      (hinner : Run env function (Obj.closureFunction closure)
        (closure.type_parameters :: scope) (i + 1)
        (({ st.afterTag i tag rd with reader := rd' }).store i .kTaggedObject
          (Obj.closureFunction closure)) r1 st1 δ1)
      (hnull : (st1.pool.ObjectAt r1.toNat).IsNull = true)
      (hrest : Run env function inner scope (r1.toNat + 1) st1 r st' δ2) :
      Run env function inner scope i st r st' (Event.tag i tag :: Event.store i :: (δ1 ++ δ2))

/-- The slots stored into, in order. -/
def storesOf : List Event → List Nat
  | [] => []
  | Event.store i :: δ => i :: storesOf δ
  | Event.tag _ _ :: δ => storesOf δ

/-- The tags read, in order, each with the slot it was read for. -/
def tagsOf : List Event → List (Nat × Nat)
  | [] => []
  | Event.tag i t :: δ => (i, t) :: tagsOf δ
  | Event.store _ :: δ => tagsOf δ

/-- The change of closure nesting depth a tag makes: `kClosureFunction` opens
a scope, `kEndClosureFunctionScope` closes one. -/
def tagDepth (t : Nat) : Int :=
  match ConstantPoolTag.ofValue t with
  | some .kClosureFunction => 1
  | some .kEndClosureFunctionScope => -1
  | _ => 0

/-- The nesting depth after a sequence of tags, relative to its start. -/
def depthOf : List (Nat × Nat) → Int
  | [] => 0
  | p :: ts => tagDepth p.2 + depthOf ts

/-! ## The reads of an entry, without its assertions on indices -/

section Specs

variable {σ : Type}

/-- The reads of the element loop of `kList`, without its assertion: the `n`
element indices. -/
def ReadIndices (env : Env σ) : Nat → σ → Except DecodeError (List Nat × σ)
  | 0, rd => pure ([], rd)
  | n + 1, rd => do
    let (elem_index, rd) ← env.ReadUInt rd
    let (rest, rd) ← ReadIndices env n rd
    pure (elem_index :: rest, rd)

/-- The reads of the field loop of `kInstance`, without the assertion on the
element index: the `n` fields, each with its element index. -/
def ReadFieldIndices (env : Env σ) : Nat → σ → Except DecodeError (List (Obj × Nat) × σ)
  | 0, rd => pure ([], rd)
  | n + 1, rd => do
    let (field_name, rd) ← env.ReadCanonicalNameReference rd
    ASSERT (env.IsField field_name) .nameIsField
    let field ← env.LookupFieldByKernelField field_name
    let (elem_index, rd) ← env.ReadUInt rd
    let (rest, rd) ← ReadFieldIndices env n rd
    pure ((field, elem_index) :: rest, rd)

/-- The values one iteration of the loop of `ReadExceptionsTable` reads for a
try block, in the order read; `type_indices` are the `type_count` values read
by the inner loop. -/
structure TryBlockValues where
  outer_try_index_plus1 : Nat
  start_pc : Nat
  end_pc : Nat
  handler_pc : Nat
  flags : Nat
  type_indices : List Nat
  deriving DecidableEq, Repr

/-- The reads of the loop of `ReadExceptionsTable` over `n` try blocks, without
its assertions and without what it builds. -/
def ReadTryBlockValues (env : Env σ) : Nat → σ → Except DecodeError (List TryBlockValues × σ)
  | 0, rd => pure ([], rd)
  | n + 1, rd => do
    let (outer_try_index_plus1, rd) ← env.ReadUInt rd
    let (start_pc, rd) ← env.ReadUInt rd
    let (end_pc, rd) ← env.ReadUInt rd
    let (handler_pc, rd) ← env.ReadUInt rd
    let (flags, rd) ← env.ReadByte rd
    let (type_count, rd) ← env.ReadListLength rd
    let (type_indices, rd) ← ReadIndices env type_count rd
    let (rest, rd) ← ReadTryBlockValues env n rd
    pure (⟨outer_try_index_plus1, start_pc, end_pc, handler_pc, flags, type_indices⟩ :: rest,
      rd)

end Specs

/-! ## Example inputs -/

/-- A function object used in the examples. -/
def exampleFunction : Obj := Obj.foreign .function 0

/-- A pool of three slots used in the examples: slot 0 holds an arguments
descriptor, slot 1 a closure, slot 2 is not set. -/
def examplePool : ObjectPool :=
  ⟨[⟨some (.kTaggedObject, .kNotPatchable), some (Obj.argumentsDescriptor 0 1 [])⟩,
    ⟨some (.kTaggedObject, .kNotPatchable),
      some (Obj.closure Obj.null Obj.null Obj.null exampleFunction Obj.null)⟩,
    ⟨none, none⟩]⟩

/-- The values of a pool of six entries over `tokenEnv`: a closure (slot 0)
whose sub-range holds a closure (slot 1), a null (slot 2) and the end-of-scope
marker of the inner closure (slot 3), then the end-of-scope marker of the outer
closure (slot 4), then a null (slot 5).  Each closure has no parameters and
return type 7. -/
def chainBuffer : List Nat :=
  [19, 0, 0, 0, 0, 0, 0, 7, 19, 0, 0, 0, 0, 0, 0, 7, 1, 20, 20, 1]

/-- The closure function `tokenEnv` builds for a closure entry of
`chainBuffer` inside `parent`. -/
def chainClosure (parent : Obj) : ClosureData Obj :=
  { name := tokenName 'y' 0
    parent := parent
    type_parameters := Obj.foreign .typeArguments 0
    num_fixed_parameters := 1
    num_optional_parameters := 0
    optional_are_positional := true
    parameter_count := 1
    parameterTypeWrites := [(0, Obj.foreign .abstractType 0)]
    parameterNameWrites := [(0, tokenName 'p' 1)]
    result_type := Obj.foreign .abstractType 7
    signature_type := Obj.foreign .abstractType 7 }

/-- The state in which the recursive call for the outer closure of
`chainBuffer` starts: the closure is stored in slot 0. -/
def chainState0 : DecodeState TokenReader :=
  ({ (tokenState chainBuffer 6).afterTag 0 19 (TokenReader.mk chainBuffer 1) with
      reader := TokenReader.mk chainBuffer 8 }).store 0 .kTaggedObject
    (Obj.closureFunction (chainClosure exampleFunction))

/-- The state in which the recursive call for the inner closure of
`chainBuffer` starts: the closure is stored in slot 1. -/
def chainState1 : DecodeState TokenReader :=
  ({ chainState0.afterTag 1 19 (TokenReader.mk chainBuffer 9) with
      reader := TokenReader.mk chainBuffer 16 }).store 1 .kTaggedObject
    (Obj.closureFunction (chainClosure (Obj.closureFunction (chainClosure exampleFunction))))

/-- The state in a result of the loop. -/
def DecodeState.ofResult {σ : Type}
    (x : Except (DecodeError × DecodeState σ) (Int × DecodeState σ)) : DecodeState σ :=
  match x with
  | .ok (_, st) => st
  | .error (_, st) => st

/-- The state in which the recursive call for the outer closure of
`chainBuffer` ends. -/
def chainResult0 : DecodeState TokenReader :=
  DecodeState.ofResult (ReadPoolEntries tokenEnv exampleFunction
    (Obj.closureFunction (chainClosure exampleFunction)) [Obj.foreign .typeArguments 0]
    chainState0 1)

/-- The state in which the recursive call for the inner closure of
`chainBuffer` ends. -/
def chainResult1 : DecodeState TokenReader :=
  DecodeState.ofResult (ReadPoolEntries tokenEnv exampleFunction
    (Obj.closureFunction (chainClosure (Obj.closureFunction (chainClosure exampleFunction))))
    [Obj.foreign .typeArguments 0, Obj.foreign .typeArguments 0] chainState1 2)

/-- The values of a pool of two entries over `tokenEnv`: a closure without
parameters (slot 0) and a null (slot 1); there is no end-of-scope marker. -/
def openClosureBuffer : List Nat := [19, 0, 0, 0, 0, 0, 0, 7, 1]

/-- The state in which the recursive call for the closure of
`openClosureBuffer` starts: the closure is stored in slot 0. -/
def openClosureState : DecodeState TokenReader :=
  ({ (tokenState openClosureBuffer 2).afterTag 0 19 (TokenReader.mk openClosureBuffer 1) with
      reader := TokenReader.mk openClosureBuffer 8 }).store 0 .kTaggedObject
    (Obj.closureFunction (chainClosure exampleFunction))

/-- The state in a result of `ReadMetadata`, `d` when there was no metadata. -/
def LoadState.ofResult {σ : Type} (d : LoadState σ)
    (x : Except (DecodeError × LoadState σ) (Option (LoadState σ))) : LoadState σ :=
  match x with
  | .ok (some ls) => ls
  | .ok none => d
  | .error (_, ls) => ls

/-- Metadata over `tokenEnvOn`: flags 0, two pool entries, both null, and an
instruction length of 0. -/
def plainMetadata : List Nat := [0, 2, 1, 1, 0]

/-- Metadata over `tokenEnvOn`: flags 0, two pool entries declared, of which the
first is an end-of-scope marker outside any closure, followed by the value 0. -/
def strayMarkerMetadata : List Nat := [0, 2, 20, 0]

/-- The state `ReadMetadata` reaches on `plainMetadata`. -/
def plainLoad : LoadState TokenReader :=
  LoadState.ofResult ⟨tokenState [] 0, [], []⟩
    (ReadMetadata (tokenEnvOn plainMetadata) exampleFunction [] 0)

/-- A code object over `examplePool`, as `ReadBytecode` returns it. -/
def exampleCode : Code := ⟨0, 0, examplePool, none, none⟩

/-- An exception table over `tokenEnv`: two regions, the second nested in the
first.  Region 0 has no outer try, PCs 10, 40 and 50, flag byte 1 and the
handled type at pool index 0; region 1 has outer try 0, PCs 20, 30 and 60, flag
byte 254 and the handled types at pool indices 0 and 1. -/
def nestedTable : List Nat := [2, 0, 10, 40, 50, 1, 1, 0, 1, 20, 30, 60, 254, 2, 0, 1]

/-- The code object `exampleCode` with the descriptors and handlers of
`nestedTable` over `tokenEnv`, which adds 1 to a PC that is not a return
address. -/
def nestedCode : Code :=
  { exampleCode with
    pc_descriptors := some
      [⟨.kOther, 10, 0⟩, ⟨.kOther, 40, -1⟩, ⟨.kOther, 20, 1⟩, ⟨.kOther, 30, -1⟩]
    exception_handlers := some
      [⟨0, -1, 51, false, [examplePool.ObjectAt 0], true⟩,
        ⟨1, 0, 61, true, [examplePool.ObjectAt 0, examplePool.ObjectAt 1], false⟩] }

/-- An exception table over `tokenEnv`: two regions; region 0 names region 1
as its outer try and region 1 names itself. -/
def selfOuterTable : List Nat := [2, 2, 10, 40, 50, 0, 1, 0, 2, 20, 30, 60, 0, 1, 0]

/-- An exception table over `tokenEnv`: one region without handled types. -/
def noTypesTable : List Nat := [1, 0, 10, 40, 50, 0, 0]

/-- An exception table over `tokenEnv`: one region whose handled type is at
pool index 3, the length of `examplePool`. -/
def badTypeTable : List Nat := [1, 0, 10, 40, 50, 0, 1, 3]

/-- A pool of three slots holding arguments descriptors with one, two and
three arguments. -/
def descriptorPool : ObjectPool :=
  ⟨[⟨some (.kTaggedObject, .kNotPatchable), some (Obj.argumentsDescriptor 0 1 [])⟩,
    ⟨some (.kTaggedObject, .kNotPatchable), some (Obj.argumentsDescriptor 0 2 [])⟩,
    ⟨some (.kTaggedObject, .kNotPatchable), some (Obj.argumentsDescriptor 0 3 [])⟩]⟩

/-- Metadata over `tokenEnvOn`: flags 1, no pool entry, no instruction byte,
and an exception table of one region without handled types. -/
def noTypesMetadata : List Nat := [1, 0, 0, 1, 0, 10, 40, 50, 0, 0]

/-- Metadata over `tokenEnvOn`: flags 4, no pool entry, no instruction byte,
and one closure, at index 0 of the empty pool. -/
def badClosureMetadata : List Nat := [4, 0, 0, 1, 0]

/-- Metadata over `tokenEnvOn`: flags 0, no pool entry, and an instruction
length of 5 with which the buffer ends. -/
def truncatedMetadata : List Nat := [0, 0, 5]

/-- Metadata over `tokenEnvOn`: flags 15, one pool entry (a null), no
instruction byte, an exception table without region, one nullable field (name
5) and one closure (pool index 0, no instruction byte, an exception table
without region). -/
def sectionsMetadata : List Nat := [15, 1, 1, 0, 0, 1, 5, 1, 0, 0, 0]

/-- The state `ReadMetadata` reaches on `sectionsMetadata`. -/
def sectionsLoad : LoadState TokenReader :=
  LoadState.ofResult ⟨tokenState [] 0, [], []⟩
    (ReadMetadata (tokenEnvOn sectionsMetadata) exampleFunction [] 0)

/-- The state in which the decode of the pool of `sectionsMetadata` ends. -/
def sectionsState : DecodeState TokenReader :=
  DecodeState.ofResult (ReadPoolEntries (tokenEnvOn sectionsMetadata) exampleFunction
    exampleFunction [] ⟨⟨sectionsMetadata, 2⟩, ObjectPool.New 1, 0, []⟩ 0)

/-- The collaborators `tokenEnv` with `FLAG_link_natives_lazily` set and a
resolver that finds nothing. -/
def lazyEnv : Env TokenReader :=
  { tokenEnv with FLAG_link_natives_lazily := true, ResolveNative := fun _ _ _ => (none, true) }

/-- The collaborators `tokenEnv` with every resolver the bootstrap resolver. -/
def bootstrapEnv : Env TokenReader :=
  { tokenEnv with IsBootstrapResolver := fun _ => true }

/-- The collaborators `tokenEnv` with a resolver that reports no auto
scope. -/
def noScopeEnv : Env TokenReader :=
  { tokenEnv with ResolveNative := fun _ name _ => (some name.length, false) }

/-- The values of a closure entry over `tokenEnv`, after its tag: name 0, two
parameters in total of which one is required, no type parameter, one
positional parameter (name 5, type 6, no initializer), a count of named
parameters of 0, where `2 - 1 = 1` is expected. -/
def mismatchClosure : List Nat := [0, 2, 1, 0, 1, 5, 6, 0, 0]

/-- The values of a closure entry over `tokenEnv`, after its tag: name 0, two
parameters in total of which one is required, no type parameter, one
positional parameter (name 5, type 6), one named parameter (name 8, type 9),
return type 7. -/
def namedClosure : List Nat := [0, 2, 1, 0, 1, 5, 6, 0, 1, 8, 9, 0, 7]

/-- The values of a closure entry over `tokenEnv`, after its tag: name 0, two
parameters in total of which one is required, no type parameter, two
positional parameters (names 5 and 8, types 6 and 9), no named parameter,
return type 7. -/
def optionalClosure : List Nat := [0, 2, 1, 0, 2, 5, 6, 0, 8, 9, 0, 0, 7]

/-- The values of a closure entry over `tokenEnv`, after its tag: name 0, no
parameter in total, no type parameter, but a list of one positional parameter
(name 5, type 6), and a count of named parameters of 0. -/
def overlongClosure : List Nat := [0, 0, 0, 0, 1, 5, 6, 0, 0]

/-- The values of a pool of three entries over `tokenEnv`: the integer with
halves `0x2A` (low) and 0 (high), the integer 7, and the first integer
again. -/
def sameIntBuffer : List Nat := [3, 0x0000002A, 0x00000000, 3, 7, 0, 3, 0x0000002A, 0x00000000]

/-- The values of a pool of two entries over `tokenEnv`: a null, and the
integer with halves `0x2A` (low) and 0 (high). -/
def otherIntBuffer : List Nat := [1, 3, 0x0000002A, 0x00000000]

/-- The state of the loop at slot 2 of `examplePool`, before the tag of the
entry is read from `buf` over `tokenEnv`. -/
def backReferenceState (buf : List Nat) : DecodeState TokenReader :=
  ⟨⟨buf, 0⟩, examplePool, 0, []⟩

/-! ## Slot types and the invariant of the loop -/

/-- Whether a native-entry tag was read for slot `j`. -/
def nativeTagAt (ts : List (Nat × Nat)) (j : Nat) : Bool :=
  ts.any fun p => decide (p.1 = j ∧ ConstantPoolTag.ofValue p.2 = some .kNativeEntry)

/-- Every slot stored into has the not-patchable flag, and the type
`kNativeEntryData` when a native-entry tag was read for it, `kTaggedObject`
otherwise. -/
def SlotsTyped (pool : ObjectPool) (trace : List Event) : Prop :=
  ∀ j ∈ storesOf trace,
    pool.TypeAt j =
      some (if nativeTagAt (tagsOf trace) j then EntryType.kNativeEntryData
        else EntryType.kTaggedObject, Patchability.kNotPatchable)

/-- The invariant of the loop on the pool and the events so far: the slots
stored into are below `a`, the slots tags were read for are below `b`, and
`SlotsTyped` holds. -/
structure LoopInv (a b : Nat) (pool : ObjectPool) (trace : List Event) : Prop where
  stores_lt : ∀ j ∈ storesOf trace, j < a
  tags_lt : ∀ p ∈ tagsOf trace, p.1 < b
  typed : SlotsTyped pool trace

/-! # Theorems -/

section Theorems

variable {σ : Type}

/-! ## The pool -/

theorem ObjectPool.Length_SetTypeAt (pool : ObjectPool) (i : Nat) (t : EntryType)
    (p : Patchability) : (pool.SetTypeAt i t p).Length = pool.Length := by
  simp [ObjectPool.SetTypeAt, ObjectPool.Length]

theorem ObjectPool.Length_SetObjectAt (pool : ObjectPool) (i : Nat) (o : Obj) :
    (pool.SetObjectAt i o).Length = pool.Length := by
  simp [ObjectPool.SetObjectAt, ObjectPool.Length]

theorem DecodeState.Length_store (st : DecodeState σ) (i : Nat) (t : EntryType) (o : Obj) :
    (st.store i t o).pool.Length = st.pool.Length := by
  simp [DecodeState.store, ObjectPool.Length_SetObjectAt, ObjectPool.Length_SetTypeAt]

theorem DecodeState.trace_store (st : DecodeState σ) (i : Nat) (t : EntryType) (o : Obj) :
    (st.store i t o).trace = st.trace ++ [Event.store i] := rfl

theorem DecodeState.slots_store_of_ne (st : DecodeState σ) (i j : Nat) (t : EntryType)
    (o : Obj) (h : j ≠ i) : (st.store i t o).pool.slots.get? j = st.pool.slots.get? j := by
  simp [DecodeState.store, ObjectPool.SetObjectAt, ObjectPool.SetTypeAt, List.get?_eq_getElem?,
    List.getElem?_modify, Ne.symm h]

theorem DecodeState.TypeAt_store (st : DecodeState σ) (i : Nat) (t : EntryType) (o : Obj)
    (h : i < st.pool.Length) :
    (st.store i t o).pool.TypeAt i = some (t, Patchability.kNotPatchable) := by
  have h' : i < st.pool.slots.length := h
  simp [DecodeState.store, ObjectPool.SetObjectAt, ObjectPool.SetTypeAt, ObjectPool.TypeAt,
    List.get?_eq_getElem?, List.getElem?_modify, List.getElem?_eq_getElem h']

theorem DecodeState.ObjectAt_store (st : DecodeState σ) (i : Nat) (t : EntryType) (o : Obj)
    (h : i < st.pool.Length) : (st.store i t o).pool.ObjectAt i = o := by
  have h' : i < st.pool.slots.length := h
  simp [DecodeState.store, ObjectPool.SetObjectAt, ObjectPool.SetTypeAt, ObjectPool.ObjectAt,
    List.get?_eq_getElem?, List.getElem?_modify, List.getElem?_eq_getElem h']

/-! ## From the loop to its runs -/

theorem Run_of_loop (env : Env σ) (function : Obj) :
    ∀ (fuel : Nat) (inner : Obj) (scope : Scope) (i : Nat) (st : DecodeState σ) (r : Int)
      (st' : DecodeState σ),
      ReadPoolEntriesLoop env function fuel inner scope i st = some (.ok (r, st')) →
      ∃ δ, Run env function inner scope i st r st' δ := by
  intro fuel
  induction fuel with
  | zero => intro inner scope i st r st' h; simp [ReadPoolEntriesLoop] at h
  | succ fuel ih =>
    intro inner scope i st r st' h
    unfold ReadPoolEntriesLoop at h
    simp only at h
    split at h
    · rename_i hi
      split at h
      · simp at h
      · rename_i tag rd htag
        split at h
        · rename_i hk
          split at h
          · simp at h
          · rename_i obj field rd' hentry
            split at h
            · rename_i hi1
              obtain ⟨δ, hδ⟩ := ih _ _ _ _ _ _ h
              exact ⟨_, Run.instanceField inner scope i st tag rd rd' obj field r st' δ hi htag hk
                hentry hi1 hδ⟩
            · simp at h
        · rename_i hk
          split at h
          · simp at h
          · rename_i closure rd' hentry
            split at h
            · simp at h
            · simp at h
            · rename_i r1 st1 hinner
              split at h
              · rename_i hnull
                obtain ⟨δ1, hδ1⟩ := ih _ _ _ _ _ _ hinner
                obtain ⟨δ2, hδ2⟩ := ih _ _ _ _ _ _ h
                exact ⟨_, Run.closure inner scope i st tag rd rd' closure r1 st1 r st' δ1 δ2 hi
                  htag hk hentry hδ1 hnull hδ2⟩
              · simp at h
        · rename_i hk
          simp only [Option.some.injEq, Except.ok.injEq, Prod.mk.injEq] at h
          obtain ⟨h1, h2⟩ := h
          subst h1 h2
          exact ⟨_, Run.endScope inner scope i st tag rd hi htag hk⟩
        · rename_i hk
          split at h
          · simp at h
          · rename_i obj rd' hentry
            obtain ⟨δ, hδ⟩ := ih _ _ _ _ _ _ h
            exact ⟨_, Run.nativeEntry inner scope i st tag rd rd' obj r st' δ hi htag hk hentry hδ⟩
        · rename_i h1 h2 h3 h4
          have hk : ConstantPoolTag.storesItself (ConstantPoolTag.ofValue tag) = false := by
            cases hv : ConstantPoolTag.ofValue tag with
            | none => rfl
            | some t => cases t <;> simp_all [ConstantPoolTag.storesItself]
          split at h
          · simp at h
          · rename_i obj rd' deopt hentry
            obtain ⟨δ, hδ⟩ := ih _ _ _ _ _ _ h
            exact ⟨_, Run.plain inner scope i st tag rd rd' obj deopt r st' δ hi htag hk hentry hδ⟩
    · rename_i hi
      simp only [Option.some.injEq, Except.ok.injEq, Prod.mk.injEq] at h
      obtain ⟨h1, h2⟩ := h
      subst h1 h2
      exact ⟨_, Run.exit inner scope i st hi⟩

theorem DecodeState.Length_afterTag (st : DecodeState σ) (i tag : Nat) (rd : σ) :
    (st.afterTag i tag rd).pool.Length = st.pool.Length := rfl

theorem Run.length_eq {env : Env σ} {function inner : Obj} {scope : Scope} {i : Nat}
    {st st' : DecodeState σ} {r : Int} {δ : List Event}
    (h : Run env function inner scope i st r st' δ) :
    st'.pool.Length = st.pool.Length := by
  induction h with
  | exit => rfl
  | endScope => simp [DecodeState.Length_store, DecodeState.Length_afterTag]
  | instanceField inner scope i st tag rd rd' obj field r st' δ hi htag hk hentry hi1 hrest ih =>
    simpa [DecodeState.Length_store, DecodeState.Length_afterTag] using ih
  | nativeEntry inner scope i st tag rd rd' obj r st' δ hi htag hk hentry hrest ih =>
    simpa [DecodeState.Length_store, DecodeState.Length_afterTag] using ih
  | plain inner scope i st tag rd rd' obj deopt r st' δ hi htag hk hentry hrest ih =>
    simpa [DecodeState.Length_store, DecodeState.Length_afterTag] using ih
  | closure inner scope i st tag rd rd' closure r1 st1 r st' δ1 δ2 hi htag hk hentry hinner hnull
      hrest ih1 ih2 =>
    rw [ih2, ih1]
    simp [DecodeState.Length_store, DecodeState.Length_afterTag]

theorem Run.bounds {env : Env σ} {function inner : Obj} {scope : Scope} {i : Nat}
    {st st' : DecodeState σ} {r : Int} {δ : List Event}
    (h : Run env function inner scope i st r st' δ) :
    i ≤ st.pool.Length → (i : Int) ≤ r + 1 ∧ r + 1 ≤ st.pool.Length := by
  induction h with
  | exit inner scope i st hi => omega
  | endScope inner scope i st tag rd hi => omega
  | instanceField inner scope i st tag rd rd' obj field r st' δ hi htag hk hentry hi1 hrest ih =>
    simp only [DecodeState.Length_store, DecodeState.Length_afterTag] at ih
    omega
  | nativeEntry inner scope i st tag rd rd' obj r st' δ hi htag hk hentry hrest ih =>
    simp only [DecodeState.Length_store, DecodeState.Length_afterTag] at ih
    omega
  | plain inner scope i st tag rd rd' obj deopt r st' δ hi htag hk hentry hrest ih =>
    simp only [DecodeState.Length_store, DecodeState.Length_afterTag] at ih
    omega
  | closure inner scope i st tag rd rd' closure r1 st1 r st' δ1 δ2 hi htag hk hentry hinner hnull
      hrest ih1 ih2 =>
    have hl := hinner.length_eq
    simp only [DecodeState.Length_store, DecodeState.Length_afterTag] at ih1 hl
    rw [hl] at ih2
    omega

/-! ## The bound of the loop -/

theorem ReadPoolEntriesLoop_fuel (env : Env σ) (function : Obj) :
    ∀ (fuel : Nat) (inner : Obj) (scope : Scope) (i : Nat) (st : DecodeState σ),
      1 ≤ fuel → st.pool.Length + 1 ≤ fuel + i →
      ReadPoolEntriesLoop env function fuel inner scope i st ≠ none := by
  intro fuel
  induction fuel with
  | zero => intro inner scope i st h; omega
  | succ fuel ih =>
    intro inner scope i st h1 h2
    unfold ReadPoolEntriesLoop
    simp only
    split
    · rename_i hi
      have hf : 1 ≤ fuel := by omega
      split
      · simp
      · rename_i tag rd htag
        split
        · split
          · simp
          · split
            · apply ih _ _ _ _ hf
              simp only [DecodeState.Length_store, DecodeState.Length_afterTag]
              omega
            · simp
        · split
          · simp
          · rename_i closure rd' hentry
            split
            · rename_i hinner
              exfalso
              refine ih _ _ _ _ hf ?_ hinner
              simp only [DecodeState.Length_store, DecodeState.Length_afterTag]
              omega
            · simp
            · rename_i r1 st1 hinner
              obtain ⟨δ1, hrun⟩ := Run_of_loop env function _ _ _ _ _ _ _ hinner
              have hl := hrun.length_eq
              have hb := hrun.bounds
              simp only [DecodeState.Length_store, DecodeState.Length_afterTag] at hl hb
              split
              · apply ih _ _ _ _ hf
                omega
              · simp
        · simp
        · split
          · simp
          · apply ih _ _ _ _ hf
            simp only [DecodeState.Length_store, DecodeState.Length_afterTag]
            omega
        · split
          · simp
          · apply ih _ _ _ _ hf
            simp only [DecodeState.Length_store, DecodeState.Length_afterTag]
            omega
    · simp

theorem ReadPoolEntriesLoop_succ (env : Env σ) (function : Obj) :
    ∀ (fuel : Nat) (inner : Obj) (scope : Scope) (i : Nat) (st : DecodeState σ)
      (res : Except (DecodeError × DecodeState σ) (Int × DecodeState σ)),
      ReadPoolEntriesLoop env function fuel inner scope i st = some res →
      ReadPoolEntriesLoop env function (fuel + 1) inner scope i st = some res := by
  intro fuel
  induction fuel with
  | zero => intro inner scope i st res h; simp [ReadPoolEntriesLoop] at h
  | succ fuel ih =>
    intro inner scope i st res h
    unfold ReadPoolEntriesLoop at h
    unfold ReadPoolEntriesLoop
    simp only at h ⊢
    split at h
    · rename_i hi
      simp only [hi, if_true]
      split at h
      · exact h
      · split at h
        · split at h
          · exact h
          · split at h
            · rename_i hi1
              simp only [hi1, if_true]
              exact ih _ _ _ _ _ h
            · rename_i hi1
              simp only [hi1, if_false]
              exact h
        · split at h
          · exact h
          · split at h
            · simp at h
            · rename_i e hinner
              rw [ih _ _ _ _ _ hinner]
              exact h
            · rename_i r1 st1 hinner
              rw [ih _ _ _ _ _ hinner]
              simp only
              split at h
              · rename_i hnull
                simp only [hnull, if_true]
                exact ih _ _ _ _ _ h
              · rename_i hnull
                simp only [hnull]
                exact h
        · exact h
        · split at h
          · exact h
          · exact ih _ _ _ _ _ h
        · split at h
          · exact h
          · exact ih _ _ _ _ _ h
    · rename_i hi
      simp only [hi, if_false]
      exact h

theorem ReadPoolEntriesLoop_mono (env : Env σ) (function : Obj) (fuel k : Nat) (inner : Obj)
    (scope : Scope) (i : Nat) (st : DecodeState σ)
    (res : Except (DecodeError × DecodeState σ) (Int × DecodeState σ))
    (h : ReadPoolEntriesLoop env function fuel inner scope i st = some res) :
    ReadPoolEntriesLoop env function (fuel + k) inner scope i st = some res := by
  induction k with
  | zero => exact h
  | succ k ih => exact ReadPoolEntriesLoop_succ env function _ _ _ _ _ _ ih

theorem ReadPoolEntriesLoop_eq (env : Env σ) (function : Obj) (fuel : Nat) (inner : Obj)
    (scope : Scope) (i : Nat) (st : DecodeState σ)
    (h : st.pool.Length - i + 1 ≤ fuel) :
    ReadPoolEntriesLoop env function fuel inner scope i st =
      some (ReadPoolEntries env function inner scope st i) := by
  unfold ReadPoolEntries
  have hne := ReadPoolEntriesLoop_fuel env function (st.pool.Length - i + 1) inner scope i st
    (by omega) (by omega)
  cases hl : ReadPoolEntriesLoop env function (st.pool.Length - i + 1) inner scope i st with
  | none => exact absurd hl hne
  | some res =>
    have := ReadPoolEntriesLoop_mono env function _ (fuel - (st.pool.Length - i + 1)) _ _ _ _ _ hl
    rw [show st.pool.Length - i + 1 + (fuel - (st.pool.Length - i + 1)) = fuel by omega] at this
    simpa using this

theorem Run_of_ReadPoolEntries {env : Env σ} {function inner : Obj} {scope : Scope}
    {st st' : DecodeState σ} {i : Nat} {r : Int}
    (h : ReadPoolEntries env function inner scope st i = .ok (r, st')) :
    ∃ δ, Run env function inner scope i st r st' δ := by
  have := ReadPoolEntriesLoop_eq env function _ inner scope i st (le_refl _)
  rw [h] at this
  exact Run_of_loop env function _ _ _ _ _ _ _ this

theorem loop_of_Run {env : Env σ} {function inner : Obj} {scope : Scope} {i : Nat}
    {st st' : DecodeState σ} {r : Int} {δ : List Event}
    (h : Run env function inner scope i st r st' δ) :
    ∃ fuel, ReadPoolEntriesLoop env function fuel inner scope i st = some (.ok (r, st')) := by
  induction h with
  | exit inner scope i st hi =>
    exact ⟨1, by simp [ReadPoolEntriesLoop, hi]⟩
  | endScope inner scope i st tag rd hi htag hk =>
    exact ⟨1, by simp [ReadPoolEntriesLoop, hi, htag, hk]⟩
  | instanceField inner scope i st tag rd rd' obj field r st' δ hi htag hk hentry hi1 hrest ih =>
    obtain ⟨fuel, hf⟩ := ih
    refine ⟨fuel + 1, ?_⟩
    simp only [ReadPoolEntriesLoop, hi, htag, hk, hentry, hi1, if_true]
    exact hf
  | nativeEntry inner scope i st tag rd rd' obj r st' δ hi htag hk hentry hrest ih =>
    obtain ⟨fuel, hf⟩ := ih
    refine ⟨fuel + 1, ?_⟩
    simp only [ReadPoolEntriesLoop, hi, htag, hk, hentry, if_true]
    exact hf
  | plain inner scope i st tag rd rd' obj deopt r st' δ hi htag hk hentry hrest ih =>
    obtain ⟨fuel, hf⟩ := ih
    refine ⟨fuel + 1, ?_⟩
    have hentry' : ReadPoolEntry env function scope (st.afterTag i tag rd).pool i
        (ConstantPoolTag.ofValue tag) rd (st.afterTag i tag rd).deopt_id =
        .ok (obj, rd', deopt) := hentry
    unfold ReadPoolEntriesLoop
    simp only [hi, htag, if_true]
    split
    · rename_i h; rw [h] at hk; simp [ConstantPoolTag.storesItself] at hk
    · rename_i h; rw [h] at hk; simp [ConstantPoolTag.storesItself] at hk
    · rename_i h; rw [h] at hk; simp [ConstantPoolTag.storesItself] at hk
    · rename_i h; rw [h] at hk; simp [ConstantPoolTag.storesItself] at hk
    · simp only [hentry']
      exact hf
  | closure inner scope i st tag rd rd' closure r1 st1 r st' δ1 δ2 hi htag hk hentry hinner hnull
      hrest ih1 ih2 =>
    obtain ⟨f1, hf1⟩ := ih1
    obtain ⟨f2, hf2⟩ := ih2
    refine ⟨f1 + f2 + 1, ?_⟩
    have h1 := ReadPoolEntriesLoop_mono env function f1 f2 _ _ _ _ _ hf1
    have h2 := ReadPoolEntriesLoop_mono env function f2 f1 _ _ _ _ _ hf2
    rw [show f2 + f1 = f1 + f2 by omega] at h2
    simp only [ReadPoolEntriesLoop, hi, htag, hk, hentry, if_true]
    rw [h1]
    simp only [hnull, if_true]
    exact h2

theorem ReadPoolEntries_of_Run {env : Env σ} {function inner : Obj} {scope : Scope} {i : Nat}
    {st st' : DecodeState σ} {r : Int} {δ : List Event}
    (h : Run env function inner scope i st r st' δ) :
    ReadPoolEntries env function inner scope st i = .ok (r, st') := by
  obtain ⟨fuel, hf⟩ := loop_of_Run h
  have h1 := ReadPoolEntriesLoop_mono env function fuel (st.pool.Length - i + 1) _ _ _ _ _ hf
  have h2 := ReadPoolEntriesLoop_eq env function (fuel + (st.pool.Length - i + 1)) inner scope i st
    (by omega)
  rw [h1] at h2
  simpa using h2.symm

theorem ReadPoolEntries_ok_iff {env : Env σ} {function inner : Obj} {scope : Scope} {i : Nat}
    {st st' : DecodeState σ} {r : Int} :
    ReadPoolEntries env function inner scope st i = .ok (r, st') ↔
      ∃ δ, Run env function inner scope i st r st' δ :=
  ⟨Run_of_ReadPoolEntries, fun ⟨_, h⟩ => ReadPoolEntries_of_Run h⟩

/-! ## The events of a run -/

theorem storesOf_append (a b : List Event) : storesOf (a ++ b) = storesOf a ++ storesOf b := by
  induction a with
  | nil => rfl
  | cons e a ih => cases e <;> simp [storesOf, ih]

theorem tagsOf_append (a b : List Event) : tagsOf (a ++ b) = tagsOf a ++ tagsOf b := by
  induction a with
  | nil => rfl
  | cons e a ih => cases e <;> simp [tagsOf, ih]

theorem depthOf_append (a b : List (Nat × Nat)) : depthOf (a ++ b) = depthOf a + depthOf b := by
  induction a with
  | nil => simp [depthOf]
  | cons p a ih => simp [depthOf, ih, add_assoc]

theorem Run.trace_eq {env : Env σ} {function inner : Obj} {scope : Scope} {i : Nat}
    {st st' : DecodeState σ} {r : Int} {δ : List Event}
    (h : Run env function inner scope i st r st' δ) : st'.trace = st.trace ++ δ := by
  induction h with
  | exit => simp
  | endScope => simp [DecodeState.store, DecodeState.afterTag]
  | instanceField inner scope i st tag rd rd' obj field r st' δ hi htag hk hentry hi1 hrest ih =>
    rw [ih]; simp [DecodeState.store, DecodeState.afterTag]
  | nativeEntry inner scope i st tag rd rd' obj r st' δ hi htag hk hentry hrest ih =>
    rw [ih]; simp [DecodeState.store, DecodeState.afterTag]
  | plain inner scope i st tag rd rd' obj deopt r st' δ hi htag hk hentry hrest ih =>
    rw [ih]; simp [DecodeState.store, DecodeState.afterTag]
  | closure inner scope i st tag rd rd' closure r1 st1 r st' δ1 δ2 hi htag hk hentry hinner hnull
      hrest ih1 ih2 =>
    rw [ih2, ih1]; simp [DecodeState.store, DecodeState.afterTag]

theorem Run.exit_inv {env : Env σ} {function inner : Obj} {scope : Scope} {i : Nat}
    {st st' : DecodeState σ} {r : Int} {δ : List Event}
    (h : Run env function inner scope i st r st' δ) (hi : ¬ i < st.pool.Length) :
    r = (st.pool.Length : Int) - 1 ∧ st' = st ∧ δ = [] := by
  cases h with
  | exit => exact ⟨rfl, rfl, rfl⟩
  | endScope _ _ _ _ _ _ hi' => exact absurd hi' hi
  | instanceField _ _ _ _ _ _ _ _ _ _ _ _ hi' => exact absurd hi' hi
  | nativeEntry _ _ _ _ _ _ _ _ _ _ _ hi' => exact absurd hi' hi
  | plain _ _ _ _ _ _ _ _ _ _ _ _ hi' => exact absurd hi' hi
  | closure _ _ _ _ _ _ _ _ _ _ _ _ _ _ hi' => exact absurd hi' hi

theorem Run.stores {env : Env σ} {function inner : Obj} {scope : Scope} {i : Nat}
    {st st' : DecodeState σ} {r : Int} {δ : List Event}
    (h : Run env function inner scope i st r st' δ) :
    i ≤ st.pool.Length → storesOf δ = List.range' i (r + 1 - i).toNat := by
  induction h with
  | exit inner scope i st hi =>
    intro hle
    have : ((st.pool.Length : Int) - 1 + 1 - i).toNat = 0 := by omega
    rw [this]; rfl
  | endScope inner scope i st tag rd hi htag hk =>
    intro _
    have : ((i : Int) + 1 - i).toNat = 1 := by omega
    rw [this]; rfl
  | instanceField inner scope i st tag rd rd' obj field r st' δ hi htag hk hentry hi1 hrest ih =>
    intro _
    have hb := hrest.bounds
    simp only [DecodeState.Length_store, DecodeState.Length_afterTag] at ih hb
    have e : (r + 1 - i).toNat = (r + 1 - ((i + 1 + 1 : Nat) : Int)).toNat + 1 + 1 := by omega
    simp only [storesOf, ih (by omega), e]
    simp [List.range'_succ]
  | nativeEntry inner scope i st tag rd rd' obj r st' δ hi htag hk hentry hrest ih =>
    intro _
    have hb := hrest.bounds
    simp only [DecodeState.Length_store, DecodeState.Length_afterTag] at ih hb
    have e : (r + 1 - i).toNat = (r + 1 - ((i + 1 : Nat) : Int)).toNat + 1 := by omega
    simp only [storesOf, ih (by omega), e]
    simp [List.range'_succ]
  | plain inner scope i st tag rd rd' obj deopt r st' δ hi htag hk hentry hrest ih =>
    intro _
    have hb := hrest.bounds
    simp only [DecodeState.Length_store, DecodeState.Length_afterTag] at ih hb
    have e : (r + 1 - i).toNat = (r + 1 - ((i + 1 : Nat) : Int)).toNat + 1 := by omega
    simp only [storesOf, ih (by omega), e]
    simp [List.range'_succ]
  | closure inner scope i st tag rd rd' closure r1 st1 r st' δ1 δ2 hi htag hk hentry hinner hnull
      hrest ih1 ih2 =>
    intro _
    have hl := hinner.length_eq
    have hb1 := hinner.bounds
    have hb2 := hrest.bounds
    simp only [DecodeState.Length_store, DecodeState.Length_afterTag] at ih1 hb1 hl
    rw [hl] at ih2 hb2
    have h1 := hb1 (by omega)
    have h2 := hb2 (by omega)
    have e : (r + 1 - i).toNat =
        1 + ((r1 + 1 - ((i + 1 : Nat) : Int)).toNat +
          (r + 1 - ((r1.toNat + 1 : Nat) : Int)).toNat) := by omega
    have e2 : i + 1 + (r1 + 1 - ((i + 1 : Nat) : Int)).toNat = r1.toNat + 1 := by omega
    simp only [storesOf, storesOf_append, ih1 (by omega), ih2 (by omega), e]
    rw [← e2, List.range'_append_1, Nat.add_comm 1, List.range'_succ]
    congr 2
    exact Nat.add_comm _ _

theorem Run.tags_range {env : Env σ} {function inner : Obj} {scope : Scope} {i : Nat}
    {st st' : DecodeState σ} {r : Int} {δ : List Event}
    (h : Run env function inner scope i st r st' δ) :
    i ≤ st.pool.Length → ∀ p ∈ tagsOf δ, i ≤ p.1 ∧ (p.1 : Int) ≤ r := by
  induction h with
  | exit inner scope i st hi => intro _ p hp; simp [tagsOf] at hp
  | endScope inner scope i st tag rd hi htag hk =>
    intro _ p hp
    simp only [tagsOf, List.mem_singleton] at hp
    subst hp
    simp
  | instanceField inner scope i st tag rd rd' obj field r st' δ hi htag hk hentry hi1 hrest ih =>
    intro _ p hp
    have hb := hrest.bounds
    simp only [DecodeState.Length_store, DecodeState.Length_afterTag] at ih hb
    have hb' := hb (by omega)
    simp only [tagsOf, List.mem_cons] at hp
    rcases hp with hp | hp
    · subst hp; simp only; omega
    · have := ih (by omega) p hp; omega
  | nativeEntry inner scope i st tag rd rd' obj r st' δ hi htag hk hentry hrest ih =>
    intro _ p hp
    have hb := hrest.bounds
    simp only [DecodeState.Length_store, DecodeState.Length_afterTag] at ih hb
    have hb' := hb (by omega)
    simp only [tagsOf, List.mem_cons] at hp
    rcases hp with hp | hp
    · subst hp; simp only; omega
    · have := ih (by omega) p hp; omega
  | plain inner scope i st tag rd rd' obj deopt r st' δ hi htag hk hentry hrest ih =>
    intro _ p hp
    have hb := hrest.bounds
    simp only [DecodeState.Length_store, DecodeState.Length_afterTag] at ih hb
    have hb' := hb (by omega)
    simp only [tagsOf, List.mem_cons] at hp
    rcases hp with hp | hp
    · subst hp; simp only; omega
    · have := ih (by omega) p hp; omega
  | closure inner scope i st tag rd rd' closure r1 st1 r st' δ1 δ2 hi htag hk hentry hinner hnull
      hrest ih1 ih2 =>
    intro _ p hp
    have hl := hinner.length_eq
    have hb1 := hinner.bounds
    have hb2 := hrest.bounds
    simp only [DecodeState.Length_store, DecodeState.Length_afterTag] at ih1 hb1 hl
    rw [hl] at ih2 hb2
    have h1 := hb1 (by omega)
    have h2 := hb2 (by omega)
    simp only [tagsOf, tagsOf_append, List.mem_cons, List.mem_append] at hp
    rcases hp with hp | hp | hp
    · subst hp; simp only; omega
    · have := ih1 (by omega) p hp; omega
    · have := ih2 (by omega) p hp; omega

theorem Run.frame {env : Env σ} {function inner : Obj} {scope : Scope} {i : Nat}
    {st st' : DecodeState σ} {r : Int} {δ : List Event}
    (h : Run env function inner scope i st r st' δ) :
    i ≤ st.pool.Length → ∀ j, j < i → st'.pool.slots.get? j = st.pool.slots.get? j := by
  induction h with
  | exit inner scope i st hi => intro _ j _; rfl
  | endScope inner scope i st tag rd hi htag hk =>
    intro _ j hj
    rw [DecodeState.slots_store_of_ne _ _ _ _ _ (by omega)]; rfl
  | instanceField inner scope i st tag rd rd' obj field r st' δ hi htag hk hentry hi1 hrest ih =>
    intro _ j hj
    simp only [DecodeState.Length_store, DecodeState.Length_afterTag] at ih
    rw [ih (by omega) j (by omega), DecodeState.slots_store_of_ne _ _ _ _ _ (by omega),
      DecodeState.slots_store_of_ne _ _ _ _ _ (by omega)]; rfl
  | nativeEntry inner scope i st tag rd rd' obj r st' δ hi htag hk hentry hrest ih =>
    intro _ j hj
    simp only [DecodeState.Length_store, DecodeState.Length_afterTag] at ih
    rw [ih (by omega) j (by omega), DecodeState.slots_store_of_ne _ _ _ _ _ (by omega)]; rfl
  | plain inner scope i st tag rd rd' obj deopt r st' δ hi htag hk hentry hrest ih =>
    intro _ j hj
    simp only [DecodeState.Length_store, DecodeState.Length_afterTag] at ih
    rw [ih (by omega) j (by omega), DecodeState.slots_store_of_ne _ _ _ _ _ (by omega)]; rfl
  | closure inner scope i st tag rd rd' closure r1 st1 r st' δ1 δ2 hi htag hk hentry hinner hnull
      hrest ih1 ih2 =>
    intro _ j hj
    have hl := hinner.length_eq
    have hb1 := hinner.bounds
    simp only [DecodeState.Length_store, DecodeState.Length_afterTag] at ih1 hb1 hl
    rw [hl] at ih2
    have h1 := hb1 (by omega)
    rw [ih2 (by omega) j (by omega), ih1 (by omega) j (by omega),
      DecodeState.slots_store_of_ne _ _ _ _ _ (by omega)]; rfl

theorem tagDepth_of_storesItself_false (t : Nat)
    (h : ConstantPoolTag.storesItself (ConstantPoolTag.ofValue t) = false) : tagDepth t = 0 := by
  unfold tagDepth
  cases hv : ConstantPoolTag.ofValue t with
  | none => rfl
  | some c => cases c <;> simp_all [ConstantPoolTag.storesItself]

theorem depthOf_take_cons_nonneg (p : Nat × Nat) (ts : List (Nat × Nat))
    (h : ∀ k, k < ts.length → 0 ≤ tagDepth p.2 + depthOf (ts.take k)) :
    ∀ k, k < (p :: ts).length → 0 ≤ depthOf ((p :: ts).take k) := by
  intro k hk
  cases k with
  | zero => simp [depthOf]
  | succ k =>
    simp only [List.take_succ_cons, depthOf]
    exact h k (by simpa using hk)

/-- The shape of the end of a run that a step with a tag of depth `0` in front
of it keeps. -/
theorem nesting_step {pool : ObjectPool} {N : Int} {r : Int} {δ : List Event} (pre : List Event)
    (hpre : depthOf (tagsOf pre) = 0)
    (h : (depthOf (tagsOf δ) = -1 ∧ 0 ≤ r ∧
        (∃ δ₀ t, δ = δ₀ ++ [Event.tag r.toNat t, Event.store r.toNat] ∧
          ConstantPoolTag.ofValue t = some .kEndClosureFunctionScope) ∧
        pool.ObjectAt r.toNat = Obj.null) ∨
      (0 ≤ depthOf (tagsOf δ) ∧ r = N - 1)) :
    (depthOf (tagsOf (pre ++ δ)) = -1 ∧ 0 ≤ r ∧
        (∃ δ₀ t, pre ++ δ = δ₀ ++ [Event.tag r.toNat t, Event.store r.toNat] ∧
          ConstantPoolTag.ofValue t = some .kEndClosureFunctionScope) ∧
        pool.ObjectAt r.toNat = Obj.null) ∨
      (0 ≤ depthOf (tagsOf (pre ++ δ)) ∧ r = N - 1) := by
  rw [tagsOf_append, depthOf_append, hpre, zero_add]
  rcases h with ⟨h1, h2, ⟨δ₀, t, h3, h4⟩, h5⟩ | h
  · exact Or.inl ⟨h1, h2, ⟨pre ++ δ₀, t, by rw [h3, List.append_assoc], h4⟩, h5⟩
  · exact Or.inr h

/-- The nesting of a run: before the last tag of the run no prefix of its tags
closes more scopes than it opens; and either the run ends with an end-of-scope
tag at depth `-1`, read for slot `r`, which holds null, or the depth stays
non-negative and the run ends at the last slot. -/
theorem Run.nesting {env : Env σ} {function inner : Obj} {scope : Scope} {i : Nat}
    {st st' : DecodeState σ} {r : Int} {δ : List Event}
    (h : Run env function inner scope i st r st' δ) :
    i ≤ st.pool.Length →
    (∀ k, k < (tagsOf δ).length → 0 ≤ depthOf ((tagsOf δ).take k)) ∧
    ((depthOf (tagsOf δ) = -1 ∧ 0 ≤ r ∧
        (∃ δ₀ t, δ = δ₀ ++ [Event.tag r.toNat t, Event.store r.toNat] ∧
          ConstantPoolTag.ofValue t = some .kEndClosureFunctionScope) ∧
        st'.pool.ObjectAt r.toNat = Obj.null) ∨
      (0 ≤ depthOf (tagsOf δ) ∧ r = (st.pool.Length : Int) - 1)) := by
  induction h with
  | exit inner scope i st hi =>
    intro _
    exact ⟨fun k hk => by simp [tagsOf] at hk, Or.inr ⟨by simp [tagsOf, depthOf], rfl⟩⟩
  | endScope inner scope i st tag rd hi htag hk =>
    intro _
    refine ⟨?_, Or.inl ⟨?_, by omega, ⟨[], tag, by simp, hk⟩, ?_⟩⟩
    · intro k hk'
      simp only [tagsOf, List.length_singleton, Nat.lt_one_iff] at hk'
      subst hk'
      simp [depthOf]
    · simp [tagsOf, depthOf, tagDepth, hk]
    · simp only [Int.toNat_ofNat]
      exact DecodeState.ObjectAt_store _ _ _ _ hi
  | instanceField inner scope i st tag rd rd' obj field r st' δ hi htag hk hentry hi1 hrest ih =>
    intro _
    simp only [DecodeState.Length_store, DecodeState.Length_afterTag] at ih
    obtain ⟨ihp, ihe⟩ := ih (by omega)
    have hd : tagDepth tag = 0 := by simp [tagDepth, hk]
    refine ⟨?_, ?_⟩
    · apply depthOf_take_cons_nonneg (i, tag) (tagsOf δ)
      intro k hk'
      simp only [hd, zero_add]
      exact ihp k hk'
    · exact nesting_step [Event.tag i tag, Event.store i, Event.store (i + 1)]
        (by simp [tagsOf, depthOf, hd]) ihe
  | nativeEntry inner scope i st tag rd rd' obj r st' δ hi htag hk hentry hrest ih =>
    intro _
    simp only [DecodeState.Length_store, DecodeState.Length_afterTag] at ih
    obtain ⟨ihp, ihe⟩ := ih (by omega)
    have hd : tagDepth tag = 0 := by simp [tagDepth, hk]
    refine ⟨?_, ?_⟩
    · apply depthOf_take_cons_nonneg (i, tag) (tagsOf δ)
      intro k hk'
      simp only [hd, zero_add]
      exact ihp k hk'
    · exact nesting_step [Event.tag i tag, Event.store i] (by simp [tagsOf, depthOf, hd]) ihe
  | plain inner scope i st tag rd rd' obj deopt r st' δ hi htag hk hentry hrest ih =>
    intro _
    simp only [DecodeState.Length_store, DecodeState.Length_afterTag] at ih
    obtain ⟨ihp, ihe⟩ := ih (by omega)
    have hd : tagDepth tag = 0 := tagDepth_of_storesItself_false tag hk
    refine ⟨?_, ?_⟩
    · apply depthOf_take_cons_nonneg (i, tag) (tagsOf δ)
      intro k hk'
      simp only [hd, zero_add]
      exact ihp k hk'
    · exact nesting_step [Event.tag i tag, Event.store i] (by simp [tagsOf, depthOf, hd]) ihe
  | closure inner scope i st tag rd rd' closure r1 st1 r st' δ1 δ2 hi htag hk hentry hinner hnull
      hrest ih1 ih2 =>
    intro _
    have hl := hinner.length_eq
    have hb1 := hinner.bounds
    simp only [DecodeState.Length_store, DecodeState.Length_afterTag] at ih1 hb1 hl
    rw [hl] at ih2
    have h1 := hb1 (by omega)
    obtain ⟨ih1p, ih1e⟩ := ih1 (by omega)
    obtain ⟨ih2p, ih2e⟩ := ih2 (by omega)
    have hd : tagDepth tag = 1 := by simp [tagDepth, hk]
    have hd1 : -1 ≤ depthOf (tagsOf δ1) := by
      rcases ih1e with ⟨e, _⟩ | ⟨e, _⟩ <;> omega
    refine ⟨?_, ?_⟩
    · simp only [tagsOf, tagsOf_append]
      apply depthOf_take_cons_nonneg (i, tag) (tagsOf δ1 ++ tagsOf δ2)
      intro k hk'
      simp only [hd, List.take_append_eq_append_take, depthOf_append]
      simp only [List.length_append] at hk'
      rcases Nat.lt_or_ge k (tagsOf δ1).length with hlt | hge
      · have := ih1p k hlt
        have e : k - (tagsOf δ1).length = 0 := by omega
        simp only [e, List.take_zero, depthOf]
        omega
      · rw [List.take_of_length_le hge]
        have := ih2p (k - (tagsOf δ1).length) (by omega)
        omega
    · rcases ih1e with ⟨e1, _, _, _⟩ | ⟨e1, er1⟩
      · have := @nesting_step st'.pool (st.pool.Length : Int) r δ2
          (Event.tag i tag :: Event.store i :: δ1)
          (by simp [tagsOf, tagsOf_append, depthOf, hd, e1]) ih2e
        simpa using this
      · have hN : ¬ r1.toNat + 1 < st1.pool.Length := by rw [hl]; omega
        obtain ⟨hr, _, hδ2⟩ := hrest.exit_inv hN
        subst hδ2
        refine Or.inr ⟨?_, by rw [hr, hl]⟩
        simp only [List.append_nil, tagsOf, depthOf, hd]
        omega

/-! ## The types of the slots of a run -/

theorem nativeTagAt_eq_false (ts : List (Nat × Nat)) (j : Nat) (h : ∀ p ∈ ts, p.1 ≠ j) :
    nativeTagAt ts j = false := by
  simp only [nativeTagAt, List.any_eq_false, decide_eq_true_eq, not_and]
  intro p hp hj
  exact absurd hj (h p hp)

theorem nativeTagAt_cons (p : Nat × Nat) (ts : List (Nat × Nat)) (j : Nat) :
    nativeTagAt (p :: ts) j =
      (decide (p.1 = j ∧ ConstantPoolTag.ofValue p.2 = some .kNativeEntry) || nativeTagAt ts j) := by
  simp [nativeTagAt]

theorem nativeTagAt_append (a b : List (Nat × Nat)) (j : Nat) :
    nativeTagAt (a ++ b) j = (nativeTagAt a j || nativeTagAt b j) := by
  simp [nativeTagAt]

theorem ObjectPool.TypeAt_congr {p q : ObjectPool} {j : Nat}
    (h : p.slots.get? j = q.slots.get? j) : p.TypeAt j = q.TypeAt j := by
  unfold ObjectPool.TypeAt
  rw [h]

theorem Run.types {env : Env σ} {function inner : Obj} {scope : Scope} {i : Nat}
    {st st' : DecodeState σ} {r : Int} {δ : List Event}
    (h : Run env function inner scope i st r st' δ) :
    i ≤ st.pool.Length → ∀ j, i ≤ j → (j : Int) ≤ r →
      st'.pool.TypeAt j =
        some (if nativeTagAt (tagsOf δ) j then EntryType.kNativeEntryData
          else EntryType.kTaggedObject, Patchability.kNotPatchable) := by
  induction h with
  | exit inner scope i st hi => intro _ j h1 h2; omega
  | endScope inner scope i st tag rd hi htag hk =>
    intro _ j h1 h2
    have : j = i := by omega
    subst this
    rw [DecodeState.TypeAt_store]
    · simp [tagsOf, nativeTagAt, hk]
    · exact hi
  | instanceField inner scope i st tag rd rd' obj field r st' δ hi htag hk hentry hi1 hrest ih =>
    intro _ j h1 h2
    have hf := hrest.frame
    have ht := hrest.tags_range
    simp only [DecodeState.Length_store, DecodeState.Length_afterTag] at ih hf ht
    simp only [tagsOf, nativeTagAt_cons, hk]
    rcases Nat.lt_or_ge j (i + 1 + 1) with hlt | hge
    · rw [nativeTagAt_eq_false _ _ (fun p hp => by have := ht (by omega) p hp; omega)]
      rw [ObjectPool.TypeAt_congr (hf (by omega) j hlt)]
      rcases Nat.lt_or_ge j (i + 1) with hlt' | hge'
      · have : j = i := by omega
        subst this
        rw [ObjectPool.TypeAt_congr (DecodeState.slots_store_of_ne _ _ _ _ _ (by omega)),
          DecodeState.TypeAt_store]
        · simp
        · exact hi
      · have : j = i + 1 := by omega
        subst this
        rw [DecodeState.TypeAt_store]
        · simp
        · simpa [DecodeState.Length_store, DecodeState.Length_afterTag] using hi1
    · rw [ih (by omega) j hge h2]
      simp
  | nativeEntry inner scope i st tag rd rd' obj r st' δ hi htag hk hentry hrest ih =>
    intro _ j h1 h2
    have hf := hrest.frame
    have ht := hrest.tags_range
    simp only [DecodeState.Length_store, DecodeState.Length_afterTag] at ih hf ht
    simp only [tagsOf, nativeTagAt_cons, hk]
    rcases Nat.lt_or_ge j (i + 1) with hlt | hge
    · have : j = i := by omega
      subst this
      rw [ObjectPool.TypeAt_congr (hf (by omega) j hlt), DecodeState.TypeAt_store]
      · simp
      · exact hi
    · rw [ih (by omega) j hge h2]
      have : ¬ i = j := by omega
      simp [this]
  | plain inner scope i st tag rd rd' obj deopt r st' δ hi htag hk hentry hrest ih =>
    intro _ j h1 h2
    have hf := hrest.frame
    have ht := hrest.tags_range
    simp only [DecodeState.Length_store, DecodeState.Length_afterTag] at ih hf ht
    have hne : ConstantPoolTag.ofValue tag ≠ some .kNativeEntry := by
      intro e; rw [e] at hk; simp [ConstantPoolTag.storesItself] at hk
    simp only [tagsOf, nativeTagAt_cons, hne, and_false, decide_False, Bool.false_or]
    rcases Nat.lt_or_ge j (i + 1) with hlt | hge
    · have : j = i := by omega
      subst this
      rw [nativeTagAt_eq_false _ _ (fun p hp => by have := ht (by omega) p hp; omega)]
      rw [ObjectPool.TypeAt_congr (hf (by omega) j hlt), DecodeState.TypeAt_store]
      · simp
      · exact hi
    · exact ih (by omega) j hge h2
  | closure inner scope i st tag rd rd' closure r1 st1 r st' δ1 δ2 hi htag hk hentry hinner hnull
      hrest ih1 ih2 =>
    intro _ j h1 h2
    have hl := hinner.length_eq
    have hb1 := hinner.bounds
    have hf1 := hinner.frame
    have ht1 := hinner.tags_range
    have hf2 := hrest.frame
    have ht2 := hrest.tags_range
    simp only [DecodeState.Length_store, DecodeState.Length_afterTag] at ih1 hb1 hl hf1 ht1
    rw [hl] at ih2 hf2 ht2
    have hb := hb1 (by omega)
    simp only [tagsOf, tagsOf_append, nativeTagAt_cons, nativeTagAt_append, hk]
    rcases Nat.lt_or_ge j (i + 1) with hlt | hge
    · have : j = i := by omega
      subst this
      rw [nativeTagAt_eq_false _ _ (fun p hp => by have := ht1 (by omega) p hp; omega),
        nativeTagAt_eq_false _ _ (fun p hp => by have := ht2 (by omega) p hp; omega)]
      rw [ObjectPool.TypeAt_congr (hf2 (by omega) j (by omega)),
        ObjectPool.TypeAt_congr (hf1 (by omega) j hlt), DecodeState.TypeAt_store]
      · simp
      · exact hi
    · rcases Nat.lt_or_ge j (r1.toNat + 1) with hlt' | hge'
      · rw [nativeTagAt_eq_false (tagsOf δ2) _ (fun p hp => by have := ht2 (by omega) p hp; omega)]
        rw [ObjectPool.TypeAt_congr (hf2 (by omega) j hlt'), ih1 (by omega) j hge (by omega)]
        simp
      · rw [nativeTagAt_eq_false (tagsOf δ1) _ (fun p hp => by have := ht1 (by omega) p hp; omega)]
        rw [ih2 (by omega) j hge' h2]
        simp

/-! ## Back references -/

theorem kICData_backref (env : Env σ) (function : Obj) (pool : ObjectPool) (i : Nat)
    (rd rd1 rd2 rd3 : σ) (deopt flags idx : Nat) (name : String)
    (h1 : env.ReadByte rd = .ok (flags, rd1))
    (h2 : ReadICDataName env (flags &&& kInvocationKindMask) rd1 = .ok (name, rd2))
    (h3 : env.ReadUInt rd2 = .ok (idx, rd3)) :
    (i ≤ idx → ReadPoolEntries_kICData env function pool i rd deopt =
        .error (.assertFailed .icDataArgDescIndex)) ∧
    (idx < i → ReadPoolEntries_kICData env function pool i rd deopt ≠
        .error (.assertFailed .icDataArgDescIndex)) := by
  constructor
  · intro h
    have : ¬ idx < i := by omega
    simp [ReadPoolEntries_kICData, bind, Except.bind, h1, h2, h3, ASSERT, this]
  · intro h
    simp only [ReadPoolEntries_kICData, bind, Except.bind, h1, h2, h3, ASSERT, h, pure,
      Except.pure, decide_True, if_true]
    split_ifs <;> simp

theorem kStaticICData_backref (env : Env σ) (function : Obj) (pool : ObjectPool) (i : Nat)
    (rd rd1 rd2 rd3 : σ) (deopt kind target idx : Nat) (name : String) (elem : Obj)
    (h1 : env.ReadByte rd = .ok (kind, rd1))
    (h2 : env.ReadCanonicalNameReference rd1 = .ok (target, rd2))
    (h3 : StaticICDataTarget env kind target = .ok (name, elem))
    (h4 : elem.IsFunction = true)
    (h5 : env.ReadUInt rd2 = .ok (idx, rd3)) :
    (i ≤ idx → ReadPoolEntries_kStaticICData env function pool i rd deopt =
        .error (.assertFailed .staticICDataArgDescIndex)) ∧
    (idx < i → ReadPoolEntries_kStaticICData env function pool i rd deopt =
        .ok (Obj.icData function name (pool.ObjectAt idx) (env.GetNextDeoptId deopt).1
          (env.NumArgsCheckedForStaticCall elem) .kStatic [elem], rd3,
          (env.GetNextDeoptId deopt).2)) := by
  constructor
  · intro h
    have : ¬ idx < i := by omega
    simp [ReadPoolEntries_kStaticICData, bind, Except.bind, h1, h2, h3, h4, h5, ASSERT, this]
  · intro h
    simp [ReadPoolEntries_kStaticICData, bind, Except.bind, h1, h2, h3, h4, h5, ASSERT, h, pure,
      Except.pure]

theorem ReadListElements_of_indices (env : Env σ) (pool : ObjectPool) (i : Nat) :
    ∀ (n : Nat) (rd rd' : σ) (idxs : List Nat),
      ReadIndices env n rd = .ok (idxs, rd') → (∀ x ∈ idxs, x < i) →
      ReadListElements env pool i n rd = .ok (idxs.map pool.ObjectAt, rd') := by
  intro n
  induction n with
  | zero =>
    intro rd rd' idxs h _
    simp only [ReadIndices, pure, Except.pure, Except.ok.injEq, Prod.mk.injEq] at h
    obtain ⟨h1, h2⟩ := h
    subst h1 h2
    rfl
  | succ n ih =>
    intro rd rd' idxs h hall
    simp only [ReadIndices, bind, Except.bind] at h
    split at h
    · simp at h
    · rename_i p hp
      obtain ⟨idx, rd1⟩ := p
      simp only at h
      split at h
      · simp at h
      · rename_i q hq
        obtain ⟨rest, rd2⟩ := q
        simp only [pure, Except.pure, Except.ok.injEq, Prod.mk.injEq] at h
        obtain ⟨h1, h2⟩ := h
        subst h1 h2
        have hidx : idx < i := hall idx (by simp)
        have hrest := ih rd1 rd2 rest hq (fun x hx => hall x (by simp [hx]))
        simp [ReadListElements, bind, Except.bind, hp, ASSERT, hidx, hrest, pure, Except.pure]

theorem ReadListElements_bad_index (env : Env σ) (pool : ObjectPool) (i : Nat) :
    ∀ (k m : Nat) (rd rd' rd'' : σ) (pre : List Nat) (idx : Nat),
      ReadIndices env k rd = .ok (pre, rd') → (∀ x ∈ pre, x < i) →
      env.ReadUInt rd' = .ok (idx, rd'') → i ≤ idx →
      ReadListElements env pool i (k + 1 + m) rd = .error (.assertFailed .listElemIndex) := by
  intro k
  induction k with
  | zero =>
    intro m rd rd' rd'' pre idx h _ hr hi
    simp only [ReadIndices, pure, Except.pure, Except.ok.injEq, Prod.mk.injEq] at h
    obtain ⟨h1, h2⟩ := h
    subst h1 h2
    have : ¬ idx < i := by omega
    rw [show 0 + 1 + m = m + 1 by omega]
    simp [ReadListElements, bind, Except.bind, hr, ASSERT, this]
  | succ k ih =>
    intro m rd rd' rd'' pre idx h hall hr hi
    simp only [ReadIndices, bind, Except.bind] at h
    split at h
    · simp at h
    · rename_i p hp
      obtain ⟨idx0, rd1⟩ := p
      simp only at h
      split at h
      · simp at h
      · rename_i q hq
        obtain ⟨rest, rd2⟩ := q
        simp only [pure, Except.pure, Except.ok.injEq, Prod.mk.injEq] at h
        obtain ⟨h1, h2⟩ := h
        subst h1 h2
        have hidx : idx0 < i := hall idx0 (by simp)
        have hrest := ih m rd1 rd2 rd'' rest idx hq (fun x hx => hall x (by simp [hx])) hr hi
        rw [show k + 1 + 1 + m = (k + 1 + m) + 1 by omega]
        simp [ReadListElements, bind, Except.bind, hp, ASSERT, hidx, hrest]

theorem ReadInstanceFields_of_indices (env : Env σ) (pool : ObjectPool) (i : Nat) :
    ∀ (n : Nat) (rd rd' : σ) (fs : List (Obj × Nat)),
      ReadFieldIndices env n rd = .ok (fs, rd') → (∀ p ∈ fs, p.2 < i) →
      ReadInstanceFields env pool i n rd =
        .ok (fs.map (fun p => (p.1, pool.ObjectAt p.2)), rd') := by
  intro n
  induction n with
  | zero =>
    intro rd rd' fs h _
    simp only [ReadFieldIndices, pure, Except.pure, Except.ok.injEq, Prod.mk.injEq] at h
    obtain ⟨h1, h2⟩ := h
    subst h1 h2
    rfl
  | succ n ih =>
    intro rd rd' fs h hall
    simp only [ReadFieldIndices, bind, Except.bind] at h
    split at h
    · simp at h
    · rename_i p hp
      obtain ⟨nm, rd1⟩ := p
      simp only at h
      split at h
      · simp at h
      · rename_i u hu
        split at h
        · simp at h
        · rename_i f hf
          split at h
          · simp at h
          · rename_i q hq
            obtain ⟨idx, rd2⟩ := q
            simp only at h
            split at h
            · simp at h
            · rename_i w hw
              obtain ⟨rest, rd3⟩ := w
              simp only [pure, Except.pure, Except.ok.injEq, Prod.mk.injEq] at h
              obtain ⟨h1, h2⟩ := h
              subst h1 h2
              have hidx : idx < i := hall (f, idx) (by simp)
              have hrest := ih rd2 rd3 rest hw (fun x hx => hall x (by simp [hx]))
              have hisf0 : env.IsField nm = true := by
                cases hb : env.IsField nm
                · simp [ASSERT, hb] at hu
                · rfl
              simp [ReadInstanceFields, bind, Except.bind, hp, hisf0, hf, hq, ASSERT, hidx,
                hrest, pure, Except.pure]

theorem ReadInstanceFields_bad_index (env : Env σ) (pool : ObjectPool) (i : Nat) :
    ∀ (k m : Nat) (rd rd' ra rb : σ) (pre : List (Obj × Nat)) (nm idx : Nat) (f : Obj),
      ReadFieldIndices env k rd = .ok (pre, rd') → (∀ p ∈ pre, p.2 < i) →
      env.ReadCanonicalNameReference rd' = .ok (nm, ra) → env.IsField nm = true →
      env.LookupFieldByKernelField nm = .ok f →
      env.ReadUInt ra = .ok (idx, rb) → i ≤ idx →
      ReadInstanceFields env pool i (k + 1 + m) rd =
        .error (.assertFailed .instanceElemIndex) := by
  intro k
  induction k with
  | zero =>
    intro m rd rd' ra rb pre nm idx f h _ hn hisf hl hr hi
    simp only [ReadFieldIndices, pure, Except.pure, Except.ok.injEq, Prod.mk.injEq] at h
    obtain ⟨h1, h2⟩ := h
    subst h1 h2
    have : ¬ idx < i := by omega
    rw [show 0 + 1 + m = m + 1 by omega]
    simp [ReadInstanceFields, bind, Except.bind, hn, hisf, hl, hr, ASSERT, this]
  | succ k ih =>
    intro m rd rd' ra rb pre nm idx f h hall hn hisf hl hr hi
    simp only [ReadFieldIndices, bind, Except.bind] at h
    split at h
    · simp at h
    · rename_i p hp
      obtain ⟨nm0, rd1⟩ := p
      simp only at h
      split at h
      · simp at h
      · rename_i u hu
        split at h
        · simp at h
        · rename_i f0 hf
          split at h
          · simp at h
          · rename_i q hq
            obtain ⟨idx0, rd2⟩ := q
            simp only at h
            split at h
            · simp at h
            · rename_i w hw
              obtain ⟨rest, rd3⟩ := w
              simp only [pure, Except.pure, Except.ok.injEq, Prod.mk.injEq] at h
              obtain ⟨h1, h2⟩ := h
              subst h1 h2
              have hidx : idx0 < i := hall (f0, idx0) (by simp)
              have hrest := ih m rd2 rd3 ra rb rest nm idx f hw
                (fun x hx => hall x (by simp [hx])) hn hisf hl hr hi
              have hisf0 : env.IsField nm0 = true := by
                cases hb : env.IsField nm0
                · simp [ASSERT, hb] at hu
                · rfl
              rw [show k + 1 + 1 + m = (k + 1 + m) + 1 by omega]
              simp [ReadInstanceFields, bind, Except.bind, hp, hisf0, hf, hq, ASSERT, hidx,
                hrest]

/-- The checks of the indices inside the five cases that read pool indices:
for `kICData`, `kStaticICData`, `kList`, `kInstance` and
`kPartialTearOffInstantiation` called for slot `i`, the first index read that
is `≥ i` makes the case fail with the assertion on that index, and when the
indices read are all `< i` the case is not rejected by such an assertion. -/
theorem back_reference_entries (env : Env σ) (function : Obj) (scope : Scope)
    (pool : ObjectPool) (i : Nat) :
    (∀ (rd rd1 rd2 rd3 : σ) (deopt flags idx : Nat) (name : String),
      env.ReadByte rd = .ok (flags, rd1) →
      ReadICDataName env (flags &&& kInvocationKindMask) rd1 = .ok (name, rd2) →
      env.ReadUInt rd2 = .ok (idx, rd3) →
      (i ≤ idx → ReadPoolEntries_kICData env function pool i rd deopt =
          .error (.assertFailed .icDataArgDescIndex)) ∧
      (idx < i → ReadPoolEntries_kICData env function pool i rd deopt ≠
          .error (.assertFailed .icDataArgDescIndex))) ∧
    (∀ (rd rd1 rd2 rd3 : σ) (deopt kind target idx : Nat) (name : String) (elem : Obj),
      env.ReadByte rd = .ok (kind, rd1) →
      env.ReadCanonicalNameReference rd1 = .ok (target, rd2) →
      StaticICDataTarget env kind target = .ok (name, elem) → elem.IsFunction = true →
      env.ReadUInt rd2 = .ok (idx, rd3) →
      (i ≤ idx → ReadPoolEntries_kStaticICData env function pool i rd deopt =
          .error (.assertFailed .staticICDataArgDescIndex)) ∧
      (idx < i → ReadPoolEntries_kStaticICData env function pool i rd deopt =
          .ok (Obj.icData function name (pool.ObjectAt idx) (env.GetNextDeoptId deopt).1
            (env.NumArgsCheckedForStaticCall elem) .kStatic [elem], rd3,
            (env.GetNextDeoptId deopt).2))) ∧
    (∀ (rd rd1 rd2 : σ) (ty : Obj) (n : Nat),
      env.BuildType scope rd = .ok (ty, rd1) → ty.IsAbstractType = true →
      env.ReadListLength rd1 = .ok (n, rd2) →
      (∀ (k m : Nat) (rd3 rd4 : σ) (pre : List Nat) (idx : Nat), n = k + 1 + m →
        ReadIndices env k rd2 = .ok (pre, rd3) → (∀ x ∈ pre, x < i) →
        env.ReadUInt rd3 = .ok (idx, rd4) → i ≤ idx →
        ReadPoolEntries_kList env scope pool i rd = .error (.assertFailed .listElemIndex)) ∧
      (∀ (rd3 : σ) (idxs : List Nat),
        ReadIndices env n rd2 = .ok (idxs, rd3) → (∀ x ∈ idxs, x < i) →
        ReadPoolEntries_kList env scope pool i rd =
          if (env.Canonicalize (Obj.array ty (idxs.map pool.ObjectAt))).IsNull
          then .error (.assertFailed .notNull)
          else .ok (env.Canonicalize (Obj.array ty (idxs.map pool.ObjectAt)), rd3))) ∧
    (∀ (rd rd1 rd2 : σ) (ref tidx : Nat) (cls : Obj),
      env.ReadCanonicalNameReference rd = .ok (ref, rd1) →
      env.LookupClassByKernelClass ref = .ok cls →
      env.ReadUInt rd1 = .ok (tidx, rd2) →
      (i ≤ tidx → ReadPoolEntries_kInstance env pool i rd =
          .error (.assertFailed .instanceTypeArgsIndex)) ∧
      (tidx < i → ∀ (rd3 : σ) (n : Nat), env.ReadUInt rd2 = .ok (n, rd3) →
        (∀ (k m : Nat) (rd4 ra rb : σ) (pre : List (Obj × Nat)) (nm idx : Nat) (f : Obj),
          n = k + 1 + m → ReadFieldIndices env k rd3 = .ok (pre, rd4) →
          (∀ p ∈ pre, p.2 < i) →
          env.ReadCanonicalNameReference rd4 = .ok (nm, ra) → env.IsField nm = true →
          env.LookupFieldByKernelField nm = .ok f →
          env.ReadUInt ra = .ok (idx, rb) → i ≤ idx →
          ReadPoolEntries_kInstance env pool i rd =
            .error (.assertFailed .instanceElemIndex)) ∧
        (∀ (rd4 : σ) (fs : List (Obj × Nat)),
          ReadFieldIndices env n rd3 = .ok (fs, rd4) → (∀ p ∈ fs, p.2 < i) →
          ReadPoolEntries_kInstance env pool i rd =
            .ok (env.Canonicalize (Obj.plainInstance cls (pool.ObjectAt tidx)
              (fs.map fun p => (p.1, pool.ObjectAt p.2))), rd4)))) ∧
    (∀ (rd rd1 : σ) (tearoff : Nat),
      env.ReadUInt rd = .ok (tearoff, rd1) →
      (i ≤ tearoff → ReadPoolEntries_kPartialTearOffInstantiation env pool i rd =
          .error (.assertFailed .tearoffIndex)) ∧
      (tearoff < i → ∀ (a b c f ctx : Obj) (rd2 : σ) (targs : Nat),
        pool.ObjectAt tearoff = Obj.closure a b c f ctx →
        env.ReadUInt rd1 = .ok (targs, rd2) →
        (i ≤ targs → ReadPoolEntries_kPartialTearOffInstantiation env pool i rd =
            .error (.assertFailed .partialTypeArgsIndex)) ∧
        (targs < i → ReadPoolEntries_kPartialTearOffInstantiation env pool i rd =
            .ok (env.Canonicalize (Obj.closure a b (pool.ObjectAt targs) f ctx), rd2)))) := by
  refine ⟨?_, ?_, ?_, ?_, ?_⟩
  · intro rd rd1 rd2 rd3 deopt flags idx name h1 h2 h3
    exact kICData_backref env function pool i rd rd1 rd2 rd3 deopt flags idx name h1 h2 h3
  · intro rd rd1 rd2 rd3 deopt kind target idx name elem h1 h2 h3 h4 h5
    exact kStaticICData_backref env function pool i rd rd1 rd2 rd3 deopt kind target idx name
      elem h1 h2 h3 h4 h5
  · intro rd rd1 rd2 ty n h1 h2 h3
    constructor
    · intro k m rd3 rd4 pre idx hn hr hall hu hi
      subst hn
      have := ReadListElements_bad_index env pool i k m rd2 rd3 rd4 pre idx hr hall hu hi
      simp [ReadPoolEntries_kList, bind, Except.bind, h1, h2, h3, ASSERT, this]
    · intro rd3 idxs hr hall
      have := ReadListElements_of_indices env pool i n rd2 rd3 idxs hr hall
      simp only [ReadPoolEntries_kList, bind, Except.bind, h1, h2, h3, ASSERT, this, pure,
        Except.pure, if_true]
      split_ifs <;> simp_all
  · intro rd rd1 rd2 ref tidx cls h1 h2 h3
    constructor
    · intro hi
      have : ¬ tidx < i := by omega
      simp [ReadPoolEntries_kInstance, bind, Except.bind, h1, h2, h3, ASSERT, this]
    · intro hi rd3 n h4
      constructor
      · intro k m rd4 ra rb pre nm idx f hn hr hall hnm hisf hl hu hidx
        subst hn
        have := ReadInstanceFields_bad_index env pool i k m rd3 rd4 ra rb pre nm idx f hr hall
          hnm hisf hl hu hidx
        simp [ReadPoolEntries_kInstance, bind, Except.bind, h1, h2, h3, h4, ASSERT, hi, this]
      · intro rd4 fs hr hall
        have := ReadInstanceFields_of_indices env pool i n rd3 rd4 fs hr hall
        simp [ReadPoolEntries_kInstance, bind, Except.bind, h1, h2, h3, h4, ASSERT, hi, this,
          pure, Except.pure]
  · intro rd rd1 tearoff h1
    constructor
    · intro hi
      have : ¬ tearoff < i := by omega
      simp [ReadPoolEntries_kPartialTearOffInstantiation, bind, Except.bind, h1, ASSERT, this]
    · intro hi a b c f ctx rd2 targs hc h2
      constructor
      · intro hj
        have : ¬ targs < i := by omega
        simp [ReadPoolEntries_kPartialTearOffInstantiation, bind, Except.bind, h1, h2, hc,
          ASSERT, hi, this]
      · intro hj
        simp [ReadPoolEntries_kPartialTearOffInstantiation, bind, Except.bind, h1, h2, hc,
          ASSERT, hi, hj, pure, Except.pure]

/-! ## Scalars -/

theorem shiftLeft_or_eq (high low : Nat) (hlow : low < 2 ^ 32) :
    (high <<< 32) ||| low = high * 2 ^ 32 + low := by
  rw [Nat.shiftLeft_eq, Nat.mul_comm high, Nat.mul_add_lt_is_or hlow]

/-- C2. A `kInt` entry whose two 32-bit halves are `low` (read first) and `high`
(read second) decodes to the canonicalized integer whose two's-complement bit
pattern is `high * 2^32 + low`, that is
`((high * 2^32 + low + 2^63) mod 2^64) - 2^63`. -/
theorem ReadPoolEntries_kInt_value (env : Env σ) (rd rd1 rd2 : σ) (low high : Nat)
    (hlow : low < 2 ^ 32) (hhigh : high < 2 ^ 32)
    (h1 : env.ReadUInt32 rd = .ok (low, rd1)) (h2 : env.ReadUInt32 rd1 = .ok (high, rd2)) :
    ReadPoolEntries_kInt env rd =
      .ok (env.Canonicalize
        (Obj.integer ((((high * 2 ^ 32 + low + 2 ^ 63) % 2 ^ 64 : Nat) : Int) - 2 ^ 63)), rd2) := by
  have e : toInt64 ((high <<< 32) ||| low) =
      (((high * 2 ^ 32 + low + 2 ^ 63) % 2 ^ 64 : Nat) : Int) - 2 ^ 63 := by
    rw [shiftLeft_or_eq high low hlow]
    unfold toInt64
    have hlt : high * 2 ^ 32 + low < 2 ^ 64 := by omega
    rw [Nat.mod_eq_of_lt hlt]
    split_ifs with hc <;> omega
  simp only [ReadPoolEntries_kInt, bind, Except.bind, h1, h2, pure, Except.pure]
  rw [Nat.mod_eq_of_lt hlow, Nat.mod_eq_of_lt hhigh, e]

/-- C2, at the two inputs the claim names: halves `0x0000002A`, `0x00000000`
decode to 42 and halves `0xFFFFFFFF`, `0xFFFFFFFF` decode to -1. -/
theorem ReadPoolEntries_kInt_value_witness :
    ReadPoolEntries_kInt tokenEnv ⟨[0x0000002A, 0x00000000], 0⟩ =
        .ok (Obj.integer 42, ⟨[0x0000002A, 0x00000000], 2⟩) ∧
    ReadPoolEntries_kInt tokenEnv ⟨[0xFFFFFFFF, 0xFFFFFFFF], 0⟩ =
        .ok (Obj.integer (-1), ⟨[0xFFFFFFFF, 0xFFFFFFFF], 2⟩) :=
  ⟨ReadPoolEntries_kInt_value tokenEnv ⟨[0x0000002A, 0x00000000], 0⟩
      ⟨[0x0000002A, 0x00000000], 1⟩ ⟨[0x0000002A, 0x00000000], 2⟩ 0x0000002A 0x00000000
      (by decide) (by decide) rfl rfl,
    ReadPoolEntries_kInt_value tokenEnv ⟨[0xFFFFFFFF, 0xFFFFFFFF], 0⟩
      ⟨[0xFFFFFFFF, 0xFFFFFFFF], 1⟩ ⟨[0xFFFFFFFF, 0xFFFFFFFF], 2⟩ 0xFFFFFFFF 0xFFFFFFFF
      (by decide) (by decide) rfl rfl⟩

/-- C3. A `kDouble` entry whose two 32-bit halves are `low` (read first) and
`high` (read second) decodes to the canonicalized double whose 64-bit pattern
is exactly `high * 2^32 + low`. -/
theorem ReadPoolEntries_kDouble_bits (env : Env σ) (rd rd1 rd2 : σ) (low high : Nat)
    (hlow : low < 2 ^ 32) (hhigh : high < 2 ^ 32)
    (h1 : env.ReadUInt32 rd = .ok (low, rd1)) (h2 : env.ReadUInt32 rd1 = .ok (high, rd2)) :
    ReadPoolEntries_kDouble env rd =
      .ok (env.Canonicalize (Obj.double (high * 2 ^ 32 + low)), rd2) := by
  have e : ((high <<< 32) % 2 ^ 64) ||| low = high * 2 ^ 32 + low := by
    have hlt : high <<< 32 < 2 ^ 64 := by rw [Nat.shiftLeft_eq]; omega
    rw [Nat.mod_eq_of_lt hlt, shiftLeft_or_eq high low hlow]
  simp only [ReadPoolEntries_kDouble, bind, Except.bind, h1, h2, pure, Except.pure]
  rw [Nat.mod_eq_of_lt hlow, Nat.mod_eq_of_lt hhigh, e]

/-- C3, at the input the claim names: halves `0x00000000`, `0x40490FDB` decode
to the double with pattern `0x40490FDB00000000`. -/
theorem ReadPoolEntries_kDouble_bits_witness :
    ReadPoolEntries_kDouble tokenEnv ⟨[0x00000000, 0x40490FDB], 0⟩ =
      .ok (Obj.double 0x40490FDB00000000, ⟨[0x00000000, 0x40490FDB], 2⟩) :=
  ReadPoolEntries_kDouble_bits tokenEnv ⟨[0x00000000, 0x40490FDB], 0⟩
    ⟨[0x00000000, 0x40490FDB], 1⟩ ⟨[0x00000000, 0x40490FDB], 2⟩ 0x00000000 0x40490FDB
    (by decide) (by decide) rfl rfl

/-! ## Field references -/

theorem ObjectPool.ObjectAt_congr {p q : ObjectPool} {j : Nat}
    (h : p.slots.get? j = q.slots.get? j) : p.ObjectAt j = q.ObjectAt j := by
  unfold ObjectPool.ObjectAt
  rw [h]

theorem Run.first_tag {env : Env σ} {function inner : Obj} {scope : Scope} {i : Nat}
    {st st' : DecodeState σ} {r : Int} {δ : List Event}
    (h : Run env function inner scope i st r st' δ) :
    ∀ p, (tagsOf δ).head? = some p → p.1 = i := by
  cases h <;> intro p hp <;> simp [tagsOf] at hp <;> simp [← hp]

theorem ReadPoolEntries_eq_of_loop {env : Env σ} {function inner : Obj} {scope : Scope}
    {i : Nat} {st : DecodeState σ}
    {res : Except (DecodeError × DecodeState σ) (Int × DecodeState σ)}
    (h : ReadPoolEntriesLoop env function (st.pool.Length - i + 1) inner scope i st = some res) :
    ReadPoolEntries env function inner scope st i = res := by
  have := ReadPoolEntriesLoop_eq env function _ inner scope i st (le_refl _)
  rw [h] at this
  exact (Option.some.inj this).symm

/-- C4. An instance-field entry read at slot `i` of a pool of length `N`, with
`i + 1 < N`: the decode continues exactly as the loop started at slot `i + 2`
in the state in which one tag has been read, slot `i` holds the field offset
divided by the word size and slot `i + 1` holds the field.  In every result of
the decode these two slots hold those values, the entry accounts for one tag
and two stores, and the next tag, if any, is read for slot `i + 2`.  With
`i + 1 ≥ N` the decode fails. -/
theorem ReadPoolEntries_kInstanceField_two_slots (env : Env σ) (function inner : Obj)
    (scope : Scope) (st : DecodeState σ) (i tag ref : Nat) (rd rd' : σ) (field : Obj)
    (hi : i < st.pool.Length) (htag : env.ReadTag st.reader = .ok (tag, rd))
    (hk : ConstantPoolTag.ofValue tag = some .kInstanceField)
    (href : env.ReadCanonicalNameReference rd = .ok (ref, rd'))
    (hfield : env.LookupFieldByKernelField ref = .ok field) :
    (i + 1 < st.pool.Length →
      ReadPoolEntries env function inner scope st i =
        ReadPoolEntries env function inner scope
          ((({ st.afterTag i tag rd with reader := rd' }).store i .kTaggedObject
            (Obj.smi ((env.FieldOffset field).tdiv env.kWordSize))).store (i + 1)
              .kTaggedObject field) (i + 2) ∧
      ∀ r st', ReadPoolEntries env function inner scope st i = .ok (r, st') →
        st'.pool.ObjectAt i = Obj.smi ((env.FieldOffset field).tdiv env.kWordSize) ∧
        st'.pool.ObjectAt (i + 1) = field ∧
        ∃ δ, st'.trace =
            st.trace ++ (Event.tag i tag :: Event.store i :: Event.store (i + 1) :: δ) ∧
          ∀ p, (tagsOf δ).head? = some p → p.1 = i + 2) ∧
    (¬ i + 1 < st.pool.Length →
      ReadPoolEntries env function inner scope st i =
        .error (.assertFailed .instanceFieldSecondSlot,
          ({ st.afterTag i tag rd with reader := rd' }).store i .kTaggedObject
            (Obj.smi ((env.FieldOffset field).tdiv env.kWordSize)))) := by
  have hentry : ReadPoolEntries_kInstanceField env rd =
      .ok (Obj.smi ((env.FieldOffset field).tdiv env.kWordSize), field, rd') := by
    simp [ReadPoolEntries_kInstanceField, bind, Except.bind, href, hfield, pure, Except.pure]
  have hf : st.pool.Length - i + 1 = (st.pool.Length - i) + 1 := rfl
  constructor
  · intro hi1
    have heq : ReadPoolEntries env function inner scope st i =
        ReadPoolEntries env function inner scope
          ((({ st.afterTag i tag rd with reader := rd' }).store i .kTaggedObject
            (Obj.smi ((env.FieldOffset field).tdiv env.kWordSize))).store (i + 1)
              .kTaggedObject field) (i + 2) := by
      apply ReadPoolEntries_eq_of_loop
      rw [hf]
      simp only [ReadPoolEntriesLoop, hi, htag, hk, hentry, hi1, if_true]
      apply ReadPoolEntriesLoop_eq
      simp only [DecodeState.Length_store, DecodeState.Length_afterTag]
      omega
    refine ⟨heq, ?_⟩
    intro r st' hres
    rw [heq] at hres
    obtain ⟨δ, hrun⟩ := Run_of_ReadPoolEntries hres
    have hfr := hrun.frame
    have htr := hrun.trace_eq
    simp only [DecodeState.Length_store, DecodeState.Length_afterTag] at hfr
    refine ⟨?_, ?_, δ, ?_, hrun.first_tag⟩
    · rw [ObjectPool.ObjectAt_congr (hfr (by omega) i (by omega)),
        ObjectPool.ObjectAt_congr (DecodeState.slots_store_of_ne _ _ _ _ _ (by omega)),
        DecodeState.ObjectAt_store]
      exact hi
    · rw [ObjectPool.ObjectAt_congr (hfr (by omega) (i + 1) (by omega)),
        DecodeState.ObjectAt_store]
      simpa [DecodeState.Length_store, DecodeState.Length_afterTag] using hi1
    · rw [htr]
      simp [DecodeState.store, DecodeState.afterTag]
  · intro hi1
    apply ReadPoolEntries_eq_of_loop
    rw [hf]
    simp only [ReadPoolEntriesLoop, hi, htag, hk, hentry, hi1, if_true, if_false]

/-- C4, on the pool of three slots decoded from the values `10, 5, 1` (the
field reference of field 5, then null): the decode returns 2, slot 0 holds the
offset `40 / 8 = 5`, slot 1 the field, and the events are one tag and two
stores for the entry followed by the tag and the store of slot 2; in a pool of
one slot the same entry fails. -/
theorem ReadPoolEntries_kInstanceField_two_slots_witness :
    (∀ r st', ReadPoolEntries tokenEnv exampleFunction exampleFunction []
        (tokenState [10, 5, 1] 3) 0 = .ok (r, st') →
        st'.pool.ObjectAt 0 = Obj.smi (Int.tdiv 40 8) ∧
        st'.pool.ObjectAt 1 = Obj.foreign .field 5 ∧
        ∃ δ, st'.trace = [] ++ (Event.tag 0 10 :: Event.store 0 :: Event.store 1 :: δ) ∧
          ∀ p, (tagsOf δ).head? = some p → p.1 = 2) ∧
    ReadPoolEntries tokenEnv exampleFunction exampleFunction [] (tokenState [10, 5, 1] 3) 0 =
      .ok (2, ⟨⟨[10, 5, 1], 3⟩,
        ⟨[⟨some (.kTaggedObject, .kNotPatchable), some (Obj.smi 5)⟩,
          ⟨some (.kTaggedObject, .kNotPatchable), some (Obj.foreign .field 5)⟩,
          ⟨some (.kTaggedObject, .kNotPatchable), some Obj.null⟩]⟩, 0,
        [Event.tag 0 10, Event.store 0, Event.store 1, Event.tag 2 1, Event.store 2]⟩) ∧
    ReadPoolEntries tokenEnv exampleFunction exampleFunction [] (tokenState [10, 5, 1] 1) 0 =
      .error (.assertFailed .instanceFieldSecondSlot,
        ⟨⟨[10, 5, 1], 2⟩, ⟨[⟨some (.kTaggedObject, .kNotPatchable), some (Obj.smi 5)⟩]⟩, 0,
          [Event.tag 0 10, Event.store 0]⟩) :=
  ⟨((ReadPoolEntries_kInstanceField_two_slots tokenEnv exampleFunction exampleFunction []
      (tokenState [10, 5, 1] 3) 0 10 5 ⟨[10, 5, 1], 1⟩ ⟨[10, 5, 1], 2⟩ (Obj.foreign .field 5)
      (by decide) rfl rfl rfl rfl).1 (by decide)).2,
    rfl,
    (ReadPoolEntries_kInstanceField_two_slots tokenEnv exampleFunction exampleFunction []
      (tokenState [10, 5, 1] 1) 0 10 5 ⟨[10, 5, 1], 1⟩ ⟨[10, 5, 1], 2⟩ (Obj.foreign .field 5)
      (by decide) rfl rfl rfl rfl).2 (by decide)⟩

/-! ## Closure scopes -/

theorem ReadPoolEntries_closure_resume (env : Env σ) (function inner : Obj)
    (scope : Scope) (st : DecodeState σ) (c tag : Nat) (rd rd' : σ) (closure : ClosureData Obj)
    (r1 : Int) (st1 : DecodeState σ)
    (hc : c < st.pool.Length) (htag : env.ReadTag st.reader = .ok (tag, rd))
    (hk : ConstantPoolTag.ofValue tag = some .kClosureFunction)
    (hentry : ReadPoolEntries_kClosureFunction env inner scope rd = .ok (closure, rd'))
    (hrec : ReadPoolEntries env function (Obj.closureFunction closure)
      (closure.type_parameters :: scope)
      (({ st.afterTag c tag rd with reader := rd' }).store c .kTaggedObject
        (Obj.closureFunction closure)) (c + 1) = .ok (r1, st1)) :
    ReadPoolEntries env function inner scope st c =
      if (st1.pool.ObjectAt r1.toNat).IsNull then
        ReadPoolEntries env function inner scope st1 (r1.toNat + 1)
      else .error (.assertFailed .closureScopeClosed, st1) := by
  obtain ⟨δ1, hrun⟩ := Run_of_ReadPoolEntries hrec
  have hl := hrun.length_eq
  have hb := hrun.bounds
  simp only [DecodeState.Length_store, DecodeState.Length_afterTag] at hl hb
  have hb' := hb (by omega)
  have hf : st.pool.Length - c + 1 = (st.pool.Length - c) + 1 := rfl
  apply ReadPoolEntries_eq_of_loop
  rw [hf]
  have hinner : ReadPoolEntriesLoop env function (st.pool.Length - c)
      (Obj.closureFunction closure) (closure.type_parameters :: scope) (c + 1)
      (({ st.afterTag c tag rd with reader := rd' }).store c .kTaggedObject
        (Obj.closureFunction closure)) = some (.ok (r1, st1)) := by
    rw [ReadPoolEntriesLoop_eq, hrec]
    simp only [DecodeState.Length_store, DecodeState.Length_afterTag]
    omega
  simp only [ReadPoolEntriesLoop, hc, htag, hk, hentry, if_true]
  rw [hinner]
  simp only
  split_ifs with hnull
  · apply ReadPoolEntriesLoop_eq
    rw [hl]
    omega
  · rfl

/-- C5. For a closure entry at slot `c`, let the recursive call started at
index `c + 1` return `r1` after reading the events `δ1`.  No proper prefix of
the tags of `δ1` closes more scopes than it opens.  When the tags of `δ1` close
the closure's scope (the sub-range holds the matching end-of-scope marker),
`r1 > c` is the index of that marker: it is the last tag of the call, read at
the call's own nesting level (the events before it are balanced, so it is
neither the marker of a closure nested inside nor one of an enclosing closure),
its slot holds null, and the enclosing loop resumes at index `r1 + 1`. -/
theorem ReadPoolEntries_kClosureFunction_scope (env : Env σ) (function inner : Obj)
    (scope : Scope) (st : DecodeState σ) (c tag : Nat) (rd rd' : σ) (closure : ClosureData Obj)
    (r1 : Int) (st1 : DecodeState σ)
    (hc : c < st.pool.Length) (htag : env.ReadTag st.reader = .ok (tag, rd))
    (hk : ConstantPoolTag.ofValue tag = some .kClosureFunction)
    (hentry : ReadPoolEntries_kClosureFunction env inner scope rd = .ok (closure, rd'))
    (hrec : ReadPoolEntries env function (Obj.closureFunction closure)
      (closure.type_parameters :: scope)
      (({ st.afterTag c tag rd with reader := rd' }).store c .kTaggedObject
        (Obj.closureFunction closure)) (c + 1) = .ok (r1, st1)) :
    ∃ δ1, st1.trace = st.trace ++ (Event.tag c tag :: Event.store c :: δ1) ∧
      (∀ k, k < (tagsOf δ1).length → 0 ≤ depthOf ((tagsOf δ1).take k)) ∧
      (depthOf (tagsOf δ1) < 0 →
        (c : Int) < r1 ∧
        (∃ δ₀ t, δ1 = δ₀ ++ [Event.tag r1.toNat t, Event.store r1.toNat] ∧
          ConstantPoolTag.ofValue t = some .kEndClosureFunctionScope ∧
          depthOf (tagsOf δ₀) = 0) ∧
        st1.pool.ObjectAt r1.toNat = Obj.null ∧
        ReadPoolEntries env function inner scope st c =
          ReadPoolEntries env function inner scope st1 (r1.toNat + 1)) := by
  obtain ⟨δ1, hrun⟩ := Run_of_ReadPoolEntries hrec
  have htr := hrun.trace_eq
  have hn := hrun.nesting
  have hb := hrun.bounds
  have ht := hrun.tags_range
  simp only [DecodeState.Length_store, DecodeState.Length_afterTag] at hn hb ht
  obtain ⟨hpre, hend⟩ := hn (by omega)
  refine ⟨δ1, ?_, hpre, ?_⟩
  · rw [htr]
    simp [DecodeState.store, DecodeState.afterTag]
  · intro hneg
    rcases hend with ⟨hd, hr0, ⟨δ₀, t, hδ, ht'⟩, hnull⟩ | ⟨hd, _⟩
    · have hres := ReadPoolEntries_closure_resume env function inner scope st c tag rd rd'
        closure r1 st1 hc htag hk hentry hrec
      rw [hnull] at hres
      have hmem : (r1.toNat, t) ∈ tagsOf δ1 := by
        rw [hδ, tagsOf_append]
        simp [tagsOf]
      have hrange := ht (by omega) _ hmem
      refine ⟨by omega, ⟨δ₀, t, hδ, ht', ?_⟩, hnull, ?_⟩
      · rw [hδ, tagsOf_append, depthOf_append] at hd
        simp only [tagsOf, depthOf, tagDepth, ht', add_zero] at hd
        omega
      · simpa [Obj.IsNull] using hres
    · omega

/-- C5, on the chain of two nested closures of `chainBuffer`: the recursive
call for the inner closure (slot 1) returns 3, the index of the first
end-of-scope marker, and the one for the outer closure (slot 0) returns 4, the
index of the second; each satisfies the conclusion of the theorem, the outer
loop resuming at index 5, and the whole pool decodes with result 5. -/
theorem ReadPoolEntries_kClosureFunction_scope_witness :
    chainResult1.trace = chainState1.trace ++ [Event.tag 2 1, Event.store 2, Event.tag 3 20,
      Event.store 3] ∧
    chainResult0.trace = chainState0.trace ++ [Event.tag 1 19, Event.store 1, Event.tag 2 1,
      Event.store 2, Event.tag 3 20, Event.store 3, Event.tag 4 20, Event.store 4] ∧
    (ReadPoolEntries tokenEnv exampleFunction exampleFunction [] (tokenState chainBuffer 6) 0
      ).toOption.map Prod.fst = some 5 ∧
    (∃ δ1, chainResult1.trace =
        chainState0.trace ++ (Event.tag 1 19 :: Event.store 1 :: δ1) ∧
      (∀ k, k < (tagsOf δ1).length → 0 ≤ depthOf ((tagsOf δ1).take k)) ∧
      (depthOf (tagsOf δ1) < 0 →
        ((1 : Nat) : Int) < 3 ∧
        (∃ δ₀ t, δ1 = δ₀ ++ [Event.tag (3 : Int).toNat t, Event.store (3 : Int).toNat] ∧
          ConstantPoolTag.ofValue t = some .kEndClosureFunctionScope ∧
          depthOf (tagsOf δ₀) = 0) ∧
        chainResult1.pool.ObjectAt (3 : Int).toNat = Obj.null ∧
        ReadPoolEntries tokenEnv exampleFunction
            (Obj.closureFunction (chainClosure exampleFunction)) [Obj.foreign .typeArguments 0]
            chainState0 1 =
          ReadPoolEntries tokenEnv exampleFunction
            (Obj.closureFunction (chainClosure exampleFunction)) [Obj.foreign .typeArguments 0]
            chainResult1 ((3 : Int).toNat + 1))) ∧
    (∃ δ1, chainResult0.trace =
        (tokenState chainBuffer 6).trace ++ (Event.tag 0 19 :: Event.store 0 :: δ1) ∧
      (∀ k, k < (tagsOf δ1).length → 0 ≤ depthOf ((tagsOf δ1).take k)) ∧
      (depthOf (tagsOf δ1) < 0 →
        ((0 : Nat) : Int) < 4 ∧
        (∃ δ₀ t, δ1 = δ₀ ++ [Event.tag (4 : Int).toNat t, Event.store (4 : Int).toNat] ∧
          ConstantPoolTag.ofValue t = some .kEndClosureFunctionScope ∧
          depthOf (tagsOf δ₀) = 0) ∧
        chainResult0.pool.ObjectAt (4 : Int).toNat = Obj.null ∧
        ReadPoolEntries tokenEnv exampleFunction exampleFunction [] (tokenState chainBuffer 6) 0 =
          ReadPoolEntries tokenEnv exampleFunction exampleFunction [] chainResult0
            ((4 : Int).toNat + 1))) :=
  ⟨rfl, rfl, rfl,
    ReadPoolEntries_kClosureFunction_scope tokenEnv exampleFunction
      (Obj.closureFunction (chainClosure exampleFunction)) [Obj.foreign .typeArguments 0]
      chainState0 1 19 ⟨chainBuffer, 9⟩ ⟨chainBuffer, 16⟩
      (chainClosure (Obj.closureFunction (chainClosure exampleFunction))) 3 chainResult1
      (by decide) rfl rfl rfl rfl,
    ReadPoolEntries_kClosureFunction_scope tokenEnv exampleFunction exampleFunction []
      (tokenState chainBuffer 6) 0 19 ⟨chainBuffer, 1⟩ ⟨chainBuffer, 8⟩
      (chainClosure exampleFunction) 4 chainResult0 (by decide) rfl rfl rfl rfl⟩

/-- C6 (the code at the failing input). In a pool of two entries, a closure
followed by a null and no end-of-scope marker, the recursive call made for the
closure runs to the end of the pool and returns 1; slot 1 holds null, so the
assertion after the call holds and the decode succeeds, although the only tags
read are `kClosureFunction` (19) and `kNull` (1). -/
theorem ReadPoolEntries_closure_without_end_marker :
    (ReadPoolEntries tokenEnv exampleFunction
        (Obj.closureFunction (chainClosure exampleFunction)) [Obj.foreign .typeArguments 0]
        openClosureState 1).toOption.map Prod.fst =
      some 1 ∧
    (ReadPoolEntries tokenEnv exampleFunction exampleFunction []
        (tokenState openClosureBuffer 2) 0).toOption.map
        (fun p => (p.1, tagsOf p.2.trace, p.2.pool.ObjectAt 1)) =
      some (1, [(0, 19), (1, 1)], Obj.null) := by
  constructor <;> rfl

/-- C7. When `ReadPoolEntries` started at index `s ≤ N` succeeds with result
`r`, the slots stored into are exactly `s, s + 1, …, r`, each once and in
increasing order; and either `r` is the index of an end-of-scope marker that is
the last tag read, at the call's own nesting level (the events before it are
balanced), and slot `r` holds null, or `r = N - 1`. -/
theorem ReadPoolEntries_result (env : Env σ) (function inner : Obj) (scope : Scope)
    (st st' : DecodeState σ) (s : Nat) (r : Int) (hs : s ≤ st.pool.Length)
    (h : ReadPoolEntries env function inner scope st s = .ok (r, st')) :
    ∃ δ, st'.trace = st.trace ++ δ ∧
      storesOf δ = List.range' s (r + 1 - s).toNat ∧
      ((0 ≤ r ∧
          (∃ δ₀ t, δ = δ₀ ++ [Event.tag r.toNat t, Event.store r.toNat] ∧
            ConstantPoolTag.ofValue t = some .kEndClosureFunctionScope ∧
            depthOf (tagsOf δ₀) = 0) ∧
          st'.pool.ObjectAt r.toNat = Obj.null) ∨
        r = (st.pool.Length : Int) - 1) := by
  obtain ⟨δ, hrun⟩ := Run_of_ReadPoolEntries h
  refine ⟨δ, hrun.trace_eq, hrun.stores hs, ?_⟩
  rcases (hrun.nesting hs).2 with ⟨hd, hr0, ⟨δ₀, t, hδ, ht⟩, hnull⟩ | ⟨_, hr⟩
  · refine Or.inl ⟨hr0, ⟨δ₀, t, hδ, ht, ?_⟩, hnull⟩
    rw [hδ, tagsOf_append, depthOf_append] at hd
    simp only [tagsOf, depthOf, tagDepth, ht, add_zero] at hd
    omega
  · exact Or.inr hr

/-- C7, on `chainBuffer`: the recursive call for the outer closure, started at
index 1, returns 4 and stores into slots 1 to 4; the decode of the whole pool,
started at index 0, returns 5 and stores into slots 0 to 5. -/
theorem ReadPoolEntries_result_witness :
    (∃ δ, chainResult0.trace = chainState0.trace ++ δ ∧
      storesOf δ = List.range' 1 ((4 : Int) + 1 - (1 : Nat)).toNat ∧
      ((0 ≤ (4 : Int) ∧
          (∃ δ₀ t, δ = δ₀ ++ [Event.tag (4 : Int).toNat t, Event.store (4 : Int).toNat] ∧
            ConstantPoolTag.ofValue t = some .kEndClosureFunctionScope ∧
            depthOf (tagsOf δ₀) = 0) ∧
          chainResult0.pool.ObjectAt (4 : Int).toNat = Obj.null) ∨
        (4 : Int) = (chainState0.pool.Length : Int) - 1)) ∧
    (∃ δ, (DecodeState.ofResult (ReadPoolEntries tokenEnv exampleFunction exampleFunction []
          (tokenState chainBuffer 6) 0)).trace = (tokenState chainBuffer 6).trace ++ δ ∧
      storesOf δ = List.range' 0 ((5 : Int) + 1 - (0 : Nat)).toNat ∧
      ((0 ≤ (5 : Int) ∧
          (∃ δ₀ t, δ = δ₀ ++ [Event.tag (5 : Int).toNat t, Event.store (5 : Int).toNat] ∧
            ConstantPoolTag.ofValue t = some .kEndClosureFunctionScope ∧
            depthOf (tagsOf δ₀) = 0) ∧
          (DecodeState.ofResult (ReadPoolEntries tokenEnv exampleFunction exampleFunction []
            (tokenState chainBuffer 6) 0)).pool.ObjectAt (5 : Int).toNat = Obj.null) ∨
        (5 : Int) = ((tokenState chainBuffer 6).pool.Length : Int) - 1)) :=
  ⟨ReadPoolEntries_result tokenEnv exampleFunction
      (Obj.closureFunction (chainClosure exampleFunction)) [Obj.foreign .typeArguments 0]
      chainState0 chainResult0 1 4 (by decide) rfl,
    ReadPoolEntries_result tokenEnv exampleFunction exampleFunction []
      (tokenState chainBuffer 6) _ 0 5 (by decide) rfl⟩

/-! ## Unknown tags -/

theorem ConstantPoolTag.ofValue_of_gt (tag : Nat) (h : 25 < tag) :
    ConstantPoolTag.ofValue tag = none := by
  obtain ⟨n, rfl⟩ : ∃ n, tag = n + 26 := ⟨tag - 26, by omega⟩
  rfl

/-- C9. When the tag read for slot `i` is 0 (`kInvalid`) or greater than 25
(`kSymbol`), `ReadPoolEntries` fails with `UNREACHABLE()`, whatever follows in
the stream; the state at the failure has the pool unchanged, and the only event
added is the tag read: nothing is stored into slot `i` or any other slot. -/
theorem ReadPoolEntries_unknown_tag (env : Env σ) (function inner : Obj) (scope : Scope)
    (st : DecodeState σ) (i tag : Nat) (rd : σ)
    (hi : i < st.pool.Length) (htag : env.ReadTag st.reader = .ok (tag, rd))
    (hbad : tag = 0 ∨ 25 < tag) :
    ReadPoolEntries env function inner scope st i =
        .error (.unreachable, st.afterTag i tag rd) ∧
      (st.afterTag i tag rd).pool = st.pool ∧
      (st.afterTag i tag rd).trace = st.trace ++ [Event.tag i tag] := by
  refine ⟨?_, rfl, rfl⟩
  apply ReadPoolEntries_eq_of_loop
  have hf : st.pool.Length - i + 1 = (st.pool.Length - i) + 1 := rfl
  rw [hf]
  rcases hbad with h0 | hgt
  · subst h0
    simp [ReadPoolEntriesLoop, hi, htag, ConstantPoolTag.ofValue, ReadPoolEntry, throw,
      throwThe, MonadExceptOf.throw]
  · have hv := ConstantPoolTag.ofValue_of_gt tag hgt
    simp [ReadPoolEntriesLoop, hi, htag, hv, ReadPoolEntry, throw, throwThe,
      MonadExceptOf.throw]

/-- C9, over `tokenEnv`: tag 0 and tag 26 read for slot 1 of a pool of two
slots, after a null in slot 0. -/
theorem ReadPoolEntries_unknown_tag_witness :
    (ReadPoolEntries tokenEnv exampleFunction exampleFunction []
        ((tokenState [1, 0, 7] 2).afterTag 0 1 ⟨[1, 0, 7], 1⟩ |>.store 0 .kTaggedObject Obj.null) 1 =
        .error (.unreachable,
          ((tokenState [1, 0, 7] 2).afterTag 0 1 ⟨[1, 0, 7], 1⟩ |>.store 0 .kTaggedObject
            Obj.null).afterTag 1 0 ⟨[1, 0, 7], 2⟩)) ∧
    (ReadPoolEntries tokenEnv exampleFunction exampleFunction []
        ((tokenState [1, 26, 7] 2).afterTag 0 1 ⟨[1, 26, 7], 1⟩ |>.store 0 .kTaggedObject
          Obj.null) 1 =
        .error (.unreachable,
          ((tokenState [1, 26, 7] 2).afterTag 0 1 ⟨[1, 26, 7], 1⟩ |>.store 0 .kTaggedObject
            Obj.null).afterTag 1 26 ⟨[1, 26, 7], 2⟩)) :=
  ⟨(ReadPoolEntries_unknown_tag tokenEnv exampleFunction exampleFunction []
      ((tokenState [1, 0, 7] 2).afterTag 0 1 ⟨[1, 0, 7], 1⟩ |>.store 0 .kTaggedObject Obj.null)
      1 0 ⟨[1, 0, 7], 2⟩ (by decide) rfl (Or.inl rfl)).1,
    (ReadPoolEntries_unknown_tag tokenEnv exampleFunction exampleFunction []
      ((tokenState [1, 26, 7] 2).afterTag 0 1 ⟨[1, 26, 7], 1⟩ |>.store 0 .kTaggedObject Obj.null)
      1 26 ⟨[1, 26, 7], 2⟩ (by decide) rfl (Or.inr (by decide))).1⟩

/-! ## The pool and the instruction bytes -/

theorem ReadMetadata_ok_inv (env : Env σ) (function : Obj) (attached : List (Obj × Code))
    (deopt_id : Nat) (ls : LoadState σ)
    (h : ReadMetadata env function attached deopt_id = .ok (some ls)) :
    ∃ (flags N : Nat) (rd0 rd1 rd2 : σ) (r : Int) (st : DecodeState σ) (bytecode : Code),
      env.ReadUInt (env.metadata_payloads (env.GetNextMetadataPayloadOffset function).toNat) =
        .ok (flags, rd0) ∧
      env.ReadListLength rd0 = .ok (N, rd1) ∧
      ReadPoolEntries env function function [] ⟨rd1, ObjectPool.New N, 0, []⟩ 0 = .ok (r, st) ∧
      ReadBytecode env st.pool st.reader = .ok (bytecode, rd2) := by
  unfold ReadMetadata at h
  simp only at h
  split at h
  · simp at h
  · split at h
    · simp at h
    · rename_i flags rd0 hflags
      split at h
      · simp at h
      · rename_i N rd1 hN
        split at h
        · simp at h
        · rename_i r st hpool
          split at h
          · simp at h
          · rename_i bytecode rd2 hbc
            exact ⟨flags, N, rd0, rd1, rd2, r, st, bytecode, hflags, hN, hpool, hbc⟩

theorem ReadBytecode_ok_iff (env : Env σ) (pool : ObjectPool) (rd rd' : σ) (code : Code) :
    ReadBytecode env pool rd = .ok (code, rd') ↔
      ∃ (size : Nat) (rd1 : σ), env.ReadUInt rd = .ok (size, rd1) ∧
        env.offset rd1 + size ≤ env.size rd1 ∧
        code = ⟨env.offset rd1, size, pool, none, none⟩ ∧
        rd' = env.set_offset (env.offset rd1 + size) rd1 := by
  simp only [ReadBytecode, Reader.BufferAt, Reader.set_offset, bind, Except.bind, pure,
    Except.pure]
  constructor
  · intro h
    split at h
    · simp at h
    · rename_i p hp
      obtain ⟨size, rd1⟩ := p
      simp only at h
      by_cases h1 : env.offset rd1 ≤ env.size rd1
      · by_cases h2 : env.offset rd1 + size ≤ env.size rd1
        · rw [if_pos h1, if_pos h2] at h
          simp only [Except.ok.injEq, Prod.mk.injEq] at h
          exact ⟨size, rd1, hp, h2, h.1.symm, h.2.symm⟩
        · rw [if_pos h1, if_neg h2] at h
          simp at h
      · rw [if_neg h1] at h
        simp at h
  · rintro ⟨size, rd1, hp, hle, rfl, rfl⟩
    have h1 : env.offset rd1 ≤ env.size rd1 := by omega
    simp [hp, h1, hle]

theorem ReadBytecode_eq_truncated (env : Env σ) (pool : ObjectPool) (rd rd1 : σ) (size : Nat)
    (hsize : env.ReadUInt rd = .ok (size, rd1))
    (hlt : env.size rd1 < env.offset rd1 + size) :
    ReadBytecode env pool rd = .error .truncatedStream := by
  simp only [ReadBytecode, Reader.BufferAt, Reader.set_offset, bind, Except.bind, pure,
    Except.pure, hsize]
  have h2 : ¬ env.offset rd1 + size ≤ env.size rd1 := by omega
  by_cases h1 : env.offset rd1 ≤ env.size rd1
  · rw [if_pos h1, if_neg h2]
  · rw [if_neg h1]

/-- C8 (amended). When `ReadMetadata` succeeds with declared pool entry count
`N`, the instruction length is the first value read at the cursor where the
top-level `ReadPoolEntries` call stopped, with result `r`, after storing into
slots `0, …, r` in order.  When no end-of-scope marker is met outside any
closure (the tags read do not close more scopes than they open), `r = N - 1`:
all `N` slots have been stored before the instruction length is read. -/
theorem ReadMetadata_pool_before_instructions (env : Env σ) (function : Obj)
    (attached : List (Obj × Code)) (deopt_id : Nat) (ls : LoadState σ)
    (h : ReadMetadata env function attached deopt_id = .ok (some ls)) :
    ∃ (flags N size : Nat) (rd0 rd1 rd2 : σ) (r : Int) (st : DecodeState σ) (bytecode : Code),
      env.ReadUInt (env.metadata_payloads (env.GetNextMetadataPayloadOffset function).toNat) =
        .ok (flags, rd0) ∧
      env.ReadListLength rd0 = .ok (N, rd1) ∧
      ReadPoolEntries env function function [] ⟨rd1, ObjectPool.New N, 0, []⟩ 0 = .ok (r, st) ∧
      env.ReadUInt st.reader = .ok (size, rd2) ∧
      ReadBytecode env st.pool st.reader =
        .ok (bytecode, env.set_offset (env.offset rd2 + size) rd2) ∧
      bytecode.size = size ∧ bytecode.data = env.offset rd2 ∧
      storesOf st.trace = List.range' 0 (r + 1).toNat ∧
      (0 ≤ depthOf (tagsOf st.trace) →
        r = (N : Int) - 1 ∧ storesOf st.trace = List.range' 0 N) := by
  obtain ⟨flags, N, rd0, rd1, rd2, r, st, bytecode, hflags, hN, hpool, hbc⟩ :=
    ReadMetadata_ok_inv env function attached deopt_id ls h
  obtain ⟨δ, hrun⟩ := Run_of_ReadPoolEntries hpool
  have htr := hrun.trace_eq
  have hst := hrun.stores
  have hn := hrun.nesting
  simp only [ObjectPool.New, ObjectPool.Length, List.length_replicate, List.nil_append] at htr hst hn
  have hst' := hst (Nat.zero_le _)
  rw [← htr] at hst' hn
  obtain ⟨size, rd2', hp, _, hb1, hb2⟩ :=
    (ReadBytecode_ok_iff env st.pool st.reader rd2 bytecode).1 hbc
  refine ⟨flags, N, size, rd0, rd1, rd2', r, st, bytecode, hflags, hN, hpool, hp, ?_, ?_, ?_,
    ?_, ?_⟩
  · rw [hbc, hb2]
  · rw [hb1]
  · rw [hb1]
  · simpa using hst'
  · intro hd
    rcases (hn (Nat.zero_le _)).2 with ⟨hneg, _⟩ | ⟨_, hr⟩
    · omega
    · refine ⟨hr, ?_⟩
      rw [hst', hr]
      congr 1
      omega

/-- C8 (counterexample). On metadata that declares two pool entries and whose
first entry is an end-of-scope marker outside any closure, `ReadMetadata`
succeeds: the pool has length 2, only slot 0 has been stored into, slot 1 has
never been set, and the instruction length is the value that follows the
marker (the code object starts at offset 4 and has size 0). -/
theorem ReadMetadata_end_marker_cuts_pool_short :
    (ReadMetadata (tokenEnvOn strayMarkerMetadata) exampleFunction [] 0).toOption.map
        (fun o => o.map fun ls =>
          (ls.dec.pool.Length, storesOf ls.dec.trace, ls.dec.pool.TypeAt 1,
            ls.attached.map fun p => (p.2.data, p.2.size))) =
      some (some (2, [0], none, [(4, 0)])) := by
  rfl

/-- C8 (amended), on `plainMetadata`: the load succeeds, both slots are stored
before the instruction length is read. -/
theorem ReadMetadata_pool_before_instructions_witness :
    storesOf plainLoad.dec.trace = [0, 1] ∧
    ∃ (flags N size : Nat) (rd0 rd1 rd2 : TokenReader) (r : Int)
      (st : DecodeState TokenReader) (bytecode : Code),
      (tokenEnvOn plainMetadata).ReadUInt ((tokenEnvOn plainMetadata).metadata_payloads
        ((tokenEnvOn plainMetadata).GetNextMetadataPayloadOffset exampleFunction).toNat) =
        .ok (flags, rd0) ∧
      (tokenEnvOn plainMetadata).ReadListLength rd0 = .ok (N, rd1) ∧
      ReadPoolEntries (tokenEnvOn plainMetadata) exampleFunction exampleFunction []
        ⟨rd1, ObjectPool.New N, 0, []⟩ 0 = .ok (r, st) ∧
      (tokenEnvOn plainMetadata).ReadUInt st.reader = .ok (size, rd2) ∧
      ReadBytecode (tokenEnvOn plainMetadata) st.pool st.reader =
        .ok (bytecode, (tokenEnvOn plainMetadata).set_offset
          ((tokenEnvOn plainMetadata).offset rd2 + size) rd2) ∧
      bytecode.size = size ∧ bytecode.data = (tokenEnvOn plainMetadata).offset rd2 ∧
      storesOf st.trace = List.range' 0 (r + 1).toNat ∧
      (0 ≤ depthOf (tagsOf st.trace) →
        r = (N : Int) - 1 ∧ storesOf st.trace = List.range' 0 N) :=
  ⟨rfl, ReadMetadata_pool_before_instructions (tokenEnvOn plainMetadata) exampleFunction [] 0
    plainLoad rfl⟩

/-! ## The slot types at any outcome -/

theorem LoopInv.tag {a b : Nat} {pool : ObjectPool} {trace : List Event}
    (h : LoopInv a b pool trace) (i t : Nat) (hi : a ≤ i) :
    LoopInv a (max b (i + 1)) pool (trace ++ [Event.tag i t]) := by
  refine ⟨?_, ?_, ?_⟩
  · intro j hj
    simp only [storesOf_append, storesOf, List.append_nil] at hj
    exact h.stores_lt j hj
  · intro p hp
    simp only [tagsOf_append, tagsOf, List.mem_append, List.mem_singleton] at hp
    rcases hp with hp | hp
    · have := h.tags_lt p hp; omega
    · subst hp; simp only; omega
  · intro j hj
    simp only [storesOf_append, storesOf, List.append_nil] at hj
    have hlt := h.stores_lt j hj
    have hne : ¬ i = j := by omega
    have e : nativeTagAt (tagsOf (trace ++ [Event.tag i t])) j =
        nativeTagAt (tagsOf trace) j := by
      rw [tagsOf_append, nativeTagAt_append]
      simp [tagsOf, nativeTagAt, hne]
    rw [e]
    exact h.typed j hj

theorem LoopInv.store {a b : Nat} {σ : Type} {st : DecodeState σ}
    (h : LoopInv a b st.pool st.trace) (j : Nat) (ty : EntryType) (obj : Obj)
    (hj : a ≤ j) (hlt : j < st.pool.Length)
    (hty : ty = if nativeTagAt (tagsOf st.trace) j then EntryType.kNativeEntryData
      else EntryType.kTaggedObject) :
    LoopInv (j + 1) (max b (j + 1)) (st.store j ty obj).pool (st.store j ty obj).trace := by
  refine ⟨?_, ?_, ?_⟩
  · intro k hk
    simp only [DecodeState.trace_store, storesOf_append, storesOf, List.mem_append,
      List.mem_singleton] at hk
    rcases hk with hk | hk
    · have := h.stores_lt k hk; omega
    · omega
  · intro p hp
    simp only [DecodeState.trace_store, tagsOf_append, tagsOf, List.append_nil] at hp
    have := h.tags_lt p hp; omega
  · intro k hk
    simp only [DecodeState.trace_store, storesOf_append, storesOf, List.mem_append,
      List.mem_singleton] at hk
    simp only [DecodeState.trace_store, tagsOf_append, tagsOf, List.append_nil]
    rcases hk with hk | hk
    · have hlt' := h.stores_lt k hk
      rw [ObjectPool.TypeAt_congr (DecodeState.slots_store_of_ne _ _ _ _ _ (by omega))]
      exact h.typed k hk
    · subst hk
      rw [DecodeState.TypeAt_store _ _ _ _ hlt, hty]

theorem LoopInv.mono {a b a' b' : Nat} {pool : ObjectPool} {trace : List Event}
    (h : LoopInv a b pool trace) (ha : a ≤ a') (hb : b ≤ b') : LoopInv a' b' pool trace :=
  ⟨fun j hj => Nat.lt_of_lt_of_le (h.stores_lt j hj) ha,
    fun p hp => Nat.lt_of_lt_of_le (h.tags_lt p hp) hb, h.typed⟩

theorem nativeTagAt_of_tags_lt {ts : List (Nat × Nat)} {b j : Nat}
    (h : ∀ p ∈ ts, p.1 < b) (hj : b ≤ j) : nativeTagAt ts j = false :=
  nativeTagAt_eq_false ts j (fun p hp => by have := h p hp; omega)

theorem nativeTagAt_after_tag {ts : List (Nat × Nat)} {i t : Nat}
    (h : ∀ p ∈ ts, p.1 < i) :
    nativeTagAt (ts ++ [(i, t)]) i =
      decide (ConstantPoolTag.ofValue t = some .kNativeEntry) := by
  rw [nativeTagAt_append, nativeTagAt_of_tags_lt h (le_refl _)]
  simp [nativeTagAt]

/-- The state after the tag of slot `i` has been read and slot `i` stored into
with the type of the tag satisfies the invariant at `i + 1`. -/
theorem LoopInv.step {σ : Type} {st : DecodeState σ} {i : Nat}
    (h : LoopInv i i st.pool st.trace) (hi : i < st.pool.Length) (t : Nat) (rd rd' : σ)
    (deopt : Nat) (ty : EntryType) (obj : Obj)
    (hty : ty = if ConstantPoolTag.ofValue t = some .kNativeEntry then EntryType.kNativeEntryData
      else EntryType.kTaggedObject) :
    LoopInv (i + 1) (i + 1)
      (({ st.afterTag i t rd with reader := rd', deopt_id := deopt }).store i ty obj).pool
      (({ st.afterTag i t rd with reader := rd', deopt_id := deopt }).store i ty obj).trace := by
  have h1 := h.tag i t (le_refl _)
  have h2 := @LoopInv.store i (max i (i + 1)) σ
    { st.afterTag i t rd with reader := rd', deopt_id := deopt } h1 i ty obj (le_refl _) hi (by
      rw [hty]
      show _ = if nativeTagAt (tagsOf (st.trace ++ [Event.tag i t])) i = true then _ else _
      rw [tagsOf_append]
      simp only [tagsOf, nativeTagAt_after_tag h.tags_lt, decide_eq_true_eq])
  exact h2.mono (le_refl _) (by omega)

theorem ReadPoolEntriesLoop_inv (env : Env σ) (function : Obj) :
    ∀ (fuel : Nat) (inner : Obj) (scope : Scope) (i : Nat) (st : DecodeState σ)
      (res : Except (DecodeError × DecodeState σ) (Int × DecodeState σ)),
      i ≤ st.pool.Length → LoopInv i i st.pool st.trace →
      ReadPoolEntriesLoop env function fuel inner scope i st = some res →
      match res with
      | .ok (r, st') => LoopInv (r + 1).toNat (r + 1).toNat st'.pool st'.trace
      | .error (_, stf) => SlotsTyped stf.pool stf.trace := by
  intro fuel
  induction fuel with
  | zero => intro inner scope i st res _ _ h; simp [ReadPoolEntriesLoop] at h
  | succ fuel ih =>
    intro inner scope i st res hle hinv h
    unfold ReadPoolEntriesLoop at h
    simp only at h
    split at h
    · rename_i hi
      split at h
      · simp only [Option.some.injEq] at h
        subst h
        exact hinv.typed
      · rename_i tag rd htag
        have htagged : ∀ (rd' : σ) (deopt : Nat) (obj : Obj),
            ConstantPoolTag.ofValue tag ≠ some .kNativeEntry →
            LoopInv (i + 1) (i + 1)
              (({ st.afterTag i tag rd with reader := rd', deopt_id := deopt }).store i
                .kTaggedObject obj).pool
              (({ st.afterTag i tag rd with reader := rd', deopt_id := deopt }).store i
                .kTaggedObject obj).trace := by
          intro rd' deopt obj hne
          exact hinv.step hi tag rd rd' deopt _ obj (by simp [hne])
        split at h
        · rename_i hk
          have hne : ConstantPoolTag.ofValue tag ≠ some .kNativeEntry := by simp [hk]
          split at h
          · simp only [Option.some.injEq] at h
            subst h
            exact (hinv.tag i tag (le_refl _)).typed
          · rename_i obj field rd' hentry
            have h1 := htagged rd' st.deopt_id obj hne
            split at h
            · rename_i hi1
              refine ih _ _ _ _ _ ?_ ?_ h
              · simp only [DecodeState.Length_store, DecodeState.Length_afterTag]
                omega
              · have h2 := LoopInv.store h1 (i + 1) .kTaggedObject field (le_refl _)
                  (by simpa [DecodeState.Length_store, DecodeState.Length_afterTag] using hi1)
                  (by rw [nativeTagAt_of_tags_lt h1.tags_lt (le_refl _)]; simp)
                exact h2.mono (le_refl _) (by omega)
            · simp only [Option.some.injEq] at h
              subst h
              exact h1.typed
        · rename_i hk
          have hne : ConstantPoolTag.ofValue tag ≠ some .kNativeEntry := by simp [hk]
          split at h
          · simp only [Option.some.injEq] at h
            subst h
            exact (hinv.tag i tag (le_refl _)).typed
          · rename_i closure rd' hentry
            have h1 := htagged rd' st.deopt_id (Obj.closureFunction closure) hne
            split at h
            · simp at h
            · rename_i e hinner
              simp only [Option.some.injEq] at h
              subst h
              exact ih _ _ _ _ _ (by
                simp only [DecodeState.Length_store, DecodeState.Length_afterTag]; omega) h1 hinner
            · rename_i r1 st1 hinner
              have hinv1 := ih _ _ _ _ _ (by
                simp only [DecodeState.Length_store, DecodeState.Length_afterTag]; omega) h1 hinner
              simp only at hinv1
              obtain ⟨δ1, hrun⟩ := Run_of_loop env function _ _ _ _ _ _ _ hinner
              have hl := hrun.length_eq
              have hb := hrun.bounds
              simp only [DecodeState.Length_store, DecodeState.Length_afterTag] at hl hb
              have hb' := hb (by omega)
              have e : (r1 + 1).toNat = r1.toNat + 1 := by omega
              rw [e] at hinv1
              split at h
              · refine ih _ _ _ _ _ ?_ hinv1 h
                rw [hl]; omega
              · simp only [Option.some.injEq] at h
                subst h
                exact hinv1.typed
        · rename_i hk
          have hne : ConstantPoolTag.ofValue tag ≠ some .kNativeEntry := by simp [hk]
          simp only [Option.some.injEq] at h
          subst h
          have h1 := htagged rd st.deopt_id Obj.null hne
          have e : ((i : Int) + 1).toNat = i + 1 := by omega
          simp only [e]
          exact h1
        · rename_i hk
          split at h
          · simp only [Option.some.injEq] at h
            subst h
            exact (hinv.tag i tag (le_refl _)).typed
          · rename_i obj rd' hentry
            refine ih _ _ _ _ _ ?_ ?_ h
            · simp only [DecodeState.Length_store, DecodeState.Length_afterTag]
              omega
            · exact hinv.step hi tag rd rd' st.deopt_id _ obj (by simp [hk])
        · rename_i hn1 hn2 hn3 hn4
          split at h
          · simp only [Option.some.injEq] at h
            subst h
            exact (hinv.tag i tag (le_refl _)).typed
          · rename_i obj rd' deopt hentry
            refine ih _ _ _ _ _ ?_ ?_ h
            · simp only [DecodeState.Length_store, DecodeState.Length_afterTag]
              omega
            · exact htagged rd' deopt obj (fun e => hn4 e)
    · rename_i hi
      simp only [Option.some.injEq] at h
      subst h
      have e : ((st.pool.Length : Int) - 1 + 1).toNat = st.pool.Length := by omega
      have e' : i = st.pool.Length := by omega
      simp only [e]
      rw [← e']
      exact hinv


theorem slot_typed_iff {pool : ObjectPool} {ts : List (Nat × Nat)} {j : Nat}
    (h : pool.TypeAt j = some (if nativeTagAt ts j then EntryType.kNativeEntryData
      else EntryType.kTaggedObject, Patchability.kNotPatchable)) :
    ∃ ty, pool.TypeAt j = some (ty, Patchability.kNotPatchable) ∧
      (ty = EntryType.kNativeEntryData ↔ nativeTagAt ts j = true) ∧
      (ty = EntryType.kTaggedObject ↔ nativeTagAt ts j = false) := by
  refine ⟨_, h, ?_, ?_⟩
  · cases nativeTagAt ts j <;> simp
  · cases nativeTagAt ts j <;> simp

theorem slot_types_of_success (env : Env σ) (function inner : Obj) (scope : Scope)
    (st st' : DecodeState σ) (s : Nat) (r : Int) (hs : s ≤ st.pool.Length)
    (h : ReadPoolEntries env function inner scope st s = .ok (r, st')) :
    ∃ δ, st'.trace = st.trace ++ δ ∧
      ∀ j ∈ storesOf δ, ∃ ty, st'.pool.TypeAt j = some (ty, Patchability.kNotPatchable) ∧
        (ty = EntryType.kNativeEntryData ↔ nativeTagAt (tagsOf δ) j = true) ∧
        (ty = EntryType.kTaggedObject ↔ nativeTagAt (tagsOf δ) j = false) := by
  obtain ⟨δ, hrun⟩ := Run_of_ReadPoolEntries h
  refine ⟨δ, hrun.trace_eq, ?_⟩
  intro j hj
  rw [hrun.stores hs, List.mem_range'_1] at hj
  have hb := hrun.bounds hs
  exact slot_typed_iff (hrun.types hs j hj.1 (by omega))

theorem slot_types_any_outcome (env : Env σ) (function inner : Obj) (scope : Scope)
    (rd : σ) (N deopt : Nat) :
    SlotsTyped
      (DecodeState.ofResult (ReadPoolEntries env function inner scope
        ⟨rd, ObjectPool.New N, deopt, []⟩ 0)).pool
      (DecodeState.ofResult (ReadPoolEntries env function inner scope
        ⟨rd, ObjectPool.New N, deopt, []⟩ 0)).trace := by
  have hinv : LoopInv 0 0 (ObjectPool.New N) [] :=
    ⟨fun j hj => by simp [storesOf] at hj, fun p hp => by simp [tagsOf] at hp,
      fun j hj => by simp [storesOf] at hj⟩
  have hloop := ReadPoolEntriesLoop_eq env function _ inner scope 0
    ⟨rd, ObjectPool.New N, deopt, []⟩ (le_refl _)
  have := ReadPoolEntriesLoop_inv env function _ inner scope 0
    ⟨rd, ObjectPool.New N, deopt, []⟩ _ (Nat.zero_le _) hinv hloop
  cases hres : ReadPoolEntries env function inner scope ⟨rd, ObjectPool.New N, deopt, []⟩ 0 with
  | error p =>
    obtain ⟨e, stf⟩ := p
    rw [hres] at this
    exact this
  | ok p =>
    obtain ⟨r, st'⟩ := p
    rw [hres] at this
    exact this.typed

/-! ## Slot types -/

/-- C10. Whatever the outcome of `ReadPoolEntries` on a fresh pool (success, or
failure at any point), every slot it has stored into has the not-patchable
flag and a type that is `kNativeEntryData` if and only if a native-entry tag
was read for the slot, and `kTaggedObject` otherwise.  And when a call started
at any index `s ≤ N` in any state succeeds, the same holds of the slots that
call stored into, with respect to the tags that call read. -/
theorem ReadPoolEntries_slot_types (env : Env σ) (function inner : Obj) (scope : Scope) :
    (∀ (rd : σ) (N deopt : Nat),
      ∀ j ∈ storesOf (DecodeState.ofResult (ReadPoolEntries env function inner scope
          ⟨rd, ObjectPool.New N, deopt, []⟩ 0)).trace,
        ∃ ty, (DecodeState.ofResult (ReadPoolEntries env function inner scope
            ⟨rd, ObjectPool.New N, deopt, []⟩ 0)).pool.TypeAt j =
            some (ty, Patchability.kNotPatchable) ∧
          (ty = EntryType.kNativeEntryData ↔
            nativeTagAt (tagsOf (DecodeState.ofResult (ReadPoolEntries env function inner scope
              ⟨rd, ObjectPool.New N, deopt, []⟩ 0)).trace) j = true) ∧
          (ty = EntryType.kTaggedObject ↔
            nativeTagAt (tagsOf (DecodeState.ofResult (ReadPoolEntries env function inner scope
              ⟨rd, ObjectPool.New N, deopt, []⟩ 0)).trace) j = false)) ∧
    (∀ (st st' : DecodeState σ) (s : Nat) (r : Int), s ≤ st.pool.Length →
      ReadPoolEntries env function inner scope st s = .ok (r, st') →
      ∃ δ, st'.trace = st.trace ++ δ ∧
        ∀ j ∈ storesOf δ, ∃ ty, st'.pool.TypeAt j = some (ty, Patchability.kNotPatchable) ∧
          (ty = EntryType.kNativeEntryData ↔ nativeTagAt (tagsOf δ) j = true) ∧
          (ty = EntryType.kTaggedObject ↔ nativeTagAt (tagsOf δ) j = false)) := by
  constructor
  · intro rd N deopt j hj
    exact slot_typed_iff (slot_types_any_outcome env function inner scope rd N deopt j hj)
  · intro st st' s r hs h
    exact slot_types_of_success env function inner scope st st' s r hs h

/-- C10, over `tokenEnv`: a pool of three slots decoded from a native entry
(name 3) and a field reference (field 5) has the types native entry data,
tagged object, tagged object; a pool of three slots whose decode fails at the
unknown tag 26 after a native entry has stored that entry with the type native
entry data and nothing else. -/
theorem ReadPoolEntries_slot_types_witness :
    (DecodeState.ofResult (ReadPoolEntries tokenEnv exampleFunction exampleFunction []
        (tokenState [21, 3, 10, 5] 3) 0)).pool.slots.map Slot.type =
      [some (.kNativeEntryData, .kNotPatchable), some (.kTaggedObject, .kNotPatchable),
        some (.kTaggedObject, .kNotPatchable)] ∧
    (DecodeState.ofResult (ReadPoolEntries tokenEnv exampleFunction exampleFunction []
        (tokenState [21, 3, 26] 3) 0)).pool.slots.map Slot.type =
      [some (.kNativeEntryData, .kNotPatchable), none, none] ∧
    (∀ j ∈ storesOf (DecodeState.ofResult (ReadPoolEntries tokenEnv exampleFunction
          exampleFunction [] ⟨⟨[21, 3, 26], 0⟩, ObjectPool.New 3, 0, []⟩ 0)).trace,
        ∃ ty, (DecodeState.ofResult (ReadPoolEntries tokenEnv exampleFunction
            exampleFunction [] ⟨⟨[21, 3, 26], 0⟩, ObjectPool.New 3, 0, []⟩ 0)).pool.TypeAt j =
            some (ty, Patchability.kNotPatchable) ∧
          (ty = EntryType.kNativeEntryData ↔
            nativeTagAt (tagsOf (DecodeState.ofResult (ReadPoolEntries tokenEnv
              exampleFunction exampleFunction [] ⟨⟨[21, 3, 26], 0⟩, ObjectPool.New 3, 0, []⟩
              0)).trace) j = true) ∧
          (ty = EntryType.kTaggedObject ↔
            nativeTagAt (tagsOf (DecodeState.ofResult (ReadPoolEntries tokenEnv
              exampleFunction exampleFunction [] ⟨⟨[21, 3, 26], 0⟩, ObjectPool.New 3, 0, []⟩
              0)).trace) j = false)) ∧
    (∃ δ, (DecodeState.ofResult (ReadPoolEntries tokenEnv exampleFunction exampleFunction []
        (tokenState [21, 3, 10, 5] 3) 0)).trace = (tokenState [21, 3, 10, 5] 3).trace ++ δ ∧
      ∀ j ∈ storesOf δ, ∃ ty,
        (DecodeState.ofResult (ReadPoolEntries tokenEnv exampleFunction exampleFunction []
          (tokenState [21, 3, 10, 5] 3) 0)).pool.TypeAt j =
            some (ty, Patchability.kNotPatchable) ∧
        (ty = EntryType.kNativeEntryData ↔ nativeTagAt (tagsOf δ) j = true) ∧
        (ty = EntryType.kTaggedObject ↔ nativeTagAt (tagsOf δ) j = false)) :=
  ⟨rfl, rfl,
    (ReadPoolEntries_slot_types tokenEnv exampleFunction exampleFunction []).1
      ⟨[21, 3, 26], 0⟩ 3 0,
    (ReadPoolEntries_slot_types tokenEnv exampleFunction exampleFunction []).2
      (tokenState [21, 3, 10, 5] 3) _ 0 2 (by decide) rfl⟩


/-! ## Exception tables -/

theorem bind_eq_ok {ε α β : Type} (x : Except ε α) (f : α → Except ε β) (b : β) :
    (x >>= f) = .ok b ↔ ∃ a, x = .ok a ∧ f a = .ok b := by
  cases x <;> simp [bind, Except.bind]

theorem ASSERT_eq_ok (c : Bool) (name : Check) (u : Unit) :
    ASSERT c name = .ok u ↔ c = true := by
  cases c <;> simp [ASSERT]

theorem and_two_pow_ne_zero (f i : Nat) : (f &&& 2 ^ i != 0) = f.testBit i := by
  rw [Nat.and_two_pow]
  cases f.testBit i <;> simp

theorem ReadHandlerTypes_ok_iff (env : Env σ) (pool : ObjectPool) :
    ∀ (n : Nat) (rd rd' : σ) (ts : List Obj),
      ReadHandlerTypes env pool n rd = .ok (ts, rd') ↔
        ∃ idxs, ReadIndices env n rd = .ok (idxs, rd') ∧ (∀ t ∈ idxs, t < pool.Length) ∧
          ts = idxs.map pool.ObjectAt := by
  intro n
  induction n with
  | zero =>
    intro rd rd' ts
    simp only [ReadHandlerTypes, ReadIndices, pure, Except.pure, Except.ok.injEq, Prod.mk.injEq]
    constructor
    · rintro ⟨rfl, rfl⟩
      exact ⟨[], ⟨rfl, rfl⟩, by simp, rfl⟩
    · rintro ⟨idxs, ⟨rfl, rfl⟩, _, rfl⟩
      exact ⟨rfl, rfl⟩
  | succ n ih =>
    intro rd rd' ts
    simp only [ReadHandlerTypes, ReadIndices, bind_eq_ok, ASSERT_eq_ok, exists_const, pure, Except.pure,
      Except.ok.injEq, Prod.mk.injEq, Prod.exists, ih, decide_eq_true_eq]
    constructor
    · rintro ⟨t, rd1, h1, ht, rest, rd2, ⟨idxs, h2, hall, rfl⟩, rfl, rfl⟩
      exact ⟨t :: idxs, ⟨t, rd1, h1, idxs, rd2, h2, rfl, rfl⟩, by simpa [ht] using hall, rfl⟩
    · rintro ⟨idxs, ⟨t, rd1, h1, rest, rd2, h2, rfl, rfl⟩, hall, rfl⟩
      exact ⟨t, rd1, h1, hall t (by simp), _, rd2, ⟨rest, h2, fun x hx => hall x (by simp [hx]), rfl⟩,
        rfl, rfl⟩

theorem ReadIndices_length (env : Env σ) :
    ∀ (n : Nat) (rd rd' : σ) (idxs : List Nat),
      ReadIndices env n rd = .ok (idxs, rd') → idxs.length = n := by
  intro n
  induction n with
  | zero =>
    intro rd rd' idxs h
    simp only [ReadIndices, pure, Except.pure, Except.ok.injEq, Prod.mk.injEq] at h
    rw [← h.1]
    rfl
  | succ n ih =>
    intro rd rd' idxs h
    simp only [ReadIndices, bind_eq_ok, pure, Except.pure, Except.ok.injEq, Prod.mk.injEq,
      Prod.exists] at h
    obtain ⟨t, rd1, _, rest, rd2, h2, rfl, rfl⟩ := h
    simp [ih rd1 rd2 rest h2]

theorem flag_byte_bit (f i : Nat) (hi : i < 8) : (f % 2 ^ 8 &&& 2 ^ i != 0) = f.testBit i := by
  rw [and_two_pow_ne_zero, Nat.testBit_mod_two_pow]
  simp [hi]

theorem needs_stacktrace_eq (f : Nat) :
    (f % 2 ^ 8 &&& kFlagNeedsStackTrace != 0) = f.testBit 0 :=
  flag_byte_bit f 0 (by decide)

theorem is_generated_eq (f : Nat) : (f % 2 ^ 8 &&& kFlagIsSynthetic != 0) = f.testBit 1 :=
  flag_byte_bit f 1 (by decide)

theorem ReadTryBlocks_ok_iff (env : Env σ) (pool : ObjectPool) :
    ∀ (n k : Nat) (rd rd' : σ) (ds : List PcDescriptor) (hs : List ExceptionHandler),
      ReadTryBlocks env pool n k rd = .ok (ds, hs, rd') ↔
        ∃ bs, ReadTryBlockValues env n rd = .ok (bs, rd') ∧
          (∀ b ∈ bs, b.type_indices ≠ [] ∧ ∀ t ∈ b.type_indices, t < pool.Length) ∧
          ds = (bs.enumFrom k).flatMap (fun p =>
            [⟨.kOther, env.BytecodePcToOffset p.2.start_pc true, p.1⟩,
              ⟨.kOther, env.BytecodePcToOffset p.2.end_pc true, -1⟩]) ∧
          hs = (bs.enumFrom k).map (fun p =>
            ⟨p.1, (p.2.outer_try_index_plus1 : Int) - 1,
              env.BytecodePcToOffset p.2.handler_pc false, p.2.flags.testBit 1,
              p.2.type_indices.map pool.ObjectAt, p.2.flags.testBit 0⟩) := by
  intro n
  induction n with
  | zero =>
    intro k rd rd' ds hs
    simp only [ReadTryBlocks, ReadTryBlockValues, pure, Except.pure, Except.ok.injEq,
      Prod.mk.injEq]
    constructor
    · rintro ⟨rfl, rfl, rfl⟩
      exact ⟨[], ⟨rfl, rfl⟩, by simp, rfl, rfl⟩
    · rintro ⟨bs, ⟨rfl, rfl⟩, _, rfl, rfl⟩
      exact ⟨rfl, rfl, rfl⟩
  | succ n ih =>
    intro k rd rd' ds hs
    simp only [ReadTryBlocks, ReadTryBlockValues, bind_eq_ok, ASSERT_eq_ok, exists_const, pure,
      Except.pure, Except.ok.injEq, Prod.mk.injEq, Prod.exists, ih, decide_eq_true_eq,
      ReadHandlerTypes_ok_iff, needs_stacktrace_eq, is_generated_eq]
    constructor
    · rintro ⟨o, rd1, h1, s, rd2, h2, e, rd3, h3, h, rd4, h4, f, rd5, h5, c, rd6, h6, hc, ts, rd7,
        ⟨idxs, h7, hidx, rfl⟩, ds', hs', rd8, ⟨bs, h8, hall, rfl, rfl⟩, rfl, rfl, rfl⟩
      refine ⟨⟨o, s, e, h, f, idxs⟩ :: bs, ⟨o, rd1, h1, s, rd2, h2, e, rd3, h3, h, rd4, h4, f, rd5,
        h5, c, rd6, h6, idxs, rd7, h7, bs, rd8, h8, rfl, rfl⟩, ?_, ?_, ?_⟩
      · intro b hb
        rcases List.mem_cons.1 hb with rfl | hb
        · refine ⟨?_, hidx⟩
          intro hnil
          have hlen := ReadIndices_length env c rd6 rd7 idxs h7
          simp only at hnil
          rw [hnil] at hlen
          simp at hlen
          omega
        · exact hall b hb
      · simp [List.enumFrom_cons]
      · simp [List.enumFrom_cons]
    · rintro ⟨bs', ⟨o, rd1, h1, s, rd2, h2, e, rd3, h3, h, rd4, h4, f, rd5, h5, c, rd6, h6, idxs,
        rd7, h7, bs, rd8, h8, rfl, rfl⟩, hall, rfl, rfl⟩
      have hb := hall ⟨o, s, e, h, f, idxs⟩ (by simp)
      have hlen := ReadIndices_length env c rd6 rd7 idxs h7
      have hc : c > 0 := by
        rcases Nat.eq_zero_or_pos c with h0 | h0
        · rw [h0] at hlen
          exact absurd (List.length_eq_zero.1 hlen) hb.1
        · exact h0
      exact ⟨o, rd1, h1, s, rd2, h2, e, rd3, h3, h, rd4, h4, f, rd5, h5, c, rd6, h6, hc, _, rd7,
        ⟨idxs, h7, hb.2, rfl⟩, _, _, rd8, ⟨bs, h8, fun b hb => hall b (by simp [hb]), rfl, rfl⟩,
        by simp [List.enumFrom_cons], by simp [List.enumFrom_cons], rfl⟩

theorem ReadTryBlockValues_length (env : Env σ) :
    ∀ (n : Nat) (rd rd' : σ) (bs : List TryBlockValues),
      ReadTryBlockValues env n rd = .ok (bs, rd') → bs.length = n := by
  intro n
  induction n with
  | zero =>
    intro rd rd' bs h
    simp only [ReadTryBlockValues, pure, Except.pure, Except.ok.injEq, Prod.mk.injEq] at h
    rw [← h.1]
    rfl
  | succ n ih =>
    intro rd rd' bs h
    simp only [ReadTryBlockValues, bind_eq_ok, pure, Except.pure, Except.ok.injEq,
      Prod.mk.injEq, Prod.exists] at h
    obtain ⟨_, _, _, _, _, _, _, _, _, _, _, _, _, _, _, _, _, _, _, _, _, rest, rd2, h2, rfl,
      rfl⟩ := h
    simp [ih _ rd2 rest h2]

theorem ReadExceptionsTable_absent (env : Env σ) (bytecode : Code) (rd : σ) :
    ReadExceptionsTable env bytecode false rd =
      .ok ({ bytecode with pc_descriptors := some [], exception_handlers := some [] }, rd) := by
  simp [ReadExceptionsTable, bind, Except.bind, pure, Except.pure]

theorem ReadExceptionsTable_ok_iff (env : Env σ) (bytecode bytecode' : Code) (rd rd' : σ) :
    ReadExceptionsTable env bytecode true rd = .ok (bytecode', rd') ↔
      ∃ (n : Nat) (rd1 : σ) (bs : List TryBlockValues),
        env.ReadListLength rd = .ok (n, rd1) ∧
        ReadTryBlockValues env n rd1 = .ok (bs, rd') ∧
        (∀ b ∈ bs, b.type_indices ≠ [] ∧
          ∀ t ∈ b.type_indices, t < bytecode.object_pool.Length) ∧
        bytecode' = { bytecode with
          pc_descriptors := some ((bs.enumFrom 0).flatMap (fun p =>
            [⟨.kOther, env.BytecodePcToOffset p.2.start_pc true, p.1⟩,
              ⟨.kOther, env.BytecodePcToOffset p.2.end_pc true, -1⟩]))
          exception_handlers := some ((bs.enumFrom 0).map (fun p =>
            ⟨p.1, (p.2.outer_try_index_plus1 : Int) - 1,
              env.BytecodePcToOffset p.2.handler_pc false, p.2.flags.testBit 1,
              p.2.type_indices.map bytecode.object_pool.ObjectAt, p.2.flags.testBit 0⟩)) } := by
  simp only [ReadExceptionsTable, if_true, bind_eq_ok, Prod.exists]
  constructor
  · rintro ⟨n, rd1, h1, h⟩
    by_cases hn : n > 0
    · simp only [hn, if_true, bind_eq_ok, Prod.exists, ReadTryBlocks_ok_iff, pure, Except.pure,
        Except.ok.injEq, Prod.mk.injEq] at h
      obtain ⟨ds, hs, rd2, ⟨bs, h2, hall, rfl, rfl⟩, rfl, rfl⟩ := h
      exact ⟨n, rd1, bs, h1, h2, hall, rfl⟩
    · simp only [hn, if_false, pure, Except.pure, Except.ok.injEq, Prod.mk.injEq] at h
      obtain ⟨rfl, rfl⟩ := h
      have h0 : n = 0 := by omega
      subst h0
      exact ⟨0, rd1, [], h1, rfl, by simp, rfl⟩
  · rintro ⟨n, rd1, bs, h1, h2, hall, rfl⟩
    refine ⟨n, rd1, h1, ?_⟩
    by_cases hn : n > 0
    · simp only [hn, if_true, bind_eq_ok, Prod.exists, ReadTryBlocks_ok_iff, pure, Except.pure,
        Except.ok.injEq, Prod.mk.injEq]
      exact ⟨_, _, rd', ⟨bs, h2, hall, rfl, rfl⟩, rfl, rfl⟩
    · have h0 : n = 0 := by omega
      subst h0
      simp only [ReadTryBlockValues, pure, Except.pure, Except.ok.injEq, Prod.mk.injEq] at h2
      obtain ⟨rfl, rfl⟩ := h2
      simp [pure, Except.pure]

theorem descriptors_length (F G : Nat × TryBlockValues → PcDescriptor) :
    ∀ (bs : List TryBlockValues) (j : Nat),
      ((bs.enumFrom j).flatMap (fun p => [F p, G p])).length = 2 * bs.length := by
  intro bs
  induction bs with
  | nil => intro j; rfl
  | cons b bs ih =>
    intro j
    simp only [List.enumFrom_cons, List.flatMap_cons, List.length_append, List.length_cons,
      List.length_nil, ih]
    omega

theorem descriptors_getElem (F G : Nat × TryBlockValues → PcDescriptor) :
    ∀ (bs : List TryBlockValues) (j k : Nat) (b : TryBlockValues), bs[k]? = some b →
      ((bs.enumFrom j).flatMap (fun p => [F p, G p]))[2 * k]? = some (F (j + k, b)) ∧
      ((bs.enumFrom j).flatMap (fun p => [F p, G p]))[2 * k + 1]? = some (G (j + k, b)) := by
  intro bs
  induction bs with
  | nil => intro j k b h; simp at h
  | cons a bs ih =>
    intro j k b h
    cases k with
    | zero =>
      simp only [List.getElem?_cons_zero, Option.some.injEq] at h
      subst h
      simp [List.enumFrom_cons, List.flatMap_cons]
    | succ k =>
      simp only [List.getElem?_cons_succ] at h
      have := ih (j + 1) k b h
      rw [show 2 * (k + 1) = (2 * k) + 1 + 1 by omega, show j + (k + 1) = j + 1 + k by omega]
      simpa [List.enumFrom_cons, List.flatMap_cons] using this

theorem handlers_getElem (H : Nat × TryBlockValues → ExceptionHandler)
    (bs : List TryBlockValues) (j k : Nat) (b : TryBlockValues) (h : bs[k]? = some b) :
    ((bs.enumFrom j).map H)[k]? = some (H (j + k, b)) := by
  simp [List.getElem?_map, List.getElem?_enumFrom, h]

theorem ReadHandlerTypes_of_indices (env : Env σ) (pool : ObjectPool) :
    ∀ (n : Nat) (rd rd' : σ) (idxs : List Nat), ReadIndices env n rd = .ok (idxs, rd') →
      ReadHandlerTypes env pool n rd = .ok (idxs.map pool.ObjectAt, rd') ∨
      ReadHandlerTypes env pool n rd = .error (.assertFailed .typeIndex) := by
  intro n
  induction n with
  | zero =>
    intro rd rd' idxs h
    simp only [ReadIndices, pure, Except.pure, Except.ok.injEq, Prod.mk.injEq] at h
    obtain ⟨rfl, rfl⟩ := h
    exact Or.inl rfl
  | succ n ih =>
    intro rd rd' idxs h
    simp only [ReadIndices, bind_eq_ok, pure, Except.pure, Except.ok.injEq, Prod.mk.injEq,
      Prod.exists] at h
    obtain ⟨t, rd1, h1, rest, rd2, h2, rfl, rfl⟩ := h
    by_cases ht : t < pool.Length
    · rcases ih rd1 rd2 rest h2 with hok | herr
      · left
        simp [ReadHandlerTypes, bind, Except.bind, h1, ASSERT, ht, hok, pure, Except.pure]
      · right
        simp [ReadHandlerTypes, bind, Except.bind, h1, ASSERT, ht, herr]
    · right
      simp [ReadHandlerTypes, bind, Except.bind, h1, ASSERT, ht]

theorem ReadTryBlocks_of_values (env : Env σ) (pool : ObjectPool) :
    ∀ (n k : Nat) (rd rd' : σ) (bs : List TryBlockValues),
      ReadTryBlockValues env n rd = .ok (bs, rd') →
      (∃ ds hs, ReadTryBlocks env pool n k rd = .ok (ds, hs, rd')) ∨
      ReadTryBlocks env pool n k rd = .error (.assertFailed .typeCount) ∨
      ReadTryBlocks env pool n k rd = .error (.assertFailed .typeIndex) := by
  intro n
  induction n with
  | zero =>
    intro k rd rd' bs h
    simp only [ReadTryBlockValues, pure, Except.pure, Except.ok.injEq, Prod.mk.injEq] at h
    obtain ⟨rfl, rfl⟩ := h
    exact Or.inl ⟨[], [], rfl⟩
  | succ n ih =>
    intro k rd rd' bs h
    simp only [ReadTryBlockValues, bind_eq_ok, pure, Except.pure, Except.ok.injEq,
      Prod.mk.injEq, Prod.exists] at h
    obtain ⟨o, rd1, h1, s, rd2, h2, e, rd3, h3, hp, rd4, h4, f, rd5, h5, c, rd6, h6, idxs,
      rd7, h7, rest, rd8, h8, rfl, rfl⟩ := h
    by_cases hc : c > 0
    · rcases ReadHandlerTypes_of_indices env pool c rd6 rd7 idxs h7 with hok | herr
      · rcases ih (k + 1) rd7 rd8 rest h8 with ⟨ds, hs, hrest⟩ | hrest | hrest
        · left
          simp [ReadTryBlocks, bind, Except.bind, h1, h2, h3, h4, h5, h6, ASSERT, hc, hok, hrest,
            pure, Except.pure]
        · right; left
          simp [ReadTryBlocks, bind, Except.bind, h1, h2, h3, h4, h5, h6, ASSERT, hc, hok, hrest]
        · right; right
          simp [ReadTryBlocks, bind, Except.bind, h1, h2, h3, h4, h5, h6, ASSERT, hc, hok, hrest]
      · right; right
        simp [ReadTryBlocks, bind, Except.bind, h1, h2, h3, h4, h5, h6, ASSERT, hc, herr]
    · right; left
      simp [ReadTryBlocks, bind, Except.bind, h1, h2, h3, h4, h5, h6, ASSERT, hc]


/-- C11. When `ReadExceptionsTable` succeeds: without the table flag it reads
nothing and sets the empty descriptors and the empty handlers; with the flag
it reads the count `n` and the values of `n` try blocks, and sets `2 * n`
descriptors and `n` handlers (none when `n = 0`), the descriptors being, for
each block `k` in order, one of kind `kOther` at its start PC (as a return
address) with try index `k`, then one of kind `kOther` at its end PC (as a
return address) with try index `-1`. -/
theorem ReadExceptionsTable_descriptors (env : Env σ) (bytecode bytecode' : Code)
    (has_exceptions_table : Bool) (rd rd' : σ)
    (h : ReadExceptionsTable env bytecode has_exceptions_table rd = .ok (bytecode', rd')) :
    (has_exceptions_table = false →
      rd' = rd ∧ bytecode'.pc_descriptors = some [] ∧ bytecode'.exception_handlers = some []) ∧
    (has_exceptions_table = true →
      ∃ (n : Nat) (rd1 : σ) (bs : List TryBlockValues) (ds : List PcDescriptor)
        (hs : List ExceptionHandler),
        env.ReadListLength rd = .ok (n, rd1) ∧
        ReadTryBlockValues env n rd1 = .ok (bs, rd') ∧ bs.length = n ∧
        bytecode'.pc_descriptors = some ds ∧ bytecode'.exception_handlers = some hs ∧
        ds.length = 2 * n ∧ hs.length = n ∧ (n = 0 → ds = [] ∧ hs = []) ∧
        ds = (bs.enumFrom 0).flatMap (fun p =>
          [⟨.kOther, env.BytecodePcToOffset p.2.start_pc true, p.1⟩,
            ⟨.kOther, env.BytecodePcToOffset p.2.end_pc true, -1⟩]) ∧
        ∀ (k : Nat) (b : TryBlockValues), bs[k]? = some b →
          ds[2 * k]? = some ⟨.kOther, env.BytecodePcToOffset b.start_pc true, k⟩ ∧
          ds[2 * k + 1]? = some ⟨.kOther, env.BytecodePcToOffset b.end_pc true, -1⟩) := by
  constructor
  · intro hf
    subst hf
    rw [ReadExceptionsTable_absent] at h
    simp only [Except.ok.injEq, Prod.mk.injEq] at h
    obtain ⟨rfl, rfl⟩ := h
    exact ⟨rfl, rfl, rfl⟩
  · intro ht
    subst ht
    obtain ⟨n, rd1, bs, h1, h2, _, rfl⟩ := (ReadExceptionsTable_ok_iff env bytecode bytecode' rd rd').1 h
    have hlen := ReadTryBlockValues_length env n rd1 rd' bs h2
    refine ⟨n, rd1, bs, _, _, h1, h2, hlen, rfl, rfl, ?_, ?_, ?_, rfl, ?_⟩
    · rw [descriptors_length, hlen]
    · simp [hlen]
    · intro h0
      rw [h0] at hlen
      rw [List.length_eq_zero.1 hlen]
      exact ⟨rfl, rfl⟩
    · intro k b hk
      have := descriptors_getElem
        (fun p => (⟨.kOther, env.BytecodePcToOffset p.2.start_pc true, p.1⟩ : PcDescriptor))
        (fun p => (⟨.kOther, env.BytecodePcToOffset p.2.end_pc true, -1⟩ : PcDescriptor)) bs 0 k b hk
      simpa using this

/-- C11, over `tokenEnv`: the table `nestedTable` of two nested regions gives
the four descriptors and the two handlers of `nestedCode`; without the flag
nothing is read. -/
theorem ReadExceptionsTable_descriptors_witness :
    ReadExceptionsTable tokenEnv exampleCode true ⟨nestedTable, 0⟩ =
      .ok (nestedCode, ⟨nestedTable, 16⟩) ∧
    nestedCode.pc_descriptors =
      some [⟨.kOther, 10, 0⟩, ⟨.kOther, 40, -1⟩, ⟨.kOther, 20, 1⟩, ⟨.kOther, 30, -1⟩] ∧
    nestedCode.exception_handlers.map List.length = some 2 ∧
    ∃ (n : Nat) (rd1 : TokenReader) (bs : List TryBlockValues) (ds : List PcDescriptor)
      (hs : List ExceptionHandler),
      tokenEnv.ReadListLength ⟨nestedTable, 0⟩ = .ok (n, rd1) ∧
      ReadTryBlockValues tokenEnv n rd1 = .ok (bs, ⟨nestedTable, 16⟩) ∧ bs.length = n ∧
      nestedCode.pc_descriptors = some ds ∧ nestedCode.exception_handlers = some hs ∧
      ds.length = 2 * n ∧ hs.length = n ∧ (n = 0 → ds = [] ∧ hs = []) ∧
      ds = (bs.enumFrom 0).flatMap (fun p =>
        [⟨.kOther, tokenEnv.BytecodePcToOffset p.2.start_pc true, p.1⟩,
          ⟨.kOther, tokenEnv.BytecodePcToOffset p.2.end_pc true, -1⟩]) ∧
      ∀ (k : Nat) (b : TryBlockValues), bs[k]? = some b →
        ds[2 * k]? = some ⟨.kOther, tokenEnv.BytecodePcToOffset b.start_pc true, k⟩ ∧
        ds[2 * k + 1]? = some ⟨.kOther, tokenEnv.BytecodePcToOffset b.end_pc true, -1⟩ :=
  ⟨rfl, rfl, rfl,
    (ReadExceptionsTable_descriptors tokenEnv exampleCode nestedCode true ⟨nestedTable, 0⟩
      ⟨nestedTable, 16⟩ rfl).2 rfl⟩

/-- C12. When `ReadExceptionsTable` succeeds on a table, the handler added for
try block `k`, whose values read are `b`, has try index `k`, outer try index
`b.outer_try_index_plus1 - 1` (so `-1` when the value read is 0), the handler
PC converted as an address that is not a return address, `is_generated` bit 1
of the flag byte, `needs_stacktrace` bit 0 of the flag byte, and as handled
types the objects of the pool at the indices read, in the order read.  The
flag byte enters the handler through these two bits only: a flag byte with the
same two low bits gives the same handler. -/
theorem ReadExceptionsTable_handlers (env : Env σ) (bytecode bytecode' : Code) (rd rd' : σ)
    (h : ReadExceptionsTable env bytecode true rd = .ok (bytecode', rd')) :
    ∃ (n : Nat) (rd1 : σ) (bs : List TryBlockValues) (hs : List ExceptionHandler),
      env.ReadListLength rd = .ok (n, rd1) ∧
      ReadTryBlockValues env n rd1 = .ok (bs, rd') ∧ bs.length = n ∧
      bytecode'.exception_handlers = some hs ∧ hs.length = n ∧
      ∀ (k : Nat) (b : TryBlockValues), bs[k]? = some b →
        hs[k]? = some
          ⟨k, (b.outer_try_index_plus1 : Int) - 1, env.BytecodePcToOffset b.handler_pc false,
            b.flags.testBit 1, b.type_indices.map bytecode.object_pool.ObjectAt,
            b.flags.testBit 0⟩ ∧
        (b.outer_try_index_plus1 = 0 →
          hs[k]? = some
            ⟨k, -1, env.BytecodePcToOffset b.handler_pc false, b.flags.testBit 1,
              b.type_indices.map bytecode.object_pool.ObjectAt, b.flags.testBit 0⟩) ∧
        (∀ f : Nat, f % 4 = b.flags % 4 →
          f.testBit 1 = b.flags.testBit 1 ∧ f.testBit 0 = b.flags.testBit 0) := by
  obtain ⟨n, rd1, bs, h1, h2, _, rfl⟩ :=
    (ReadExceptionsTable_ok_iff env bytecode bytecode' rd rd').1 h
  have hlen := ReadTryBlockValues_length env n rd1 rd' bs h2
  refine ⟨n, rd1, bs, _, h1, h2, hlen, rfl, by simp [hlen], ?_⟩
  intro k b hk
  have := handlers_getElem
    (fun p => (⟨p.1, (p.2.outer_try_index_plus1 : Int) - 1,
      env.BytecodePcToOffset p.2.handler_pc false, p.2.flags.testBit 1,
      p.2.type_indices.map bytecode.object_pool.ObjectAt, p.2.flags.testBit 0⟩ :
      ExceptionHandler)) bs 0 k b hk
  simp only [Nat.zero_add] at this
  refine ⟨this, ?_, ?_⟩
  · intro h0
    rw [this, h0]
    simp
  · intro f hf
    have hbit : ∀ (x i : Nat), i < 2 → x.testBit i = (x % 4).testBit i := by
      intro x i hi
      rw [show (4 : Nat) = 2 ^ 2 from rfl, Nat.testBit_mod_two_pow]
      simp [hi]
    rw [hbit f 1 (by decide), hbit f 0 (by decide), hbit b.flags 1 (by decide),
      hbit b.flags 0 (by decide), hf]
    exact ⟨rfl, rfl⟩

/-- C12, over `tokenEnv`: the handlers of `nestedTable`.  Region 0, read with
outer value 0, has outer try index `-1`; the flag byte 254 of region 1 gives
`is_generated` and not `needs_stacktrace`. -/
theorem ReadExceptionsTable_handlers_witness :
    ReadExceptionsTable tokenEnv exampleCode true ⟨nestedTable, 0⟩ =
      .ok (nestedCode, ⟨nestedTable, 16⟩) ∧
    ∃ (n : Nat) (rd1 : TokenReader) (bs : List TryBlockValues) (hs : List ExceptionHandler),
      tokenEnv.ReadListLength ⟨nestedTable, 0⟩ = .ok (n, rd1) ∧
      ReadTryBlockValues tokenEnv n rd1 = .ok (bs, ⟨nestedTable, 16⟩) ∧ bs.length = n ∧
      nestedCode.exception_handlers = some hs ∧ hs.length = n ∧
      ∀ (k : Nat) (b : TryBlockValues), bs[k]? = some b →
        hs[k]? = some
          ⟨k, (b.outer_try_index_plus1 : Int) - 1, tokenEnv.BytecodePcToOffset b.handler_pc false,
            b.flags.testBit 1, b.type_indices.map exampleCode.object_pool.ObjectAt,
            b.flags.testBit 0⟩ ∧
        (b.outer_try_index_plus1 = 0 →
          hs[k]? = some
            ⟨k, -1, tokenEnv.BytecodePcToOffset b.handler_pc false, b.flags.testBit 1,
              b.type_indices.map exampleCode.object_pool.ObjectAt, b.flags.testBit 0⟩) ∧
        (∀ f : Nat, f % 4 = b.flags % 4 →
          f.testBit 1 = b.flags.testBit 1 ∧ f.testBit 0 = b.flags.testBit 0) :=
  ⟨rfl, ReadExceptionsTable_handlers tokenEnv exampleCode nestedCode ⟨nestedTable, 0⟩
    ⟨nestedTable, 16⟩ rfl⟩

/-- C13 (amended). Whenever the count and the values of the try blocks can be
read and every block has at least one handled type, each at an index below the
pool length, `ReadExceptionsTable` succeeds, and the handler of try block `k`
has try index `k` and outer try index `outer_try_index_plus1 - 1`: the outer
try index is recorded as read and is compared with nothing, so it may be `k`
itself or the index of a later block. -/
theorem ReadExceptionsTable_outer_try_unchecked (env : Env σ) (bytecode : Code) (rd rd1 rd' : σ)
    (n : Nat) (bs : List TryBlockValues)
    (hn : env.ReadListLength rd = .ok (n, rd1))
    (hbs : ReadTryBlockValues env n rd1 = .ok (bs, rd'))
    (htypes : ∀ b ∈ bs, b.type_indices ≠ [] ∧
      ∀ t ∈ b.type_indices, t < bytecode.object_pool.Length) :
    ∃ (bytecode' : Code) (hs : List ExceptionHandler),
      ReadExceptionsTable env bytecode true rd = .ok (bytecode', rd') ∧
      bytecode'.exception_handlers = some hs ∧ hs.length = n ∧
      ∀ (k : Nat) (b : TryBlockValues), bs[k]? = some b →
        ∃ handler, hs[k]? = some handler ∧ handler.try_index = k ∧
          handler.outer_try_index = (b.outer_try_index_plus1 : Int) - 1 := by
  have hlen := ReadTryBlockValues_length env n rd1 rd' bs hbs
  refine ⟨_, _, (ReadExceptionsTable_ok_iff env bytecode _ rd rd').2
    ⟨n, rd1, bs, hn, hbs, htypes, rfl⟩, rfl, by simp [hlen], ?_⟩
  intro k b hk
  have := handlers_getElem
    (fun p => (⟨p.1, (p.2.outer_try_index_plus1 : Int) - 1,
      env.BytecodePcToOffset p.2.handler_pc false, p.2.flags.testBit 1,
      p.2.type_indices.map bytecode.object_pool.ObjectAt, p.2.flags.testBit 0⟩ :
      ExceptionHandler)) bs 0 k b hk
  simp only [Nat.zero_add] at this
  exact ⟨_, this, rfl, rfl⟩

/-- C13 (counterexample). The table `selfOuterTable`, in which region 0 names
the later region 1 as its outer try and region 1 names itself, is accepted:
the handlers have the try and outer try indices `(0, 1)` and `(1, 1)`. -/
theorem ReadExceptionsTable_accepts_self_outer :
    (ReadExceptionsTable tokenEnv exampleCode true ⟨selfOuterTable, 0⟩).toOption.map
        (fun r => r.1.exception_handlers.map
          (List.map fun handler => (handler.try_index, handler.outer_try_index))) =
      some (some [(0, 1), (1, 1)]) := by
  rfl

/-- C13 (amended), over `tokenEnv`: `selfOuterTable` satisfies the conditions
on the handled types and is accepted. -/
theorem ReadExceptionsTable_outer_try_unchecked_witness :
    tokenEnv.ReadListLength ⟨selfOuterTable, 0⟩ = .ok (2, ⟨selfOuterTable, 1⟩) ∧
    ReadTryBlockValues tokenEnv 2 ⟨selfOuterTable, 1⟩ =
      .ok ([⟨2, 10, 40, 50, 0, [0]⟩, ⟨2, 20, 30, 60, 0, [0]⟩], ⟨selfOuterTable, 15⟩) ∧
    ∃ (bytecode' : Code) (hs : List ExceptionHandler),
      ReadExceptionsTable tokenEnv exampleCode true ⟨selfOuterTable, 0⟩ =
        .ok (bytecode', ⟨selfOuterTable, 15⟩) ∧
      bytecode'.exception_handlers = some hs ∧ hs.length = 2 ∧
      ∀ (k : Nat) (b : TryBlockValues),
        [(⟨2, 10, 40, 50, 0, [0]⟩ : TryBlockValues), ⟨2, 20, 30, 60, 0, [0]⟩][k]? = some b →
        ∃ handler, hs[k]? = some handler ∧ handler.try_index = k ∧
          handler.outer_try_index = (b.outer_try_index_plus1 : Int) - 1 :=
  ⟨rfl, rfl, ReadExceptionsTable_outer_try_unchecked tokenEnv exampleCode ⟨selfOuterTable, 0⟩
    ⟨selfOuterTable, 1⟩ ⟨selfOuterTable, 15⟩ 2 [⟨2, 10, 40, 50, 0, [0]⟩, ⟨2, 20, 30, 60, 0, [0]⟩]
    rfl rfl (by decide)⟩

/-- C14. When the count and the values of the try blocks of a table can be
read: if some block has no handled type (the count read for it is 0) or a
handled-type index that is not below the pool length, `ReadExceptionsTable`
fails, at `ASSERT(type_count > 0)` or at `ASSERT(type_index < pool.Length())`.
Hence, whenever `ReadExceptionsTable` succeeds, every handler it sets has at
least one handled type and each handled type is the object of a pool slot
whose index is below the pool length. -/
theorem ReadExceptionsTable_handled_types (env : Env σ) (bytecode : Code) (rd rd1 rd' : σ)
    (n : Nat) (bs : List TryBlockValues)
    (hn : env.ReadListLength rd = .ok (n, rd1))
    (hbs : ReadTryBlockValues env n rd1 = .ok (bs, rd')) :
    ((∃ b ∈ bs, b.type_indices = [] ∨
        ∃ t ∈ b.type_indices, bytecode.object_pool.Length ≤ t) →
      ReadExceptionsTable env bytecode true rd = .error (.assertFailed .typeCount) ∨
      ReadExceptionsTable env bytecode true rd = .error (.assertFailed .typeIndex)) ∧
    (∀ (bytecode' : Code) (rd'' : σ),
      ReadExceptionsTable env bytecode true rd = .ok (bytecode', rd'') →
      ∃ hs, bytecode'.exception_handlers = some hs ∧ hs.length = n ∧
        ∀ handler ∈ hs, handler.handler_types ≠ [] ∧
          ∀ o ∈ handler.handler_types,
            ∃ t, t < bytecode.object_pool.Length ∧ o = bytecode.object_pool.ObjectAt t) := by
  constructor
  · rintro ⟨b, hb, hbad⟩
    have hnot : ∀ ds hs, ReadTryBlocks env bytecode.object_pool n 0 rd1 ≠ .ok (ds, hs, rd') := by
      intro ds hs hok
      obtain ⟨bs', h2, hall, _⟩ := (ReadTryBlocks_ok_iff env bytecode.object_pool n 0 rd1 rd' ds hs).1 hok
      rw [hbs] at h2
      simp only [Except.ok.injEq, Prod.mk.injEq, and_true] at h2
      subst h2
      rcases hbad with hnil | ⟨t, ht, hle⟩
      · exact (hall b hb).1 hnil
      · exact absurd ((hall b hb).2 t ht) (by omega)
    have hpos : n > 0 := by
      have hlen := ReadTryBlockValues_length env n rd1 rd' bs hbs
      rcases Nat.eq_zero_or_pos n with h0 | h0
      · rw [h0] at hlen
        rw [List.length_eq_zero.1 hlen] at hb
        simp at hb
      · exact h0
    rcases ReadTryBlocks_of_values env bytecode.object_pool n 0 rd1 rd' bs hbs with
      ⟨ds, hs, hok⟩ | herr | herr
    · exact absurd hok (hnot ds hs)
    · left
      simp [ReadExceptionsTable, bind, Except.bind, hn, hpos, herr]
    · right
      simp [ReadExceptionsTable, bind, Except.bind, hn, hpos, herr]
  · intro bytecode' rd'' h
    obtain ⟨n', rd1', bs', h1, h2, hall, rfl⟩ :=
      (ReadExceptionsTable_ok_iff env bytecode bytecode' rd rd'').1 h
    rw [hn] at h1
    simp only [Except.ok.injEq, Prod.mk.injEq] at h1
    obtain ⟨rfl, rfl⟩ := h1
    have hlen := ReadTryBlockValues_length env n rd1 rd'' bs' h2
    refine ⟨_, rfl, by simp [hlen], ?_⟩
    intro handler hmem
    simp only [List.mem_map, Prod.exists] at hmem
    obtain ⟨k, b, hkb, rfl⟩ := hmem
    have hb : b ∈ bs' := by
      have := List.mem_enumFrom hkb
      rw [this.2.2]
      apply List.getElem_mem
    refine ⟨?_, ?_⟩
    · simpa using (hall b hb).1
    · intro o ho
      simp only [List.mem_map] at ho
      obtain ⟨t, ht, rfl⟩ := ho
      exact ⟨t, (hall b hb).2 t ht, rfl⟩

/-- C14, over `tokenEnv`: a region without handled types and a region whose
handled type is at index 3 of a pool of length 3 both end the decode; the
handlers of `nestedTable` have one and two handled types. -/
theorem ReadExceptionsTable_handled_types_witness :
    ReadExceptionsTable tokenEnv exampleCode true ⟨noTypesTable, 0⟩ =
      .error (.assertFailed .typeCount) ∧
    ReadExceptionsTable tokenEnv exampleCode true ⟨badTypeTable, 0⟩ =
      .error (.assertFailed .typeIndex) ∧
    (ReadExceptionsTable tokenEnv exampleCode true ⟨noTypesTable, 0⟩ =
        .error (.assertFailed .typeCount) ∨
      ReadExceptionsTable tokenEnv exampleCode true ⟨noTypesTable, 0⟩ =
        .error (.assertFailed .typeIndex)) ∧
    (ReadExceptionsTable tokenEnv exampleCode true ⟨badTypeTable, 0⟩ =
        .error (.assertFailed .typeCount) ∨
      ReadExceptionsTable tokenEnv exampleCode true ⟨badTypeTable, 0⟩ =
        .error (.assertFailed .typeIndex)) ∧
    (∀ (bytecode' : Code) (rd'' : TokenReader),
      ReadExceptionsTable tokenEnv exampleCode true ⟨nestedTable, 0⟩ = .ok (bytecode', rd'') →
      ∃ hs, bytecode'.exception_handlers = some hs ∧ hs.length = 2 ∧
        ∀ handler ∈ hs, handler.handler_types ≠ [] ∧
          ∀ o ∈ handler.handler_types,
            ∃ t, t < exampleCode.object_pool.Length ∧ o = exampleCode.object_pool.ObjectAt t) :=
  ⟨rfl, rfl,
    (ReadExceptionsTable_handled_types tokenEnv exampleCode ⟨noTypesTable, 0⟩ ⟨noTypesTable, 1⟩
      ⟨noTypesTable, 7⟩ 1 [⟨0, 10, 40, 50, 0, []⟩] rfl rfl).1
      ⟨_, List.mem_singleton_self _, Or.inl rfl⟩,
    (ReadExceptionsTable_handled_types tokenEnv exampleCode ⟨badTypeTable, 0⟩ ⟨badTypeTable, 1⟩
      ⟨badTypeTable, 8⟩ 1 [⟨0, 10, 40, 50, 0, [3]⟩] rfl rfl).1
      ⟨_, List.mem_singleton_self _, Or.inr ⟨3, by simp, by decide⟩⟩,
    (ReadExceptionsTable_handled_types tokenEnv exampleCode ⟨nestedTable, 0⟩ ⟨nestedTable, 1⟩
      ⟨nestedTable, 16⟩ 2
      [⟨0, 10, 40, 50, 1, [0]⟩, ⟨1, 20, 30, 60, 254, [0, 1]⟩] rfl rfl).2⟩


/-! ## The sections of the metadata -/

theorem kHasExceptionsTableFlag_test (flags : Nat) :
    (flags &&& kHasExceptionsTableFlag != 0) = flags.testBit 0 :=
  and_two_pow_ne_zero flags 0

theorem kHasNullableFieldsFlag_test (flags : Nat) :
    (flags &&& kHasNullableFieldsFlag != 0) = flags.testBit 1 :=
  and_two_pow_ne_zero flags 1

theorem kHasClosuresFlag_test (flags : Nat) :
    (flags &&& kHasClosuresFlag != 0) = flags.testBit 2 :=
  and_two_pow_ne_zero flags 2

theorem error_or_ok {ε α : Type} (x : Except ε α) :
    (∃ e, x = .error e) ∨ (∃ a, x = .ok a) := by
  cases x with
  | error e => exact Or.inl ⟨e, rfl⟩
  | ok a => exact Or.inr ⟨a, rfl⟩

/-- C17. After the flags, the pool and the instruction bytes have been read,
`ReadMetadata` succeeds exactly when the three sections that follow can be
read one after the other: the exception table of the function, read with
`has_exceptions_table` bit 0 of the flags (nothing is read when the bit is not
set); then, when bit 1 is set, the count and the names of the nullable fields
of a generative constructor, and nothing otherwise; then, when bit 2 is set,
the count of closures and the closures, and nothing otherwise.  The cursor at
the end is the one after the last section read.  The flags enter through bits
0, 1 and 2 only. -/
theorem ReadMetadata_sections (env : Env σ) (function : Obj) (attached : List (Obj × Code))
    (deopt_id flags N : Nat) (rd0 rd1 rd2 : σ) (r : Int) (st : DecodeState σ) (bytecode : Code)
    (ls : LoadState σ)
    (hoff : 0 ≤ env.GetNextMetadataPayloadOffset function)
    (hflags : env.ReadUInt (env.metadata_payloads
      (env.GetNextMetadataPayloadOffset function).toNat) = .ok (flags, rd0))
    (hN : env.ReadListLength rd0 = .ok (N, rd1))
    (hpool : ReadPoolEntries env function function [] ⟨rd1, ObjectPool.New N, 0, []⟩ 0 =
      .ok (r, st))
    (hbc : ReadBytecode env st.pool st.reader = .ok (bytecode, rd2)) :
    (ReadMetadata env function attached deopt_id = .ok (some ls) ↔
      ∃ (bytecode' : Code) (rd3 rd4 : σ) (fields : List Obj),
        ReadExceptionsTable env bytecode (flags.testBit 0) rd2 = .ok (bytecode', rd3) ∧
        (if flags.testBit 1 = true then
            env.IsGenerativeConstructor function = true ∧
            ∃ (num_fields : Nat) (rd' : σ), env.ReadListLength rd3 = .ok (num_fields, rd') ∧
              ReadNullableFields env num_fields rd' = .ok (fields, rd4)
          else rd4 = rd3 ∧ fields = []) ∧
        (if flags.testBit 2 = true then
            ∃ (num_closures : Nat) (rd' : σ),
              env.ReadListLength rd4 = .ok (num_closures, rd') ∧
              ReadClosures env st.pool N num_closures
                ⟨⟨rd', st.pool, deopt_id, st.trace⟩, attached ++ [(function, bytecode')],
                  fields⟩ = .ok ls
          else ls = ⟨⟨rd4, st.pool, deopt_id, st.trace⟩, attached ++ [(function, bytecode')],
            fields⟩)) ∧
    (flags.testBit 0 = false →
      ReadExceptionsTable env bytecode (flags.testBit 0) rd2 =
        .ok ({ bytecode with pc_descriptors := some [], exception_handlers := some [] }, rd2)) := by
  have hoff' : ¬ env.GetNextMetadataPayloadOffset function < 0 := by omega
  refine ⟨?_, fun h0 => by rw [h0]; exact ReadExceptionsTable_absent env bytecode rd2⟩
  simp only [ReadMetadata, hoff', if_false, hflags, hN, hpool, hbc, kHasExceptionsTableFlag_test,
    kHasNullableFieldsFlag_test, kHasClosuresFlag_test, List.dropLast_concat, List.nil_append]
  constructor
  · intro h
    obtain ⟨e, hexc⟩ | ⟨⟨bytecode', rd3⟩, hexc⟩ :=
      error_or_ok (ReadExceptionsTable env bytecode (flags.testBit 0) rd2)
    · rw [hexc] at h
      simp at h
    rw [hexc] at h
    simp only at h
    by_cases h1 : flags.testBit 1 = true
    · rw [if_pos h1] at h
      by_cases hgen : env.IsGenerativeConstructor function = true
      · rw [if_pos hgen] at h
        obtain ⟨e, hnf⟩ | ⟨⟨num_fields, rd3'⟩, hnf⟩ := error_or_ok (env.ReadListLength rd3)
        · rw [hnf] at h
          simp at h
        rw [hnf] at h
        simp only at h
        obtain ⟨e, hfs⟩ | ⟨⟨fields, rd4⟩, hfs⟩ :=
          error_or_ok (ReadNullableFields env num_fields rd3')
        · rw [hfs] at h
          simp at h
        rw [hfs] at h
        simp only at h
        refine ⟨bytecode', rd3, rd4, fields, hexc, ?_, ?_⟩
        · rw [if_pos h1]
          exact ⟨hgen, num_fields, rd3', hnf, hfs⟩
        · by_cases h2 : flags.testBit 2 = true
          · rw [if_pos h2] at h ⊢
            obtain ⟨e, hnc⟩ | ⟨⟨num_closures, rd4'⟩, hnc⟩ := error_or_ok (env.ReadListLength rd4)
            · rw [hnc] at h
              simp at h
            rw [hnc] at h
            simp only at h
            refine ⟨num_closures, rd4', hnc, ?_⟩
            obtain ⟨e, hcl⟩ | ⟨ls', hcl⟩ := error_or_ok (ReadClosures env st.pool N num_closures
              ⟨⟨rd4', st.pool, deopt_id, st.trace⟩, attached ++ [(function, bytecode')], fields⟩)
            · rw [hcl] at h
              simp [Except.map] at h
            · rw [hcl] at h
              simp only [Except.map, Except.ok.injEq, Option.some.injEq] at h
              rw [hcl, h]
          · rw [if_neg h2] at h ⊢
            simp only [Except.ok.injEq, Option.some.injEq] at h
            exact h.symm
      · simp [hgen] at h
    · rw [if_neg h1] at h
      simp only at h
      refine ⟨bytecode', rd3, rd3, [], hexc, ?_, ?_⟩
      · rw [if_neg h1]
        exact ⟨rfl, rfl⟩
      · by_cases h2 : flags.testBit 2 = true
        · rw [if_pos h2] at h ⊢
          obtain ⟨e, hnc⟩ | ⟨⟨num_closures, rd4'⟩, hnc⟩ := error_or_ok (env.ReadListLength rd3)
          · rw [hnc] at h
            simp at h
          rw [hnc] at h
          simp only at h
          refine ⟨num_closures, rd4', hnc, ?_⟩
          obtain ⟨e, hcl⟩ | ⟨ls', hcl⟩ := error_or_ok (ReadClosures env st.pool N num_closures
            ⟨⟨rd4', st.pool, deopt_id, st.trace⟩, attached ++ [(function, bytecode')], []⟩)
          · rw [hcl] at h
            simp [Except.map] at h
          · rw [hcl] at h
            simp only [Except.map, Except.ok.injEq, Option.some.injEq] at h
            rw [hcl, h]
        · rw [if_neg h2] at h ⊢
          simp only [Except.ok.injEq, Option.some.injEq] at h
          exact h.symm
  · rintro ⟨bytecode', rd3, rd4, fields, hexc, hnull, hclos⟩
    rw [hexc]
    simp only
    by_cases h1 : flags.testBit 1 = true
    · rw [if_pos h1] at hnull
      obtain ⟨hgen, num_fields, rd3', hnf, hfs⟩ := hnull
      rw [if_pos h1, if_pos hgen]
      simp only [hnf, hfs]
      by_cases h2 : flags.testBit 2 = true
      · rw [if_pos h2] at hclos
        obtain ⟨num_closures, rd4', hnc, hcl⟩ := hclos
        rw [if_pos h2]
        simp only [hnc, hcl]
        rfl
      · rw [if_neg h2] at hclos
        rw [if_neg h2, hclos]
    · rw [if_neg h1] at hnull
      obtain ⟨rfl, rfl⟩ := hnull
      rw [if_neg h1]
      simp only
      by_cases h2 : flags.testBit 2 = true
      · rw [if_pos h2] at hclos
        obtain ⟨num_closures, rd4', hnc, hcl⟩ := hclos
        rw [if_pos h2]
        simp only [hnc, hcl]
        rfl
      · rw [if_neg h2] at hclos
        rw [if_neg h2, hclos]

/-- C17, on `sectionsMetadata`, whose flags 15 have bits 0, 1 and 2 set, and
bit 3: the load succeeds, the three sections are read in order up to the end
of the buffer, one store is recorded and the function and the closure get
their bytecode; with flags 8 nothing is read after the instruction bytes. -/
theorem ReadMetadata_sections_witness :
    ReadMetadata (tokenEnvOn sectionsMetadata) exampleFunction [] 0 = .ok (some sectionsLoad) ∧
    sectionsLoad.dec.reader.pos = 11 ∧ sectionsMetadata.length = 11 ∧
    sectionsLoad.recorded_stores.length = 1 ∧ sectionsLoad.attached.length = 2 ∧
    (LoadState.ofResult ⟨tokenState [] 0, [], []⟩
      (ReadMetadata (tokenEnvOn [8, 0, 0, 1]) exampleFunction [] 0)).dec.reader.pos = 3 ∧
    ∃ (bytecode' : Code) (rd3 rd4 : TokenReader) (fields : List Obj),
      ReadExceptionsTable (tokenEnvOn sectionsMetadata) ⟨4, 0, sectionsState.pool, none, none⟩
        (Nat.testBit 15 0) ⟨sectionsMetadata, 4⟩ = .ok (bytecode', rd3) ∧
      (if Nat.testBit 15 1 = true then
          (tokenEnvOn sectionsMetadata).IsGenerativeConstructor exampleFunction = true ∧
          ∃ (num_fields : Nat) (rd' : TokenReader),
            (tokenEnvOn sectionsMetadata).ReadListLength rd3 = .ok (num_fields, rd') ∧
            ReadNullableFields (tokenEnvOn sectionsMetadata) num_fields rd' = .ok (fields, rd4)
        else rd4 = rd3 ∧ fields = []) ∧
      (if Nat.testBit 15 2 = true then
          ∃ (num_closures : Nat) (rd' : TokenReader),
            (tokenEnvOn sectionsMetadata).ReadListLength rd4 = .ok (num_closures, rd') ∧
            ReadClosures (tokenEnvOn sectionsMetadata) sectionsState.pool 1 num_closures
              ⟨⟨rd', sectionsState.pool, 0, sectionsState.trace⟩,
                [] ++ [(exampleFunction, bytecode')], fields⟩ = .ok sectionsLoad
        else sectionsLoad = ⟨⟨rd4, sectionsState.pool, 0, sectionsState.trace⟩,
          [] ++ [(exampleFunction, bytecode')], fields⟩) :=
  ⟨by rfl, by rfl, by rfl, by rfl, by rfl, by rfl,
    (ReadMetadata_sections (tokenEnvOn sectionsMetadata) exampleFunction [] 0 15 1
      ⟨sectionsMetadata, 1⟩ ⟨sectionsMetadata, 2⟩ ⟨sectionsMetadata, 4⟩ 0 sectionsState
      ⟨4, 0, sectionsState.pool, none, none⟩ sectionsLoad (by decide) (by rfl) (by rfl) (by rfl)
      (by rfl)).1.1 (by rfl)⟩

/-! ## Failed loads -/

theorem ReadClosures_attached (env : Env σ) (pool : ObjectPool) (obj_count : Nat) :
    ∀ (n : Nat) (ls : LoadState σ),
      (∀ ls', ReadClosures env pool obj_count n ls = .ok ls' →
        ∃ more, ls'.attached = ls.attached ++ more) ∧
      (∀ e ls', ReadClosures env pool obj_count n ls = .error (e, ls') →
        ∃ more, ls'.attached = ls.attached ++ more) := by
  intro n
  induction n with
  | zero =>
    intro ls
    constructor
    · intro ls' h
      simp only [ReadClosures, Except.ok.injEq] at h
      exact ⟨[], by rw [← h]; simp⟩
    · intro e ls' h
      simp [ReadClosures] at h
  | succ n ih =>
    intro ls
    have key : ∀ x : Except (DecodeError × LoadState σ) (LoadState σ),
        ReadClosures env pool obj_count (n + 1) ls = x →
        ∀ ls', (x = .ok ls' ∨ ∃ e, x = .error (e, ls')) →
          ∃ more, ls'.attached = ls.attached ++ more := by
      intro x hx ls' hls
      unfold ReadClosures at hx
      obtain ⟨e, h1⟩ | ⟨⟨closure_index, rd1⟩, h1⟩ := error_or_ok (env.ReadUInt ls.dec.reader)
      · rw [h1] at hx
        simp only at hx
        subst hx
        rcases hls with h | ⟨e', h⟩
        · simp at h
        · simp only [Except.error.injEq, Prod.mk.injEq] at h
          exact ⟨[], by rw [← h.2]; simp⟩
      rw [h1] at hx
      simp only at hx
      by_cases hlt : closure_index < obj_count
      · rw [if_pos hlt] at hx
        obtain ⟨e, h2⟩ | ⟨⟨code, rd2⟩, h2⟩ := error_or_ok (ReadBytecode env pool rd1)
        · rw [h2] at hx
          simp only at hx
          subst hx
          rcases hls with h | ⟨e', h⟩
          · simp at h
          · simp only [Except.error.injEq, Prod.mk.injEq] at h
            exact ⟨[], by rw [← h.2]; simp⟩
        rw [h2] at hx
        simp only at hx
        obtain ⟨e, h3⟩ | ⟨⟨code', rd3⟩, h3⟩ :=
          error_or_ok (ReadExceptionsTable env code env.has_exceptions_table_default rd2)
        · rw [h3] at hx
          simp only at hx
          subst hx
          rcases hls with h | ⟨e', h⟩
          · simp at h
          · simp only [Except.error.injEq, Prod.mk.injEq] at h
            exact ⟨[(pool.ObjectAt closure_index, code)], by rw [← h.2]⟩
        rw [h3] at hx
        simp only [List.dropLast_concat] at hx
        subst hx
        rcases hls with h | ⟨e', h⟩
        · obtain ⟨more, hmore⟩ := (ih _).1 ls' h
          exact ⟨(pool.ObjectAt closure_index, code') :: more, by rw [hmore]; simp⟩
        · obtain ⟨more, hmore⟩ := (ih _).2 e' ls' h
          exact ⟨(pool.ObjectAt closure_index, code') :: more, by rw [hmore]; simp⟩
      · rw [if_neg hlt] at hx
        subst hx
        rcases hls with h | ⟨e', h⟩
        · simp at h
        · simp only [Except.error.injEq, Prod.mk.injEq] at h
          exact ⟨[], by rw [← h.2]; simp⟩
    exact ⟨fun ls' h => key _ h ls' (Or.inl rfl), fun e ls' h => key _ h ls' (Or.inr ⟨e, rfl⟩)⟩

theorem ReadExceptionsTable_same_code (env : Env σ) (bytecode bytecode' : Code)
    (has_exceptions_table : Bool) (rd rd' : σ)
    (h : ReadExceptionsTable env bytecode has_exceptions_table rd = .ok (bytecode', rd')) :
    bytecode'.data = bytecode.data ∧ bytecode'.size = bytecode.size ∧
      bytecode'.object_pool = bytecode.object_pool := by
  cases has_exceptions_table with
  | false =>
    rw [ReadExceptionsTable_absent] at h
    simp only [Except.ok.injEq, Prod.mk.injEq] at h
    rw [← h.1]
    exact ⟨rfl, rfl, rfl⟩
  | true =>
    obtain ⟨n, rd1, bs, _, _, _, rfl⟩ := (ReadExceptionsTable_ok_iff env bytecode bytecode' rd rd').1 h
    exact ⟨rfl, rfl, rfl⟩

theorem ReadMetadata_error_attached (env : Env σ) (function : Obj)
    (attached : List (Obj × Code)) (deopt_id flags N : Nat) (rd0 rd1 rd2 : σ) (r : Int)
    (st : DecodeState σ) (bytecode : Code) (e : DecodeError) (ls : LoadState σ)
    (hoff : 0 ≤ env.GetNextMetadataPayloadOffset function)
    (hflags : env.ReadUInt (env.metadata_payloads
      (env.GetNextMetadataPayloadOffset function).toNat) = .ok (flags, rd0))
    (hN : env.ReadListLength rd0 = .ok (N, rd1))
    (hpool : ReadPoolEntries env function function [] ⟨rd1, ObjectPool.New N, 0, []⟩ 0 =
      .ok (r, st))
    (hbc : ReadBytecode env st.pool st.reader = .ok (bytecode, rd2))
    (h : ReadMetadata env function attached deopt_id = .error (e, ls)) :
    ∃ (code : Code) (more : List (Obj × Code)),
      ls.attached = attached ++ (function, code) :: more ∧
      code.data = bytecode.data ∧ code.size = bytecode.size ∧
      code.object_pool = bytecode.object_pool ∧
      (∀ e', ReadExceptionsTable env bytecode (flags.testBit 0) rd2 = .error e' →
        e = e' ∧ code = bytecode ∧ more = []) := by
  have hoff' : ¬ env.GetNextMetadataPayloadOffset function < 0 := by omega
  simp only [ReadMetadata, hoff', if_false, hflags, hN, hpool, hbc, kHasExceptionsTableFlag_test,
    kHasNullableFieldsFlag_test, kHasClosuresFlag_test, List.dropLast_concat, List.nil_append]
    at h
  obtain ⟨e0, hexc⟩ | ⟨⟨bytecode', rd3⟩, hexc⟩ :=
    error_or_ok (ReadExceptionsTable env bytecode (flags.testBit 0) rd2)
  · rw [hexc] at h
    simp only [Except.error.injEq, Prod.mk.injEq] at h
    obtain ⟨rfl, rfl⟩ := h
    refine ⟨bytecode, [], rfl, rfl, rfl, rfl, ?_⟩
    intro e' he'
    rw [hexc] at he'
    simp only [Except.error.injEq] at he'
    exact ⟨he', rfl, rfl⟩
  rw [hexc] at h
  simp only at h
  obtain ⟨hd, hs, hp⟩ := ReadExceptionsTable_same_code env bytecode bytecode' _ rd2 rd3 hexc
  have hno' : ∀ (more : List (Obj × Code)) (e' : DecodeError),
      ReadExceptionsTable env bytecode (flags.testBit 0) rd2 = .error e' →
      e = e' ∧ bytecode' = bytecode ∧ more = [] := by
    intro more e' he'
    rw [hexc] at he'
    simp at he'
  have hclos : ∀ (ls0 : LoadState σ), ls0.attached = attached ++ [(function, bytecode')] →
      (if flags.testBit 2 = true then
        match env.ReadListLength ls0.dec.reader with
        | Except.error e => Except.error (e, ls0)
        | Except.ok (num_closures, rd) =>
          Except.map some (ReadClosures env st.pool N num_closures
            ⟨⟨rd, ls0.dec.pool, ls0.dec.deopt_id, ls0.dec.trace⟩, ls0.attached,
              ls0.recorded_stores⟩)
      else Except.ok (some ls0)) = .error (e, ls) →
      ∃ more, ls.attached = attached ++ (function, bytecode') :: more := by
    intro ls0 hls0 hc
    by_cases h2 : flags.testBit 2 = true
    · rw [if_pos h2] at hc
      obtain ⟨e1, hnc⟩ | ⟨⟨num_closures, rd4⟩, hnc⟩ := error_or_ok (env.ReadListLength ls0.dec.reader)
      · rw [hnc] at hc
        simp only [Except.error.injEq, Prod.mk.injEq] at hc
        exact ⟨[], by rw [← hc.2, hls0]⟩
      · rw [hnc] at hc
        simp only at hc
        obtain ⟨e1, hcl⟩ | ⟨ls1, hcl⟩ := error_or_ok (ReadClosures env st.pool N num_closures
            ⟨⟨rd4, ls0.dec.pool, ls0.dec.deopt_id, ls0.dec.trace⟩, ls0.attached,
              ls0.recorded_stores⟩)
        · rw [hcl] at hc
          simp only [Except.map, Except.error.injEq] at hc
          rw [hc] at hcl
          obtain ⟨more, hmore⟩ := (ReadClosures_attached env st.pool N num_closures _).2 e ls hcl
          exact ⟨more, by rw [hmore]; simp [hls0]⟩
        · rw [hcl] at hc
          simp [Except.map] at hc
    · rw [if_neg h2] at hc
      simp at hc
  have fin : (∃ more, ls.attached = attached ++ (function, bytecode') :: more) →
      ∃ (code : Code) (more : List (Obj × Code)),
        ls.attached = attached ++ (function, code) :: more ∧
        code.data = bytecode.data ∧ code.size = bytecode.size ∧
        code.object_pool = bytecode.object_pool ∧
        (∀ e', ReadExceptionsTable env bytecode (flags.testBit 0) rd2 = .error e' →
          e = e' ∧ code = bytecode ∧ more = []) := by
    rintro ⟨more, hmore⟩
    exact ⟨bytecode', more, hmore, hd, hs, hp, hno' more⟩
  apply fin
  by_cases h1 : flags.testBit 1 = true
  · rw [if_pos h1] at h
    by_cases hgen : env.IsGenerativeConstructor function = true
    · rw [if_pos hgen] at h
      obtain ⟨e1, hnf⟩ | ⟨⟨num_fields, rd3'⟩, hnf⟩ := error_or_ok (env.ReadListLength rd3)
      · rw [hnf] at h
        simp only [Except.error.injEq, Prod.mk.injEq] at h
        exact ⟨[], by rw [← h.2]⟩
      rw [hnf] at h
      simp only at h
      obtain ⟨e1, hfs⟩ | ⟨⟨fields, rd4⟩, hfs⟩ :=
        error_or_ok (ReadNullableFields env num_fields rd3')
      · rw [hfs] at h
        simp only [Except.error.injEq, Prod.mk.injEq] at h
        exact ⟨[], by rw [← h.2]⟩
      rw [hfs] at h
      simp only at h
      exact hclos _ rfl h
    · rw [if_neg hgen] at h
      simp only [Except.error.injEq, Prod.mk.injEq] at h
      exact ⟨[], by rw [← h.2]⟩
  · rw [if_neg h1] at h
    simp only at h
    exact hclos _ rfl h

/-- C15 (amended). When `ReadFunctionBytecode` returns an error although the
flags, the pool and the instruction bytes of the function could be read, the
first call of `AttachBytecode` it has made is the one that attaches to the
function the code object over these instruction bytes, and nothing detaches
it: when the failure is in the exception table of the function, that code
object is the only one attached and has no descriptors and no handlers. -/
theorem ReadFunctionBytecode_failure_after_attach (env : Env σ) (function : Obj)
    (deopt_id flags N : Nat) (rd0 rd1 rd2 : σ) (r : Int) (st : DecodeState σ) (bytecode : Code)
    (e : DecodeError)
    (hmode : env.FLAG_precompiled_mode = false)
    (hoff : 0 ≤ env.GetNextMetadataPayloadOffset function)
    (hflags : env.ReadUInt (env.metadata_payloads
      (env.GetNextMetadataPayloadOffset function).toNat) = .ok (flags, rd0))
    (hN : env.ReadListLength rd0 = .ok (N, rd1))
    (hpool : ReadPoolEntries env function function [] ⟨rd1, ObjectPool.New N, 0, []⟩ 0 =
      .ok (r, st))
    (hbc : ReadBytecode env st.pool st.reader = .ok (bytecode, rd2))
    (hfail : (ReadFunctionBytecode env function false none deopt_id).error = some e) :
    ∃ (code : Code) (more : List (Obj × Code)),
      (ReadFunctionBytecode env function false none deopt_id).attached =
        (function, code) :: more ∧
      code.data = bytecode.data ∧ code.size = bytecode.size ∧
      code.object_pool = bytecode.object_pool ∧
      (∀ e', ReadExceptionsTable env bytecode (flags.testBit 0) rd2 = .error e' →
        e = e' ∧ more = [] ∧ code.pc_descriptors = none ∧ code.exception_handlers = none) := by
  have hnone : bytecode.pc_descriptors = none ∧ bytecode.exception_handlers = none := by
    obtain ⟨_, _, _, _, hb, _⟩ := (ReadBytecode_ok_iff env st.pool st.reader rd2 bytecode).1 hbc
    rw [hb]
    exact ⟨rfl, rfl⟩
  simp only [ReadFunctionBytecode, hmode, ASSERT, bind, Except.bind, Bool.not_false,
    Option.isNone_none, if_true] at hfail ⊢
  obtain ⟨x, hx⟩ | ⟨o, ho⟩ := error_or_ok (ReadMetadata env function [] deopt_id)
  · obtain ⟨e1, ls⟩ := x
    rw [hx] at hfail ⊢
    simp only [Option.some.injEq] at hfail
    subst hfail
    obtain ⟨code, more, hatt, hd, hs, hp, hexc⟩ := ReadMetadata_error_attached env function []
      deopt_id flags N rd0 rd1 rd2 r st bytecode e1 ls hoff hflags hN hpool hbc hx
    refine ⟨code, more, by simpa using hatt, hd, hs, hp, ?_⟩
    intro e' he'
    obtain ⟨h1, h2, h3⟩ := hexc e' he'
    rw [h2]
    exact ⟨h1, h3, hnone.1, hnone.2⟩
  · rw [ho] at hfail
    cases o <;> simp at hfail

/-- C15 (counterexample). On `noTypesMetadata`, whose exception table has a
region without handled types, and on `badClosureMetadata`, whose closure index
is not below the pool length, `ReadFunctionBytecode` returns the error and the
function is left with its bytecode attached, in the first case without
descriptors and handlers. -/
theorem ReadFunctionBytecode_leaves_bytecode :
    (ReadFunctionBytecode (tokenEnvOn noTypesMetadata) exampleFunction false none 0).error =
      some (.assertFailed .typeCount) ∧
    (ReadFunctionBytecode (tokenEnvOn noTypesMetadata) exampleFunction false none 0).attached =
      [(exampleFunction, ⟨3, 0, ObjectPool.New 0, none, none⟩)] ∧
    (ReadFunctionBytecode (tokenEnvOn badClosureMetadata) exampleFunction false none 0).error =
      some (.assertFailed .closureIndex) ∧
    (ReadFunctionBytecode (tokenEnvOn badClosureMetadata) exampleFunction false none
        0).attached =
      [(exampleFunction, ⟨3, 0, ObjectPool.New 0, some [], some []⟩)] :=
  ⟨rfl, rfl, rfl, rfl⟩

/-- C15 (amended), on `noTypesMetadata`. -/
theorem ReadFunctionBytecode_failure_after_attach_witness :
    (ReadFunctionBytecode (tokenEnvOn noTypesMetadata) exampleFunction false none 0).error =
      some (.assertFailed .typeCount) ∧
    ∃ (code : Code) (more : List (Obj × Code)),
      (ReadFunctionBytecode (tokenEnvOn noTypesMetadata) exampleFunction false none 0).attached =
        (exampleFunction, code) :: more ∧
      code.data = 3 ∧ code.size = 0 ∧ code.object_pool = ObjectPool.New 0 ∧
      (∀ e', ReadExceptionsTable (tokenEnvOn noTypesMetadata)
          ⟨3, 0, ObjectPool.New 0, none, none⟩ (Nat.testBit 1 0) ⟨noTypesMetadata, 3⟩ =
            .error e' →
        DecodeError.assertFailed .typeCount = e' ∧ more = [] ∧ code.pc_descriptors = none ∧
          code.exception_handlers = none) :=
  ⟨rfl, ReadFunctionBytecode_failure_after_attach (tokenEnvOn noTypesMetadata) exampleFunction
    0 1 0 ⟨noTypesMetadata, 1⟩ ⟨noTypesMetadata, 2⟩ ⟨noTypesMetadata, 3⟩ (-1)
    ⟨⟨noTypesMetadata, 2⟩, ObjectPool.New 0, 0, []⟩ ⟨3, 0, ObjectPool.New 0, none, none⟩
    (.assertFailed .typeCount) rfl (by decide) rfl rfl (by rfl) rfl (by rfl)⟩

/-! ## The length of the instructions -/

/-- C16. When the length read by `ReadBytecode` exceeds the number of bytes
that remain in the buffer after it, `ReadBytecode` fails with
`truncatedStream`, reported by the reader; otherwise it returns the code
object over the range that starts at the cursor and has exactly the length
read.  A code object that `ReadBytecode` returns has the length read and ends
at or before the end of the buffer.  When the call that fails is the one made
by `ReadMetadata` for the function itself, `ReadFunctionBytecode` returns
`truncatedStream` and has attached nothing. -/
theorem ReadBytecode_truncated_stream (env : Env σ) (pool : ObjectPool) (rd rd1 : σ)
    (size : Nat) (hsize : env.ReadUInt rd = .ok (size, rd1)) :
    (env.size rd1 - env.offset rd1 < size →
      ReadBytecode env pool rd = .error .truncatedStream) ∧
    (env.offset rd1 ≤ env.size rd1 → size ≤ env.size rd1 - env.offset rd1 →
      ReadBytecode env pool rd =
        .ok (⟨env.offset rd1, size, pool, none, none⟩,
          env.set_offset (env.offset rd1 + size) rd1)) ∧
    (∀ (code : Code) (rd' : σ), ReadBytecode env pool rd = .ok (code, rd') →
      code.data = env.offset rd1 ∧ code.size = size ∧
      code.data + code.size ≤ env.size rd1) ∧
    (∀ (function : Obj) (deopt_id flags N : Nat) (rd0 rdN : σ) (r : Int) (st : DecodeState σ),
      env.FLAG_precompiled_mode = false →
      0 ≤ env.GetNextMetadataPayloadOffset function →
      env.ReadUInt (env.metadata_payloads
        (env.GetNextMetadataPayloadOffset function).toNat) = .ok (flags, rd0) →
      env.ReadListLength rd0 = .ok (N, rdN) →
      ReadPoolEntries env function function [] ⟨rdN, ObjectPool.New N, 0, []⟩ 0 =
        .ok (r, st) →
      st.reader = rd →
      env.size rd1 - env.offset rd1 < size →
      (ReadFunctionBytecode env function false none deopt_id).error =
        some .truncatedStream ∧
      (ReadFunctionBytecode env function false none deopt_id).attached = []) := by
  refine ⟨?_, ?_, ?_, ?_⟩
  · intro hlt
    exact ReadBytecode_eq_truncated env pool rd rd1 size hsize (by omega)
  · intro h1 h2
    exact (ReadBytecode_ok_iff env pool rd _ _).2 ⟨size, rd1, hsize, by omega, rfl, rfl⟩
  · intro code rd' h
    obtain ⟨size', rd1', hp, hle, hcode, _⟩ := (ReadBytecode_ok_iff env pool rd rd' code).1 h
    rw [hsize] at hp
    simp only [Except.ok.injEq, Prod.mk.injEq] at hp
    obtain ⟨rfl, rfl⟩ := hp
    rw [hcode]
    exact ⟨rfl, rfl, hle⟩
  · intro function deopt_id flags N rd0 rdN r st hmode hoff hflags hN hpool hrd hlt
    have hbc : ReadBytecode env st.pool st.reader = .error .truncatedStream := by
      rw [hrd]
      exact ReadBytecode_eq_truncated env st.pool rd rd1 size hsize (by omega)
    have hoff' : ¬ env.GetNextMetadataPayloadOffset function < 0 := by omega
    simp only [ReadFunctionBytecode, hmode, ASSERT, bind, Except.bind, Bool.not_false,
      Option.isNone_none, if_true, ReadMetadata, hoff', if_false, hflags, hN, hpool, hbc]
    refine ⟨?_, ?_⟩ <;> first | rfl | trivial

/-- C16, over `tokenEnv`: a length of 5 at the end of the buffer is refused, a
length of 2 followed by two values is accepted, and the load of
`truncatedMetadata`, whose last value is the length 5, returns
`truncatedStream` with nothing attached. -/
theorem ReadBytecode_truncated_stream_witness :
    ReadBytecode tokenEnv examplePool ⟨[5], 0⟩ = .error .truncatedStream ∧
    ReadBytecode tokenEnv examplePool ⟨[2, 7, 7], 0⟩ =
      .ok (⟨1, 2, examplePool, none, none⟩, ⟨[2, 7, 7], 3⟩) ∧
    (ReadFunctionBytecode (tokenEnvOn truncatedMetadata) exampleFunction false none 0).error =
      some .truncatedStream ∧
    (ReadFunctionBytecode (tokenEnvOn truncatedMetadata) exampleFunction false none
      0).attached = [] :=
  ⟨(ReadBytecode_truncated_stream tokenEnv examplePool ⟨[5], 0⟩ ⟨[5], 1⟩ 5 rfl).1 (by decide),
    (ReadBytecode_truncated_stream tokenEnv examplePool ⟨[2, 7, 7], 0⟩ ⟨[2, 7, 7], 1⟩ 2
      rfl).2.1 (by decide) (by decide),
    (ReadBytecode_truncated_stream (tokenEnvOn truncatedMetadata) examplePool
      ⟨truncatedMetadata, 2⟩ ⟨truncatedMetadata, 3⟩ 5 rfl).2.2.2 exampleFunction 0 0 0
      ⟨truncatedMetadata, 1⟩ ⟨truncatedMetadata, 2⟩ (-1)
      ⟨⟨truncatedMetadata, 2⟩, ObjectPool.New 0, 0, []⟩ rfl (by decide) rfl rfl (by rfl) rfl
      (by decide)⟩

/-! ## Instance call sites -/

theorem kFlagDynamic_test (flags : Nat) : (flags &&& kFlagDynamic != 0) = flags.testBit 2 :=
  and_two_pow_ne_zero flags 2

theorem ReadPoolEntries_kICData_eq (env : Env σ) (function : Obj) (pool : ObjectPool) (i : Nat)
    (rd rd1 rd2 rd3 : σ) (deopt flags arg_desc_index : Nat) (name : String)
    (hflags : env.ReadByte rd = .ok (flags, rd1))
    (hname : ReadICDataName env (flags &&& kInvocationKindMask) rd1 = .ok (name, rd2))
    (hidx : env.ReadUInt rd2 = .ok (arg_desc_index, rd3))
    (hlt : arg_desc_index < i) :
    ReadPoolEntries_kICData env function pool i rd deopt =
      if (flags &&& kInvocationKindMask = InvocationKind.method ∧
            (env.RecognizeTokenKind name = true ∨ name = env.simpleInstanceOf)) ∧
          2 < ArgumentsDescriptor_Count env (pool.ObjectAt arg_desc_index) then
        .error (.assertFailed .argumentCount)
      else
        .ok (Obj.icData function
          (if flags.testBit 2 = true ∧ flags &&& kInvocationKindMask ≠ InvocationKind.getter ∧
              env.FLAG_precompiled_mode = false ∧ env.should_emit_strong_mode_checks = true ∧
              name ≠ env.Symbols_EqualOperator ∧ name ≠ env.Symbols_Call then
            env.CreateDynamicInvocationForwarderName name
          else name)
          (pool.ObjectAt arg_desc_index) (env.GetNextDeoptId deopt).1
          (if flags &&& kInvocationKindMask = InvocationKind.method ∧
              (env.RecognizeTokenKind name = true ∨ name = env.simpleInstanceOf) then
            ArgumentsDescriptor_Count env (pool.ObjectAt arg_desc_index)
          else 1)
          .kInstance [], rd3, (env.GetNextDeoptId deopt).2) := by
  simp only [ReadPoolEntries_kICData, bind, Except.bind, hflags, hname, hidx, ASSERT, hlt,
    decide_True, if_true, kFlagDynamic_test]
  by_cases hrec : flags &&& kInvocationKindMask = InvocationKind.method ∧
      (env.RecognizeTokenKind name = true ∨ name = env.simpleInstanceOf)
  · by_cases hcount : 2 < ArgumentsDescriptor_Count env (pool.ObjectAt arg_desc_index)
    · have hle : ¬ ArgumentsDescriptor_Count env (pool.ObjectAt arg_desc_index) ≤ 2 := by omega
      simp only [hrec, hcount, hle, and_self, if_true, decide_False]
      rfl
    · have hle : ArgumentsDescriptor_Count env (pool.ObjectAt arg_desc_index) ≤ 2 := by omega
      simp only [hrec, hcount, hle, and_self, and_false, if_true, if_false, decide_True, pure,
        Except.pure]
  · simp only [hrec, false_and, if_false, pure, Except.pure]

/-- C18. For a `kICData` entry whose reads succeed and whose descriptor index
is below `i`: when the kind is `method` and the name is a recognized token or
`_simpleInstanceOf`, an argument count of the descriptor above 2 ends the
decode at `ASSERT(argument_count <= 2)`; and whenever the entry is decoded, the
number of checked arguments of the call site is that argument count in this
case and 1 in every other case, hence at most 2. -/
theorem ReadPoolEntries_kICData_checked_count (env : Env σ) (function : Obj)
    (pool : ObjectPool) (i : Nat) (rd rd1 rd2 rd3 : σ) (deopt flags arg_desc_index : Nat)
    (name : String)
    (hflags : env.ReadByte rd = .ok (flags, rd1))
    (hname : ReadICDataName env (flags &&& kInvocationKindMask) rd1 = .ok (name, rd2))
    (hidx : env.ReadUInt rd2 = .ok (arg_desc_index, rd3))
    (hlt : arg_desc_index < i) :
    (flags &&& kInvocationKindMask = InvocationKind.method →
      env.RecognizeTokenKind name = true ∨ name = env.simpleInstanceOf →
      2 < ArgumentsDescriptor_Count env (pool.ObjectAt arg_desc_index) →
      ReadPoolEntries_kICData env function pool i rd deopt =
        .error (.assertFailed .argumentCount)) ∧
    (∀ (obj : Obj) (rd' : σ) (deopt' : Nat),
      ReadPoolEntries_kICData env function pool i rd deopt = .ok (obj, rd', deopt') →
      ∃ (stored_name : String) (id : Nat) (checked_argument_count : Int),
        obj = Obj.icData function stored_name (pool.ObjectAt arg_desc_index) id
          checked_argument_count .kInstance [] ∧
        (flags &&& kInvocationKindMask = InvocationKind.method ∧
            (env.RecognizeTokenKind name = true ∨ name = env.simpleInstanceOf) →
          checked_argument_count =
            ArgumentsDescriptor_Count env (pool.ObjectAt arg_desc_index)) ∧
        (¬ (flags &&& kInvocationKindMask = InvocationKind.method ∧
            (env.RecognizeTokenKind name = true ∨ name = env.simpleInstanceOf)) →
          checked_argument_count = 1) ∧
        checked_argument_count ≤ 2) := by
  have heq := ReadPoolEntries_kICData_eq env function pool i rd rd1 rd2 rd3 deopt flags
    arg_desc_index name hflags hname hidx hlt
  constructor
  · intro hk hn hc
    rw [heq, if_pos ⟨⟨hk, hn⟩, hc⟩]
  · intro obj rd' deopt' h
    rw [heq] at h
    split at h
    · simp at h
    · rename_i hnot
      simp only [Except.ok.injEq, Prod.mk.injEq] at h
      obtain ⟨rfl, _, _⟩ := h
      refine ⟨_, _, _, rfl, ?_, ?_, ?_⟩
      · intro hrec
        rw [if_pos hrec]
      · intro hrec
        rw [if_neg hrec]
      · by_cases hrec : flags &&& kInvocationKindMask = InvocationKind.method ∧
            (env.RecognizeTokenKind name = true ∨ name = env.simpleInstanceOf)
        · rw [if_pos hrec]
          have : ¬ 2 < ArgumentsDescriptor_Count env (pool.ObjectAt arg_desc_index) :=
            fun hc => hnot ⟨hrec, hc⟩
          omega
        · rw [if_neg hrec]
          decide

/-- C19. For a `kICData` entry that is decoded, with flags `flags` and name
`name` read: the name stored in the call site is the dynamic invocation
forwarder name of `name` when bit 2 of the flags is set, the kind is not
`getter`, `FLAG_precompiled_mode` is off, strong mode checks are emitted and
`name` is neither `Symbols::EqualOperator()` nor `Symbols::Call()`; in every
other case it is `name` itself, in particular when `name` is one of these two
symbols, whatever the flags. -/
theorem ReadPoolEntries_kICData_name (env : Env σ) (function : Obj)
    (pool : ObjectPool) (i : Nat) (rd rd1 rd2 rd3 rd' : σ) (deopt deopt' flags arg_desc_index : Nat)
    (name : String) (obj : Obj)
    (hflags : env.ReadByte rd = .ok (flags, rd1))
    (hname : ReadICDataName env (flags &&& kInvocationKindMask) rd1 = .ok (name, rd2))
    (hidx : env.ReadUInt rd2 = .ok (arg_desc_index, rd3))
    (h : ReadPoolEntries_kICData env function pool i rd deopt = .ok (obj, rd', deopt')) :
    ∃ (stored_name : String) (id : Nat) (checked_argument_count : Int),
      obj = Obj.icData function stored_name (pool.ObjectAt arg_desc_index) id
        checked_argument_count .kInstance [] ∧
      (flags.testBit 2 = true ∧ flags &&& kInvocationKindMask ≠ InvocationKind.getter ∧
          env.FLAG_precompiled_mode = false ∧ env.should_emit_strong_mode_checks = true ∧
          name ≠ env.Symbols_EqualOperator ∧ name ≠ env.Symbols_Call →
        stored_name = env.CreateDynamicInvocationForwarderName name) ∧
      (¬ (flags.testBit 2 = true ∧ flags &&& kInvocationKindMask ≠ InvocationKind.getter ∧
          env.FLAG_precompiled_mode = false ∧ env.should_emit_strong_mode_checks = true ∧
          name ≠ env.Symbols_EqualOperator ∧ name ≠ env.Symbols_Call) →
        stored_name = name) ∧
      (name = env.Symbols_EqualOperator ∨ name = env.Symbols_Call → stored_name = name) := by
  have hlt : arg_desc_index < i := by
    by_contra hge
    simp [ReadPoolEntries_kICData, bind, Except.bind, hflags, hname, hidx, ASSERT, hge] at h
  rw [ReadPoolEntries_kICData_eq env function pool i rd rd1 rd2 rd3 deopt flags
    arg_desc_index name hflags hname hidx hlt] at h
  split at h
  · simp at h
  · simp only [Except.ok.injEq, Prod.mk.injEq] at h
    obtain ⟨rfl, _, _⟩ := h
    refine ⟨_, _, _, rfl, ?_, ?_, ?_⟩
    · intro hc
      rw [if_pos hc]
    · intro hc
      rw [if_neg hc]
    · intro hn
      rw [if_neg]
      rintro ⟨_, _, _, _, h1, h2⟩
      rcases hn with hn | hn
      · exact h1 hn
      · exact h2 hn

/-- C18, over `tokenEnv`, whose recognized tokens are the names of one letter:
a method call of such a name with a descriptor of three arguments is rejected,
with a descriptor of two arguments it has two checked arguments; a method call
of another name and a getter call have one checked argument, whatever the
descriptor. -/
theorem ReadPoolEntries_kICData_checked_count_witness :
    ReadPoolEntries_kICData tokenEnv exampleFunction descriptorPool 3 ⟨[0, 1, 2], 0⟩ 0 =
      .error (.assertFailed .argumentCount) ∧
    ReadPoolEntries_kICData tokenEnv exampleFunction descriptorPool 3 ⟨[0, 1, 1], 0⟩ 0 =
      .ok (Obj.icData exampleFunction (tokenName 'm' 1) (Obj.argumentsDescriptor 0 2 []) 0 2
        .kInstance [], ⟨[0, 1, 1], 3⟩, 1) ∧
    ReadPoolEntries_kICData tokenEnv exampleFunction descriptorPool 3 ⟨[0, 3, 2], 0⟩ 0 =
      .ok (Obj.icData exampleFunction (tokenName 'm' 3) (Obj.argumentsDescriptor 0 3 []) 0 1
        .kInstance [], ⟨[0, 3, 2], 3⟩, 1) ∧
    ReadPoolEntries_kICData tokenEnv exampleFunction descriptorPool 3 ⟨[1, 1, 2], 0⟩ 0 =
      .ok (Obj.icData exampleFunction (tokenName 'g' 1) (Obj.argumentsDescriptor 0 3 []) 0 1
        .kInstance [], ⟨[1, 1, 2], 3⟩, 1) ∧
    ∃ (stored_name : String) (id : Nat) (checked_argument_count : Int),
      Obj.icData exampleFunction (tokenName 'm' 1) (Obj.argumentsDescriptor 0 2 []) 0 2
          .kInstance [] =
        Obj.icData exampleFunction stored_name (descriptorPool.ObjectAt 1) id
          checked_argument_count .kInstance [] ∧
      (0 &&& kInvocationKindMask = InvocationKind.method ∧
          (tokenEnv.RecognizeTokenKind (tokenName 'm' 1) = true ∨
            tokenName 'm' 1 = tokenEnv.simpleInstanceOf) →
        checked_argument_count =
          ArgumentsDescriptor_Count tokenEnv (descriptorPool.ObjectAt 1)) ∧
      (¬ (0 &&& kInvocationKindMask = InvocationKind.method ∧
          (tokenEnv.RecognizeTokenKind (tokenName 'm' 1) = true ∨
            tokenName 'm' 1 = tokenEnv.simpleInstanceOf)) →
        checked_argument_count = 1) ∧
      checked_argument_count ≤ 2 :=
  ⟨(ReadPoolEntries_kICData_checked_count tokenEnv exampleFunction descriptorPool 3
      ⟨[0, 1, 2], 0⟩ ⟨[0, 1, 2], 1⟩ ⟨[0, 1, 2], 2⟩ ⟨[0, 1, 2], 3⟩ 0 0 2 (tokenName 'm' 1)
      rfl rfl rfl (by decide)).1 rfl (Or.inl rfl) (by decide),
    rfl, rfl, rfl,
    (ReadPoolEntries_kICData_checked_count tokenEnv exampleFunction descriptorPool 3
      ⟨[0, 1, 1], 0⟩ ⟨[0, 1, 1], 1⟩ ⟨[0, 1, 1], 2⟩ ⟨[0, 1, 1], 3⟩ 0 0 1 (tokenName 'm' 1)
      rfl rfl rfl (by decide)).2 _ _ _ rfl⟩

/-- C19, over `tokenEnv`, where `==` is the name of two letters, `call` the
name of four letters and the forwarder name adds the letter `d`, precompiled
mode is off and strong mode checks are emitted: with the dynamic flag set, the
names `==` and `call` are stored as read and a method name of three letters is
replaced; a getter name is stored as read, and so is a method name when the
flag is not set. -/
theorem ReadPoolEntries_kICData_name_witness :
    ReadPoolEntries_kICData tokenEnv exampleFunction descriptorPool 3 ⟨[4, 2, 1], 0⟩ 0 =
      .ok (Obj.icData exampleFunction (tokenName 'm' 2) (Obj.argumentsDescriptor 0 2 []) 0 1
        .kInstance [], ⟨[4, 2, 1], 3⟩, 1) ∧
    ReadPoolEntries_kICData tokenEnv exampleFunction descriptorPool 3 ⟨[4, 4, 1], 0⟩ 0 =
      .ok (Obj.icData exampleFunction (tokenName 'm' 4) (Obj.argumentsDescriptor 0 2 []) 0 1
        .kInstance [], ⟨[4, 4, 1], 3⟩, 1) ∧
    ReadPoolEntries_kICData tokenEnv exampleFunction descriptorPool 3 ⟨[4, 3, 1], 0⟩ 0 =
      .ok (Obj.icData exampleFunction (String.mk ('d' :: (tokenName 'm' 3).data))
        (Obj.argumentsDescriptor 0 2 []) 0 1 .kInstance [], ⟨[4, 3, 1], 3⟩, 1) ∧
    ReadPoolEntries_kICData tokenEnv exampleFunction descriptorPool 3 ⟨[5, 3, 1], 0⟩ 0 =
      .ok (Obj.icData exampleFunction (tokenName 'g' 3) (Obj.argumentsDescriptor 0 2 []) 0 1
        .kInstance [], ⟨[5, 3, 1], 3⟩, 1) ∧
    ReadPoolEntries_kICData tokenEnv exampleFunction descriptorPool 3 ⟨[0, 3, 1], 0⟩ 0 =
      .ok (Obj.icData exampleFunction (tokenName 'm' 3) (Obj.argumentsDescriptor 0 2 []) 0 1
        .kInstance [], ⟨[0, 3, 1], 3⟩, 1) ∧
    ∃ (stored_name : String) (id : Nat) (checked_argument_count : Int),
      Obj.icData exampleFunction (tokenName 'm' 2) (Obj.argumentsDescriptor 0 2 []) 0 1
          .kInstance [] =
        Obj.icData exampleFunction stored_name (descriptorPool.ObjectAt 1) id
          checked_argument_count .kInstance [] ∧
      (Nat.testBit 4 2 = true ∧ 4 &&& kInvocationKindMask ≠ InvocationKind.getter ∧
          tokenEnv.FLAG_precompiled_mode = false ∧
          tokenEnv.should_emit_strong_mode_checks = true ∧
          tokenName 'm' 2 ≠ tokenEnv.Symbols_EqualOperator ∧
          tokenName 'm' 2 ≠ tokenEnv.Symbols_Call →
        stored_name = tokenEnv.CreateDynamicInvocationForwarderName (tokenName 'm' 2)) ∧
      (¬ (Nat.testBit 4 2 = true ∧ 4 &&& kInvocationKindMask ≠ InvocationKind.getter ∧
          tokenEnv.FLAG_precompiled_mode = false ∧
          tokenEnv.should_emit_strong_mode_checks = true ∧
          tokenName 'm' 2 ≠ tokenEnv.Symbols_EqualOperator ∧
          tokenName 'm' 2 ≠ tokenEnv.Symbols_Call) →
        stored_name = tokenName 'm' 2) ∧
      (tokenName 'm' 2 = tokenEnv.Symbols_EqualOperator ∨
          tokenName 'm' 2 = tokenEnv.Symbols_Call →
        stored_name = tokenName 'm' 2) :=
  ⟨rfl, rfl, rfl, rfl, rfl,
    ReadPoolEntries_kICData_name tokenEnv exampleFunction descriptorPool 3
      ⟨[4, 2, 1], 0⟩ ⟨[4, 2, 1], 1⟩ ⟨[4, 2, 1], 2⟩ ⟨[4, 2, 1], 3⟩ ⟨[4, 2, 1], 3⟩ 0 1 4 1
      (tokenName 'm' 2) _ rfl rfl rfl rfl⟩

/-! ## Native entries -/

theorem NativeEntry_kind_of_mem (k : MethodRecognizerKind) (hk : k ∈ NativeEntry_cases) :
    NativeEntry_kind k = k ∧ k ≠ .kUnknown := by
  cases k <;> simp [NativeEntry_cases] at hk <;> simp [NativeEntry_kind]

theorem NativeEntry_kind_of_not_mem (k : MethodRecognizerKind) (hk : k ∉ NativeEntry_cases) :
    NativeEntry_kind k = .kUnknown := by
  cases k <;> simp [NativeEntry_cases] at hk <;> rfl

/-- C20. The `switch` of `NativeEntry` has 21 case labels.  For a function
recognized as one of them, `NativeEntry` returns the entry data with that kind,
no trampoline, no native function and argc tag 0, for every resolver and every
value of `FLAG_link_natives_lazily`.  For a function recognized as anything
else, or not recognized, the entry data it returns has kind `kUnknown`: with
lazy linking it has no trampoline and no native function, without it the
native function is the one the resolver finds, and `NativeEntry` fails at
`ASSERT(native_function != NULL)` when the resolver finds none; the argc tag
is the one computed for the function. -/
theorem NativeEntry_recognized_kind (env : Env σ) (function : Obj) (external_name : String) :
    NativeEntry_cases.length = 21 ∧
    (env.RecognizeKind function ∈ NativeEntry_cases →
      NativeEntry env function external_name =
        .ok (Obj.nativeEntryData (env.RecognizeKind function) none none 0)) ∧
    (env.RecognizeKind function ∉ NativeEntry_cases →
      (∀ obj, NativeEntry env function external_name = .ok obj →
        ∃ trampoline native_function,
          obj = Obj.nativeEntryData .kUnknown trampoline native_function
            (env.ComputeArgcTag function)) ∧
      (env.FLAG_link_natives_lazily = true →
        NativeEntry env function external_name =
          .ok (Obj.nativeEntryData .kUnknown none none (env.ComputeArgcTag function))) ∧
      (env.FLAG_link_natives_lazily = false →
        (env.ResolveNative (env.ClassLibrary (env.FunctionOwner function)) external_name
            (env.ParameterCountForResolution function)).1 = none →
        NativeEntry env function external_name =
          .error (.assertFailed .nativeFunctionResolved))) := by
  refine ⟨rfl, ?_, ?_⟩
  · intro hk
    obtain ⟨h1, h2⟩ := NativeEntry_kind_of_mem _ hk
    simp [NativeEntry, h1, h2, pure, Except.pure]
  · intro hk
    have h1 := NativeEntry_kind_of_not_mem _ hk
    refine ⟨?_, ?_, ?_⟩
    · intro obj h
      cases hlazy : env.FLAG_link_natives_lazily
      · simp only [NativeEntry, h1, hlazy, if_true, bind, Except.bind] at h
        split at h
        · simp at h
        · simp only [pure, Except.pure, Except.ok.injEq] at h
          exact ⟨_, _, h.symm⟩
      · simp only [NativeEntry, h1, hlazy, if_true, pure, Except.pure] at h
        simp at h
        exact ⟨_, _, h.symm⟩
    · intro hlazy
      simp [NativeEntry, h1, hlazy, pure, Except.pure]
    · intro hlazy hnone
      simp [NativeEntry, h1, hlazy, hnone, ASSERT, bind, Except.bind]

/-- C20, over `tokenEnv`, which links natives eagerly and whose resolver finds
every native with a non-empty name: function 1 is recognized as `kObjectEquals`
and keeps that kind without trampoline; function 2 is recognized as a kind that
is not a case label and function 0 is not recognized: both get kind `kUnknown`
and a resolved native, and fail when the name is empty. -/
theorem NativeEntry_recognized_kind_witness :
    NativeEntry tokenEnv (Obj.foreign .function 1) (tokenName 'n' 0) =
      .ok (Obj.nativeEntryData .kObjectEquals none none 0) ∧
    NativeEntry tokenEnv (Obj.foreign .function 2) (tokenName 'n' 1) =
      .ok (Obj.nativeEntryData .kUnknown (some .AutoScopeNativeCallWrapper) (some 1) 0) ∧
    NativeEntry tokenEnv (Obj.foreign .function 0) (tokenName 'n' 1) =
      .ok (Obj.nativeEntryData .kUnknown (some .AutoScopeNativeCallWrapper) (some 1) 0) ∧
    NativeEntry tokenEnv (Obj.foreign .function 2) (tokenName 'n' 0) =
      .error (.assertFailed .nativeFunctionResolved) ∧
    ∃ trampoline native_function,
      Obj.nativeEntryData .kUnknown (some .AutoScopeNativeCallWrapper) (some 1) 0 =
        Obj.nativeEntryData .kUnknown trampoline native_function
          (tokenEnv.ComputeArgcTag (Obj.foreign .function 2)) :=
  ⟨(NativeEntry_recognized_kind tokenEnv (Obj.foreign .function 1) (tokenName 'n' 0)).2.1 (by decide),
    rfl, rfl,
    ((NativeEntry_recognized_kind tokenEnv (Obj.foreign .function 2) (tokenName 'n' 0)).2.2 (by decide)).2.2
      rfl rfl,
    ((NativeEntry_recognized_kind tokenEnv (Obj.foreign .function 2) (tokenName 'n' 1)).2.2 (by decide)).1
      _ rfl⟩


/-! ## Native entries without a case label -/

theorem NativeEntry_unknown_eq (env : Env σ) (function : Obj) (external_name : String)
    (hkind : env.RecognizeKind function ∉ NativeEntry_cases) :
    NativeEntry env function external_name =
      if env.FLAG_link_natives_lazily = false then
        match (env.ResolveNative (env.ClassLibrary (env.FunctionOwner function)) external_name
            (env.ParameterCountForResolution function)).1 with
        | none => .error (.assertFailed .nativeFunctionResolved)
        | some native_function =>
          .ok (Obj.nativeEntryData .kUnknown
            (some (if env.IsBootstrapResolver (env.ClassLibrary (env.FunctionOwner function)) then
                Trampoline.BootstrapNativeCallWrapper
              else if (env.ResolveNative (env.ClassLibrary (env.FunctionOwner function))
                  external_name (env.ParameterCountForResolution function)).2 then
                Trampoline.AutoScopeNativeCallWrapper
              else Trampoline.NoScopeNativeCallWrapper))
            (some native_function) (env.ComputeArgcTag function))
      else .ok (Obj.nativeEntryData .kUnknown none none (env.ComputeArgcTag function)) := by
  have h1 := NativeEntry_kind_of_not_mem _ hkind
  cases hlazy : env.FLAG_link_natives_lazily
  · simp only [NativeEntry, h1, hlazy, if_true, bind, Except.bind, ASSERT]
    cases hres : (env.ResolveNative (env.ClassLibrary (env.FunctionOwner function)) external_name
        (env.ParameterCountForResolution function)).1 with
    | none => simp
    | some f => simp [pure, Except.pure]
  · simp [NativeEntry, h1, hlazy, pure, Except.pure]

/-- C21. For a function whose recognized kind is not a case label of the
`switch`, with `FLAG_link_natives_lazily` set, `NativeEntry` returns the entry
data with kind `kUnknown`, no trampoline, no native function, and the argc tag
computed for the function; this holds whatever the resolver is, also for one
that finds nothing. -/
theorem NativeEntry_lazy (env : Env σ) (function : Obj) (external_name : String)
    (hkind : env.RecognizeKind function ∉ NativeEntry_cases)
    (hlazy : env.FLAG_link_natives_lazily = true) :
    NativeEntry env function external_name =
      .ok (Obj.nativeEntryData .kUnknown none none (env.ComputeArgcTag function)) ∧
    ∀ resolver : Obj → String → Int → Option Nat × Bool,
      NativeEntry { env with ResolveNative := resolver } function external_name =
        .ok (Obj.nativeEntryData .kUnknown none none (env.ComputeArgcTag function)) := by
  constructor
  · rw [NativeEntry_unknown_eq env function external_name hkind]
    simp [hlazy]
  · intro resolver
    rw [NativeEntry_unknown_eq { env with ResolveNative := resolver } function external_name
      hkind]
    simp [hlazy]

/-- C22. For a function whose recognized kind is not a case label of the
`switch`, without lazy linking, when the resolver finds `native_function` and
reports `is_auto_scope`: `NativeEntry` returns the entry data with kind
`kUnknown`, that native function, the argc tag computed for the function, and
as trampoline the bootstrap wrapper when the resolver of the library of the
owner is the bootstrap resolver, whatever `is_auto_scope` is, else the
auto-scope wrapper when `is_auto_scope` holds, else the no-scope wrapper. -/
theorem NativeEntry_trampoline (env : Env σ) (function : Obj) (external_name : String)
    (native_function : Nat) (is_auto_scope : Bool)
    (hkind : env.RecognizeKind function ∉ NativeEntry_cases)
    (hlazy : env.FLAG_link_natives_lazily = false)
    (hres : env.ResolveNative (env.ClassLibrary (env.FunctionOwner function)) external_name
      (env.ParameterCountForResolution function) = (some native_function, is_auto_scope)) :
    (env.IsBootstrapResolver (env.ClassLibrary (env.FunctionOwner function)) = true →
      NativeEntry env function external_name =
        .ok (Obj.nativeEntryData .kUnknown (some .BootstrapNativeCallWrapper)
          (some native_function) (env.ComputeArgcTag function))) ∧
    (env.IsBootstrapResolver (env.ClassLibrary (env.FunctionOwner function)) = false →
      is_auto_scope = true →
      NativeEntry env function external_name =
        .ok (Obj.nativeEntryData .kUnknown (some .AutoScopeNativeCallWrapper)
          (some native_function) (env.ComputeArgcTag function))) ∧
    (env.IsBootstrapResolver (env.ClassLibrary (env.FunctionOwner function)) = false →
      is_auto_scope = false →
      NativeEntry env function external_name =
        .ok (Obj.nativeEntryData .kUnknown (some .NoScopeNativeCallWrapper)
          (some native_function) (env.ComputeArgcTag function))) := by
  rw [NativeEntry_unknown_eq env function external_name hkind, hres]
  simp only [hlazy, if_true]
  refine ⟨?_, ?_, ?_⟩
  · intro hb
    simp [hb]
  · intro hb ha
    simp [hb, ha]
  · intro hb ha
    simp [hb, ha]

/-- C23. For a function whose recognized kind is not a case label of the
`switch`, without lazy linking: when the resolver finds no native function for
the name read and the parameter count, `NativeEntry` fails at
`ASSERT(native_function != NULL)`, the decode of the pool ends with that
failure in the state reached when the tag had been read, with the pool as it
was before the entry; and whatever the name, an entry data that `NativeEntry`
returns has a trampoline and a native function. -/
theorem NativeEntry_unresolved (env : Env σ) (function inner : Obj) (scope : Scope)
    (st : DecodeState σ) (i tag ref : Nat) (rd rd1 : σ)
    (hkind : env.RecognizeKind function ∉ NativeEntry_cases)
    (hlazy : env.FLAG_link_natives_lazily = false)
    (hres : (env.ResolveNative (env.ClassLibrary (env.FunctionOwner function))
      (env.DartString ref) (env.ParameterCountForResolution function)).1 = none)
    (hi : i < st.pool.Length) (htag : env.ReadTag st.reader = .ok (tag, rd))
    (hk : ConstantPoolTag.ofValue tag = some .kNativeEntry)
    (href : env.ReadStringReference rd = .ok (ref, rd1)) :
    NativeEntry env function (env.DartString ref) =
      .error (.assertFailed .nativeFunctionResolved) ∧
    ReadPoolEntries env function inner scope st i =
      .error (.assertFailed .nativeFunctionResolved, st.afterTag i tag rd) ∧
    (st.afterTag i tag rd).pool = st.pool ∧
    storesOf (st.afterTag i tag rd).trace = storesOf st.trace ∧
    ∀ (external_name : String) (obj : Obj), NativeEntry env function external_name = .ok obj →
      ∃ (trampoline : Trampoline) (native_function : Nat),
        obj = Obj.nativeEntryData .kUnknown (some trampoline) (some native_function)
          (env.ComputeArgcTag function) := by
  have hfail : NativeEntry env function (env.DartString ref) =
      .error (.assertFailed .nativeFunctionResolved) := by
    rw [NativeEntry_unknown_eq env function _ hkind]
    simp [hlazy, hres]
  refine ⟨hfail, ?_, rfl, ?_, ?_⟩
  · apply ReadPoolEntries_eq_of_loop
    have hf : st.pool.Length - i + 1 = (st.pool.Length - i) + 1 := rfl
    rw [hf]
    simp [ReadPoolEntriesLoop, hi, htag, hk, ReadPoolEntries_kNativeEntry, bind, Except.bind, href,
      hfail]
  · simp [DecodeState.afterTag, storesOf_append, storesOf]
  · intro external_name obj h
    rw [NativeEntry_unknown_eq env function _ hkind] at h
    simp only [hlazy, if_true] at h
    split at h
    · simp at h
    · simp only [Except.ok.injEq] at h
      exact ⟨_, _, h.symm⟩

/-- C21, over `lazyEnv`, whose resolver finds nothing: function 0, which is
not recognized, and function 2, recognized as a kind without case label, get
the entry data without trampoline and native function. -/
theorem NativeEntry_lazy_witness :
    NativeEntry lazyEnv (Obj.foreign .function 0) (tokenName 'n' 1) =
      .ok (Obj.nativeEntryData .kUnknown none none 0) ∧
    NativeEntry lazyEnv (Obj.foreign .function 2) (tokenName 'n' 1) =
      .ok (Obj.nativeEntryData .kUnknown none none 0) ∧
    ∀ resolver : Obj → String → Int → Option Nat × Bool,
      NativeEntry { lazyEnv with ResolveNative := resolver } (Obj.foreign .function 2)
          (tokenName 'n' 1) =
        .ok (Obj.nativeEntryData .kUnknown none none
          (lazyEnv.ComputeArgcTag (Obj.foreign .function 2))) :=
  ⟨(NativeEntry_lazy lazyEnv (Obj.foreign .function 0) (tokenName 'n' 1) (by decide) rfl).1,
    (NativeEntry_lazy lazyEnv (Obj.foreign .function 2) (tokenName 'n' 1) (by decide) rfl).1,
    (NativeEntry_lazy lazyEnv (Obj.foreign .function 2) (tokenName 'n' 1) (by decide) rfl).2⟩

/-- C22, for the native of name length 3 of function 0: over `bootstrapEnv`,
whose resolver reports auto scope, the trampoline is the bootstrap wrapper;
over `tokenEnv` it is the auto-scope wrapper; over `noScopeEnv` it is the
no-scope wrapper. -/
theorem NativeEntry_trampoline_witness :
    NativeEntry bootstrapEnv (Obj.foreign .function 0) (tokenName 'n' 3) =
      .ok (Obj.nativeEntryData .kUnknown (some .BootstrapNativeCallWrapper) (some 3) 0) ∧
    NativeEntry tokenEnv (Obj.foreign .function 0) (tokenName 'n' 3) =
      .ok (Obj.nativeEntryData .kUnknown (some .AutoScopeNativeCallWrapper) (some 3) 0) ∧
    NativeEntry noScopeEnv (Obj.foreign .function 0) (tokenName 'n' 3) =
      .ok (Obj.nativeEntryData .kUnknown (some .NoScopeNativeCallWrapper) (some 3) 0) :=
  ⟨(NativeEntry_trampoline bootstrapEnv (Obj.foreign .function 0) (tokenName 'n' 3) 3 true
      (by decide) rfl rfl).1 rfl,
    (NativeEntry_trampoline tokenEnv (Obj.foreign .function 0) (tokenName 'n' 3) 3 true
      (by decide) rfl rfl).2.1 rfl rfl,
    (NativeEntry_trampoline noScopeEnv (Obj.foreign .function 0) (tokenName 'n' 3) 3 false
      (by decide) rfl rfl).2.2 rfl rfl⟩

/-- C23, over `tokenEnv`, whose resolver finds no native of an empty name: a
native entry with the empty name in slot 0 of a pool of one slot ends the
decode, and slot 0 has not been set. -/
theorem NativeEntry_unresolved_witness :
    NativeEntry tokenEnv exampleFunction (tokenEnv.DartString 0) =
      .error (.assertFailed .nativeFunctionResolved) ∧
    ReadPoolEntries tokenEnv exampleFunction exampleFunction [] (tokenState [21, 0] 1) 0 =
      .error (.assertFailed .nativeFunctionResolved,
        (tokenState [21, 0] 1).afterTag 0 21 ⟨[21, 0], 1⟩) ∧
    ((tokenState [21, 0] 1).afterTag 0 21 ⟨[21, 0], 1⟩).pool = (tokenState [21, 0] 1).pool ∧
    storesOf ((tokenState [21, 0] 1).afterTag 0 21 ⟨[21, 0], 1⟩).trace =
      storesOf (tokenState [21, 0] 1).trace ∧
    ((tokenState [21, 0] 1).afterTag 0 21 ⟨[21, 0], 1⟩).pool.TypeAt 0 = none ∧
    ∀ (external_name : String) (obj : Obj),
      NativeEntry tokenEnv exampleFunction external_name = .ok obj →
      ∃ (trampoline : Trampoline) (native_function : Nat),
        obj = Obj.nativeEntryData .kUnknown (some trampoline) (some native_function)
          (tokenEnv.ComputeArgcTag exampleFunction) :=
  have h := NativeEntry_unresolved tokenEnv exampleFunction exampleFunction []
    (tokenState [21, 0] 1) 0 21 0 ⟨[21, 0], 1⟩ ⟨[21, 0], 2⟩ (by decide) rfl rfl (by decide) rfl
    rfl rfl
  ⟨h.1, h.2.1, h.2.2.1, h.2.2.2.1, rfl, h.2.2.2.2⟩


/-! ## The parameters of a closure -/

theorem ReadClosureParameters_positions (env : Env σ) (scope : Scope) (lib : Obj) :
    ∀ (n pos : Nat) (rd rd' : σ) (types : List (Nat × Obj)) (names : List (Nat × String)),
      ReadClosureParameters env scope lib n pos rd = .ok (types, names, rd') →
      types.map Prod.fst = List.range' pos n ∧ names.map Prod.fst = List.range' pos n := by
  intro n
  induction n with
  | zero =>
    intro pos rd rd' types names h
    simp only [ReadClosureParameters, pure, Except.pure, Except.ok.injEq, Prod.mk.injEq] at h
    obtain ⟨rfl, rfl, _⟩ := h
    exact ⟨rfl, rfl⟩
  | succ n ih =>
    intro pos rd rd' types names h
    simp only [ReadClosureParameters, bind_eq_ok, pure, Except.pure, Except.ok.injEq,
      Prod.mk.injEq, Prod.exists] at h
    obtain ⟨ni, rd1, _, ty, rd2, _, tag, rd3, _, h⟩ := h
    have hrest : ∃ (rd4 rd5 : σ) (ts : List (Nat × Obj)) (ns : List (Nat × String)),
        ReadClosureParameters env scope lib n (pos + 1) rd4 = .ok (ts, ns, rd5) ∧
        types = (pos, ty) :: ts ∧ names = (pos, env.DartIdentifier lib ni) :: ns := by
      split at h
      · simp only [bind_eq_ok, Except.ok.injEq, Prod.mk.injEq, Prod.exists] at h
        obtain ⟨rd4, _, ts, ns, rd5, hr, rfl, rfl, _⟩ := h
        exact ⟨rd4, rd5, ts, ns, hr, rfl, rfl⟩
      · simp only [bind_eq_ok, Except.ok.injEq, Prod.mk.injEq, Prod.exists] at h
        obtain ⟨rd4, _, ts, ns, rd5, hr, rfl, rfl, _⟩ := h
        exact ⟨rd4, rd5, ts, ns, hr, rfl, rfl⟩
    obtain ⟨rd4, rd5, ts, ns, hr, rfl, rfl⟩ := hrest
    obtain ⟨h1, h2⟩ := ih (pos + 1) rd4 rd5 ts ns hr
    simp [h1, h2, List.range'_succ]


/-- C24. For a `kClosureFunction` entry whose reads succeed up to the count of
named parameters: when that count differs from `total_parameter_count` minus
the count of positional parameters read before, the entry fails at
`ASSERT(named_parameter_count_check == named_parameter_count)`; and whenever
the entry is decoded, the two are equal, the closure has
`1 + required_parameter_count` fixed parameters, and its optional parameters
are the `total - positional` named ones when that number is positive,
otherwise `positional - required` positional ones. -/
theorem ReadPoolEntries_kClosureFunction_counts (env : Env σ) (inner_function : Obj)
    (scope : Scope) (rd rd1 rd2 rd3 rd4 rd5 rd6 rd7 rd8 : σ)
    (ref num_type_params positional check : Nat) (helper0 helper : FunctionNodeHelper)
    (type_parameters : Obj) (types1 : List (Nat × Obj)) (names1 : List (Nat × String))
    (h1 : env.ReadStringReference rd = .ok (ref, rd1))
    (h2 : env.FunctionNode_ReadUntilExcluding_kTypeParameters rd1 = .ok (helper0, rd2))
    (h3 : env.ReadListLength rd2 = .ok (num_type_params, rd3))
    (h4 : env.LoadAndSetupTypeParameters scope (env.DartSymbolPlain ref) inner_function
      num_type_params rd3 = .ok (type_parameters, rd4))
    (h5 : env.FunctionNode_ReadUntilExcluding_kPositionalParameters helper0 rd4 =
      .ok (helper, rd5))
    (h6 : env.ReadListLength rd5 = .ok (positional, rd6))
    (h7 : ReadClosureParameters env (type_parameters :: scope) env.active_class_library
      positional 1 rd6 = .ok (types1, names1, rd7))
    (h8 : env.ReadListLength rd7 = .ok (check, rd8)) :
    ((check : Int) ≠ helper.total_parameter_count_ - positional →
      ReadPoolEntries_kClosureFunction env inner_function scope rd =
        .error (.assertFailed .namedParameterCount)) ∧
    (∀ (closure : ClosureData Obj) (rd' : σ),
      ReadPoolEntries_kClosureFunction env inner_function scope rd = .ok (closure, rd') →
      (check : Int) = helper.total_parameter_count_ - positional ∧
      closure.num_fixed_parameters = 1 + helper.required_parameter_count_ ∧
      closure.parameter_count = 1 + helper.total_parameter_count_ ∧
      (0 < helper.total_parameter_count_ - positional →
        closure.num_optional_parameters = helper.total_parameter_count_ - positional ∧
        closure.optional_are_positional = false) ∧
      (¬ 0 < helper.total_parameter_count_ - positional →
        closure.num_optional_parameters = positional - helper.required_parameter_count_ ∧
        closure.optional_are_positional = true)) := by
  simp only [ReadPoolEntries_kClosureFunction, bind, Except.bind, h1, h2, h3, h4, h5, h6, h7, h8,
    ASSERT]
  by_cases hc : (check : Int) = helper.total_parameter_count_ - positional
  · refine ⟨fun hne => absurd hc hne, ?_⟩
    intro closure rd' h
    simp only [hc, decide_True, if_true] at h
    refine ⟨hc, ?_⟩
    split at h
    · simp at h
    · split at h
      · simp at h
      · split at h
        · simp at h
        · simp only [pure, Except.pure, Except.ok.injEq, Prod.mk.injEq] at h
          obtain ⟨rfl, _⟩ := h
          refine ⟨rfl, rfl, ?_, ?_⟩
          · intro hpos
            have hpos' : helper.total_parameter_count_ - (positional : Int) > 0 := hpos
            simp only [hpos', if_true]
            exact ⟨trivial, trivial⟩
          · intro hpos
            have hpos' : ¬ helper.total_parameter_count_ - (positional : Int) > 0 := hpos
            simp only [hpos', if_false]
            exact ⟨trivial, trivial⟩
  · refine ⟨fun _ => ?_, ?_⟩
    · simp [hc]
    · intro closure rd' h
      simp [hc] at h

/-- C24, over `tokenEnv`: a closure entry that announces two parameters, lists
one positional parameter and then a count of named parameters of 0 is
rejected; with one named parameter the closure has two fixed parameters and
one named optional parameter; with two positional parameters and no named one
it has two fixed parameters and one optional positional parameter. -/
theorem ReadPoolEntries_kClosureFunction_counts_witness :
    ReadPoolEntries_kClosureFunction tokenEnv exampleFunction [] ⟨mismatchClosure, 0⟩ =
      .error (.assertFailed .namedParameterCount) ∧
    (ReadPoolEntries_kClosureFunction tokenEnv exampleFunction []
        ⟨namedClosure, 0⟩).toOption.map
      (fun p => (p.1.num_fixed_parameters, p.1.num_optional_parameters,
        p.1.optional_are_positional, p.1.parameter_count)) = some (2, 1, false, 3) ∧
    (ReadPoolEntries_kClosureFunction tokenEnv exampleFunction []
        ⟨optionalClosure, 0⟩).toOption.map
      (fun p => (p.1.num_fixed_parameters, p.1.num_optional_parameters,
        p.1.optional_are_positional, p.1.parameter_count)) = some (2, 1, true, 3) ∧
    (∀ (closure : ClosureData Obj) (rd' : TokenReader),
      ReadPoolEntries_kClosureFunction tokenEnv exampleFunction [] ⟨namedClosure, 0⟩ =
        .ok (closure, rd') →
      ((1 : Nat) : Int) = (2 : Int) - ((1 : Nat) : Int) ∧
      closure.num_fixed_parameters = 1 + 1 ∧
      closure.parameter_count = 1 + 2 ∧
      (0 < (2 : Int) - ((1 : Nat) : Int) →
        closure.num_optional_parameters = (2 : Int) - ((1 : Nat) : Int) ∧
        closure.optional_are_positional = false) ∧
      (¬ 0 < (2 : Int) - ((1 : Nat) : Int) →
        closure.num_optional_parameters = ((1 : Nat) : Int) - 1 ∧
        closure.optional_are_positional = true)) :=
  ⟨(ReadPoolEntries_kClosureFunction_counts tokenEnv exampleFunction []
      ⟨mismatchClosure, 0⟩ ⟨mismatchClosure, 1⟩ ⟨mismatchClosure, 3⟩ ⟨mismatchClosure, 4⟩
      ⟨mismatchClosure, 4⟩ ⟨mismatchClosure, 4⟩ ⟨mismatchClosure, 5⟩ ⟨mismatchClosure, 8⟩
      ⟨mismatchClosure, 9⟩ 0 0 1 0 ⟨1, 2⟩ ⟨1, 2⟩ (Obj.foreign .typeArguments 0)
      [(1, Obj.foreign .abstractType 6)]
      [(1, tokenEnv.DartIdentifier tokenEnv.active_class_library 5)]
      rfl rfl rfl rfl rfl rfl (by rfl) rfl).1 (by decide),
    by rfl, by rfl,
    (ReadPoolEntries_kClosureFunction_counts tokenEnv exampleFunction []
      ⟨namedClosure, 0⟩ ⟨namedClosure, 1⟩ ⟨namedClosure, 3⟩ ⟨namedClosure, 4⟩
      ⟨namedClosure, 4⟩ ⟨namedClosure, 4⟩ ⟨namedClosure, 5⟩ ⟨namedClosure, 8⟩
      ⟨namedClosure, 9⟩ 0 0 1 1 ⟨1, 2⟩ ⟨1, 2⟩ (Obj.foreign .typeArguments 0)
      [(1, Obj.foreign .abstractType 6)]
      [(1, tokenEnv.DartIdentifier tokenEnv.active_class_library 5)]
      rfl rfl rfl rfl rfl rfl (by rfl) rfl).2⟩

theorem kClosureFunction_positions (env : Env σ) (inner_function : Obj) (scope : Scope)
    (rd rd' : σ) (closure : ClosureData Obj)
    (h : ReadPoolEntries_kClosureFunction env inner_function scope rd = .ok (closure, rd')) :
    0 ≤ closure.parameter_count ∧
    closure.parameterTypeWrites.map Prod.fst = List.range closure.parameter_count.toNat ∧
    closure.parameterNameWrites.map Prod.fst = List.range closure.parameter_count.toNat := by
  simp only [ReadPoolEntries_kClosureFunction, bind_eq_ok, ASSERT_eq_ok, exists_const, pure,
    Except.pure, Except.ok.injEq, Prod.mk.injEq, Prod.exists, decide_eq_true_eq] at h
  obtain ⟨ref, rd1, _, helper0, rd2, _, ntp, rd3, _, tps, rd4, _, helper, rd5, _, positional, rd6,
    _, types1, names1, rd7, h7, check, rd8, _, hc, types2, names2, rd9, h9, ret, rd10, _, rd11, _,
    rfl, _⟩ := h
  obtain ⟨p1, p2⟩ := ReadClosureParameters_positions env _ _ _ _ _ _ _ _ h7
  obtain ⟨q1, q2⟩ := ReadClosureParameters_positions env _ _ _ _ _ _ _ _ h9
  have hnamed : (helper.total_parameter_count_ - (positional : Int)).toNat = check := by
    rw [← hc]
    simp
  have htotal : (1 + helper.total_parameter_count_).toNat = 1 + (positional + check) := by
    omega
  have hrange : ∀ a b : Nat, List.range' 0 (1 + (a + b)) =
      0 :: (List.range' 1 a ++ List.range' (1 + a) b) := by
    intro a b
    rw [show 1 + (a + b) = (a + b) + 1 by omega, List.range'_succ, Nat.zero_add,
      List.range'_append_1, Nat.add_comm b a]
  refine ⟨by simp only; omega, ?_, ?_⟩
  · simp only [List.map_cons, List.map_append, p1, q1, hnamed, htotal, List.range_eq_range',
      hrange]
  · simp only [List.map_cons, List.map_append, p2, q2, hnamed, htotal, List.range_eq_range',
      hrange]

theorem kClosureFunction_overlong (env : Env σ) (inner_function : Obj)
    (scope : Scope) (rd rd1 rd2 rd3 rd4 rd5 rd6 rd7 : σ)
    (ref num_type_params positional : Nat) (helper0 helper : FunctionNodeHelper)
    (type_parameters : Obj) (types1 : List (Nat × Obj)) (names1 : List (Nat × String))
    (h1 : env.ReadStringReference rd = .ok (ref, rd1))
    (h2 : env.FunctionNode_ReadUntilExcluding_kTypeParameters rd1 = .ok (helper0, rd2))
    (h3 : env.ReadListLength rd2 = .ok (num_type_params, rd3))
    (h4 : env.LoadAndSetupTypeParameters scope (env.DartSymbolPlain ref) inner_function
      num_type_params rd3 = .ok (type_parameters, rd4))
    (h5 : env.FunctionNode_ReadUntilExcluding_kPositionalParameters helper0 rd4 =
      .ok (helper, rd5))
    (h6 : env.ReadListLength rd5 = .ok (positional, rd6))
    (h7 : ReadClosureParameters env (type_parameters :: scope) env.active_class_library
      positional 1 rd6 = .ok (types1, names1, rd7))
    (htotal : 0 ≤ helper.total_parameter_count_)
    (hlong : helper.total_parameter_count_ < positional) :
    types1.map Prod.fst = List.range' 1 positional ∧
    (positional : Int) ∈ (types1.map fun p => (p.1 : Int)) ∧
    ¬ (positional : Int) < 1 + helper.total_parameter_count_ ∧
    ∀ (closure : ClosureData Obj) (rd' : σ),
      ReadPoolEntries_kClosureFunction env inner_function scope rd ≠ .ok (closure, rd') := by
  obtain ⟨p1, _⟩ := ReadClosureParameters_positions env _ _ _ _ _ _ _ _ h7
  refine ⟨p1, ?_, by omega, ?_⟩
  · have hmem : positional ∈ types1.map Prod.fst := by
      rw [p1, List.mem_range']
      have hpos : 0 < positional := by omega
      exact ⟨positional - 1, by omega, by omega⟩
    simp only [List.mem_map] at hmem ⊢
    obtain ⟨p, hp, hfst⟩ := hmem
    exact ⟨p, hp, by rw [hfst]⟩
  · intro closure rd' h
    simp only [ReadPoolEntries_kClosureFunction, bind, Except.bind, h1, h2, h3, h4, h5, h6, h7]
      at h
    split at h
    · simp at h
    · rename_i p hp
      obtain ⟨check, rd8⟩ := p
      have hne : ¬ (check : Int) = helper.total_parameter_count_ - positional := by omega
      simp [ASSERT, hne] at h

/-- C29. On `overlongClosure`, which announces no parameter and lists one
positional parameter: the arrays of types and names are allocated with length
`1 + 0`, the loop over the positional parameters reads the parameter and calls
`SetParameterTypeAt(1, type)` and `SetParameterNameAt(1, name)`, and only then
the count of named parameters is read and the entry is rejected at
`ASSERT(named_parameter_count_check == named_parameter_count)`. -/
theorem ReadPoolEntries_kClosureFunction_write_before_check :
    tokenEnv.FunctionNode_ReadUntilExcluding_kTypeParameters ⟨overlongClosure, 1⟩ =
      .ok (⟨0, 0⟩, ⟨overlongClosure, 3⟩) ∧
    tokenEnv.ReadListLength ⟨overlongClosure, 4⟩ = .ok (1, ⟨overlongClosure, 5⟩) ∧
    ReadClosureParameters tokenEnv [Obj.foreign .typeArguments 0]
        tokenEnv.active_class_library 1 1 ⟨overlongClosure, 5⟩ =
      .ok ([(1, Obj.foreign .abstractType 6)],
        [(1, tokenEnv.DartIdentifier tokenEnv.active_class_library 5)],
        ⟨overlongClosure, 8⟩) ∧
    ¬ ((1 : Int) < 1 + (FunctionNodeHelper.mk 0 0).total_parameter_count_) ∧
    tokenEnv.ReadListLength ⟨overlongClosure, 8⟩ = .ok (0, ⟨overlongClosure, 9⟩) ∧
    ReadPoolEntries_kClosureFunction tokenEnv exampleFunction [] ⟨overlongClosure, 0⟩ =
      .error (.assertFailed .namedParameterCount) :=
  ⟨rfl, rfl, by rfl, by decide, rfl, by rfl⟩


/-! ## Canonical values -/

theorem plain_entry_slot (env : Env σ) (function inner : Obj) (scope : Scope)
    (st : DecodeState σ) (i tag : Nat) (rd rd' : σ) (obj : Obj) (deopt : Nat)
    (hi : i < st.pool.Length) (htag : env.ReadTag st.reader = .ok (tag, rd))
    (hk : ConstantPoolTag.storesItself (ConstantPoolTag.ofValue tag) = false)
    (hentry : ReadPoolEntry env function scope st.pool i (ConstantPoolTag.ofValue tag) rd
      st.deopt_id = .ok (obj, rd', deopt)) :
    ReadPoolEntries env function inner scope st i =
      ReadPoolEntries env function inner scope
        (({ st.afterTag i tag rd with reader := rd', deopt_id := deopt }).store i
          .kTaggedObject obj) (i + 1) ∧
    ∀ (r : Int) (st' : DecodeState σ),
      ReadPoolEntries env function inner scope st i = .ok (r, st') →
      st'.pool.ObjectAt i = obj := by
  have hf : st.pool.Length - i + 1 = (st.pool.Length - i) + 1 := rfl
  have heq : ReadPoolEntries env function inner scope st i =
      ReadPoolEntries env function inner scope
        (({ st.afterTag i tag rd with reader := rd', deopt_id := deopt }).store i
          .kTaggedObject obj) (i + 1) := by
    apply ReadPoolEntries_eq_of_loop
    rw [hf]
    have hloop : ReadPoolEntriesLoop env function (st.pool.Length - i + 1) inner scope i st =
        ReadPoolEntriesLoop env function (st.pool.Length - i) inner scope (i + 1)
          (({ st.afterTag i tag rd with reader := rd', deopt_id := deopt }).store i
            .kTaggedObject obj) := by
      cases hv : ConstantPoolTag.ofValue tag with
      | none =>
        rw [hv] at hentry
        simp [ReadPoolEntriesLoop, hi, htag, hv, hentry, DecodeState.afterTag]
      | some t =>
        rw [hv] at hentry hk
        cases t <;> simp [ConstantPoolTag.storesItself] at hk <;>
          simp [ReadPoolEntriesLoop, hi, htag, hv, hentry, DecodeState.afterTag]
    rw [hf] at hloop
    rw [hloop]
    apply ReadPoolEntriesLoop_eq
    simp only [DecodeState.Length_store, DecodeState.Length_afterTag]
    omega
  refine ⟨heq, ?_⟩
  intro r st' hres
  rw [heq] at hres
  obtain ⟨δ, hrun⟩ := Run_of_ReadPoolEntries hres
  have hfr := hrun.frame
  simp only [DecodeState.Length_store, DecodeState.Length_afterTag] at hfr
  rw [ObjectPool.ObjectAt_congr (hfr (by omega) i (by omega)), DecodeState.ObjectAt_store]
  exact hi

/-- C25. Two `kInt` entries with the same halves, read for slot `i` in one
state and for slot `j` in another (the same load or another one, in any
order): whenever the two decodes succeed, slot `i` of the first pool and slot
`j` of the second hold the same object, `H.Canonicalize` of the integer
assembled from the halves. -/
theorem ReadPoolEntries_kInt_same_identity (env : Env σ)
    (function inner : Obj) (scope : Scope) (st : DecodeState σ) (i tag : Nat) (rd rd1 rd2 : σ)
    (function' inner' : Obj) (scope' : Scope) (st' : DecodeState σ) (j tag' : Nat)
    (rd' rd1' rd2' : σ) (low high : Nat)
    (hi : i < st.pool.Length) (htag : env.ReadTag st.reader = .ok (tag, rd))
    (hk : ConstantPoolTag.ofValue tag = some .kInt)
    (h1 : env.ReadUInt32 rd = .ok (low, rd1)) (h2 : env.ReadUInt32 rd1 = .ok (high, rd2))
    (hj : j < st'.pool.Length) (htag' : env.ReadTag st'.reader = .ok (tag', rd'))
    (hk' : ConstantPoolTag.ofValue tag' = some .kInt)
    (h1' : env.ReadUInt32 rd' = .ok (low, rd1')) (h2' : env.ReadUInt32 rd1' = .ok (high, rd2')) :
    ∀ (r r' : Int) (fin fin' : DecodeState σ),
      ReadPoolEntries env function inner scope st i = .ok (r, fin) →
      ReadPoolEntries env function' inner' scope' st' j = .ok (r', fin') →
      fin.pool.ObjectAt i =
        env.Canonicalize
          (Obj.integer (toInt64 (((high % 2 ^ 32) <<< 32) ||| (low % 2 ^ 32)))) ∧
      fin'.pool.ObjectAt j = fin.pool.ObjectAt i := by
  intro r r' fin fin' h h'
  have e : ∀ (f : Obj) (sc : Scope) (p : ObjectPool) (k d : Nat) (a a1 a2 : σ),
      env.ReadUInt32 a = .ok (low, a1) → env.ReadUInt32 a1 = .ok (high, a2) →
      ReadPoolEntry env f sc p k (some .kInt) a d =
        .ok (env.Canonicalize
          (Obj.integer (toInt64 (((high % 2 ^ 32) <<< 32) ||| (low % 2 ^ 32)))), a2, d) := by
    intro f sc p k d a a1 a2 ha ha1
    simp [ReadPoolEntry, keepDeopt, ReadPoolEntries_kInt, bind, Except.bind, ha, ha1, pure,
      Except.pure, Except.map]
  have hs : ConstantPoolTag.storesItself (ConstantPoolTag.ofValue tag) = false := by
    rw [hk]; rfl
  have hs' : ConstantPoolTag.storesItself (ConstantPoolTag.ofValue tag') = false := by
    rw [hk']; rfl
  have hA := (plain_entry_slot env function inner scope st i tag rd rd2 _ st.deopt_id hi htag hs
    (by rw [hk]; exact e _ _ _ _ _ _ _ _ h1 h2)).2 r fin h
  have hB := (plain_entry_slot env function' inner' scope' st' j tag' rd' rd2' _ st'.deopt_id hj
    htag' hs' (by rw [hk']; exact e _ _ _ _ _ _ _ _ h1' h2')).2 r' fin' h'
  exact ⟨hA, by rw [hA, hB]⟩

/-- C25, over `tokenEnv`, whose canonicalization is the identity on values:
in the pool of `sameIntBuffer` slots 0 and 2 both hold the integer 42, with
another integer decoded in between; and slot 0 of that pool and slot 1 of the
pool of `otherIntBuffer`, decoded in another load, hold the same object. -/
theorem ReadPoolEntries_kInt_same_identity_witness :
    (ReadPoolEntries tokenEnv exampleFunction exampleFunction [] (tokenState sameIntBuffer 3)
        0).toOption.map (fun p => p.1) = some 2 ∧
    (DecodeState.ofResult (ReadPoolEntries tokenEnv exampleFunction exampleFunction []
        (tokenState sameIntBuffer 3) 0)).pool.ObjectAt 0 = Obj.integer 42 ∧
    (DecodeState.ofResult (ReadPoolEntries tokenEnv exampleFunction exampleFunction []
        (tokenState sameIntBuffer 3) 0)).pool.ObjectAt 2 = Obj.integer 42 ∧
    ∀ (r r' : Int) (fin fin' : DecodeState TokenReader),
      ReadPoolEntries tokenEnv exampleFunction exampleFunction [] (tokenState sameIntBuffer 3)
        0 = .ok (r, fin) →
      ReadPoolEntries tokenEnv (Obj.foreign .function 1) (Obj.foreign .function 1) []
        ((tokenState otherIntBuffer 2).afterTag 0 1 ⟨otherIntBuffer, 1⟩ |>.store 0
          .kTaggedObject Obj.null) 1 = .ok (r', fin') →
      fin.pool.ObjectAt 0 =
        tokenEnv.Canonicalize
          (Obj.integer (toInt64 (((0x00000000 % 2 ^ 32) <<< 32) ||| (0x0000002A % 2 ^ 32)))) ∧
      fin'.pool.ObjectAt 1 = fin.pool.ObjectAt 0 :=
  ⟨by rfl, by rfl, by rfl,
    ReadPoolEntries_kInt_same_identity tokenEnv exampleFunction exampleFunction []
      (tokenState sameIntBuffer 3) 0 3 ⟨sameIntBuffer, 1⟩ ⟨sameIntBuffer, 2⟩ ⟨sameIntBuffer, 3⟩
      (Obj.foreign .function 1) (Obj.foreign .function 1) []
      ((tokenState otherIntBuffer 2).afterTag 0 1 ⟨otherIntBuffer, 1⟩ |>.store 0
        .kTaggedObject Obj.null) 1 3 ⟨otherIntBuffer, 2⟩ ⟨otherIntBuffer, 3⟩
      ⟨otherIntBuffer, 4⟩ 0x0000002A 0x00000000
      (by decide) rfl rfl rfl rfl (by decide) rfl rfl rfl rfl⟩

/-! ## Loading a function twice -/

/-- C26. Called for a function that has bytecode, `ReadFunctionBytecode`
returns an error without a call of `ReadMetadata`: no bytecode is attached and
no store is recorded, whatever the stream holds.  The error is that of
`ASSERT(!function.HasBytecode())` unless `ASSERT(!FLAG_precompiled_mode)`
before it has failed. -/
theorem ReadFunctionBytecode_already_loaded (env : Env σ) (function : Obj)
    (sticky_error : Option DecodeError) (deopt_id : Nat) :
    (ReadFunctionBytecode env function true sticky_error deopt_id).error =
      some (if env.FLAG_precompiled_mode then .assertFailed .notPrecompiledMode
        else .assertFailed .hasNoBytecode) ∧
    (ReadFunctionBytecode env function true sticky_error deopt_id).attached = [] ∧
    (ReadFunctionBytecode env function true sticky_error deopt_id).recorded_stores = [] := by
  cases hmode : env.FLAG_precompiled_mode <;>
    simp [ReadFunctionBytecode, ASSERT, bind, Except.bind, hmode]

/-! ## The pattern of a double -/

/-- C27 (amended). A `kDouble` entry with low half `0x00000000` and high half
`0x40490FDB` decodes to the double whose 64-bit pattern is
`0x40490FDB00000000`: the high half in bits 63 to 32 and the low half in bits
31 to 0. -/
theorem ReadPoolEntries_kDouble_pattern (env : Env σ) (rd rd1 rd2 : σ)
    (h1 : env.ReadUInt32 rd = .ok (0x00000000, rd1))
    (h2 : env.ReadUInt32 rd1 = .ok (0x40490FDB, rd2)) :
    ReadPoolEntries_kDouble env rd =
      .ok (env.Canonicalize (Obj.double 0x40490FDB00000000), rd2) := by
  simp only [ReadPoolEntries_kDouble, bind, Except.bind, h1, h2, pure, Except.pure]
  rfl

/-- C27 (counterexample). Over `tokenEnv`, the halves `0x00000000` (low) and
`0x40490FDB` (high) decode to the pattern `0x40490FDB00000000`, which is not
`0x400921FB54442D18`, the pattern of the binary64 closest to π; that pattern is
decoded from the halves `0x54442D18` (low) and `0x400921FB` (high). -/
theorem ReadPoolEntries_kDouble_not_pi :
    ReadPoolEntries_kDouble tokenEnv ⟨[0x00000000, 0x40490FDB], 0⟩ =
      .ok (Obj.double 0x40490FDB00000000, ⟨[0x00000000, 0x40490FDB], 2⟩) ∧
    (0x40490FDB00000000 : Nat) ≠ 0x400921FB54442D18 ∧
    Obj.double 0x40490FDB00000000 ≠ Obj.double 0x400921FB54442D18 ∧
    ReadPoolEntries_kDouble tokenEnv ⟨[0x54442D18, 0x400921FB], 0⟩ =
      .ok (Obj.double 0x400921FB54442D18, ⟨[0x54442D18, 0x400921FB], 2⟩) := by
  refine ⟨by rfl, by decide, ?_, by rfl⟩
  intro h
  injection h with h
  exact absurd h (by decide)

/-- C27 (amended), over `tokenEnv`. -/
theorem ReadPoolEntries_kDouble_pattern_witness :
    ReadPoolEntries_kDouble tokenEnv ⟨[0x00000000, 0x40490FDB], 0⟩ =
      .ok (tokenEnv.Canonicalize (Obj.double 0x40490FDB00000000),
        ⟨[0x00000000, 0x40490FDB], 2⟩) :=
  ReadPoolEntries_kDouble_pattern tokenEnv ⟨[0x00000000, 0x40490FDB], 0⟩
    ⟨[0x00000000, 0x40490FDB], 1⟩ ⟨[0x00000000, 0x40490FDB], 2⟩ rfl rfl

/-! ## Termination -/

theorem Run.tags_sorted {env : Env σ} {function inner : Obj} {scope : Scope} {i : Nat}
    {st st' : DecodeState σ} {r : Int} {δ : List Event}
    (h : Run env function inner scope i st r st' δ) :
    i ≤ st.pool.Length → ((tagsOf δ).map Prod.fst).Pairwise (· < ·) := by
  induction h with
  | exit inner scope i st hi => intro _; simp [tagsOf]
  | endScope inner scope i st tag rd hi htag hk => intro _; simp [tagsOf]
  | instanceField inner scope i st tag rd rd' obj field r st' δ hi htag hk hentry hi1 hrest ih =>
    intro _
    have hr := hrest.tags_range
    simp only [DecodeState.Length_store, DecodeState.Length_afterTag] at ih hr
    simp only [tagsOf, List.map_cons, List.pairwise_cons, List.mem_map, Prod.exists]
    refine ⟨?_, ih (by omega)⟩
    rintro a ⟨x, t, hp, rfl⟩
    have := hr (by omega) (x, t) hp
    simp only at this
    omega
  | nativeEntry inner scope i st tag rd rd' obj r st' δ hi htag hk hentry hrest ih =>
    intro _
    have hr := hrest.tags_range
    simp only [DecodeState.Length_store, DecodeState.Length_afterTag] at ih hr
    simp only [tagsOf, List.map_cons, List.pairwise_cons, List.mem_map, Prod.exists]
    refine ⟨?_, ih (by omega)⟩
    rintro a ⟨x, t, hp, rfl⟩
    have := hr (by omega) (x, t) hp
    simp only at this
    omega
  | plain inner scope i st tag rd rd' obj deopt r st' δ hi htag hk hentry hrest ih =>
    intro _
    have hr := hrest.tags_range
    simp only [DecodeState.Length_store, DecodeState.Length_afterTag] at ih hr
    simp only [tagsOf, List.map_cons, List.pairwise_cons, List.mem_map, Prod.exists]
    refine ⟨?_, ih (by omega)⟩
    rintro a ⟨x, t, hp, rfl⟩
    have := hr (by omega) (x, t) hp
    simp only at this
    omega
  | closure inner scope i st tag rd rd' closure r1 st1 r st' δ1 δ2 hi htag hk hentry hinner hnull
      hrest ih1 ih2 =>
    intro _
    have hl := hinner.length_eq
    have hb1 := hinner.bounds
    have hr1 := hinner.tags_range
    have hr2 := hrest.tags_range
    simp only [DecodeState.Length_store, DecodeState.Length_afterTag] at ih1 hb1 hl hr1
    rw [hl] at ih2 hr2
    have h1 := hb1 (by omega)
    simp only [tagsOf, tagsOf_append, List.map_cons, List.map_append, List.pairwise_cons,
      List.pairwise_append, List.mem_append, List.mem_map, Prod.exists]
    refine ⟨?_, ih1 (by omega), ih2 (by omega), ?_⟩
    · rintro a (⟨x, t, hp, rfl⟩ | ⟨x, t, hp, rfl⟩)
      · have := hr1 (by omega) (x, t) hp
        simp only at this
        omega
      · have := hr2 (by omega) (x, t) hp
        simp only at this
        omega
    · rintro a ⟨x, t, hp, rfl⟩ b ⟨y, u, hq, rfl⟩
      have ha := hr1 (by omega) (x, t) hp
      have hb := hr2 (by omega) (y, u) hq
      simp only at ha hb
      omega

/-- C28. For every pool, start index and stream, the loop of `ReadPoolEntries`
run with the bound `N - from_index + 1` on the depth of its nested iterations
and recursive calls ends with a result, success or failure, which is the
result of `ReadPoolEntries`, and every larger bound gives the same result: the
recursion for closures is never deeper than `N - from_index`.  In a
successful decode the slots for which a tag is read, over all iterations and
recursive calls in the order of execution, are strictly increasing and lie in
`[from_index, N)`, and the index returned is at least `from_index - 1` and
below `N`. -/
theorem ReadPoolEntries_terminates (env : Env σ) (function inner : Obj) (scope : Scope)
    (st : DecodeState σ) (from_index : Nat) :
    (∃ res, ReadPoolEntriesLoop env function (st.pool.Length - from_index + 1) inner scope
        from_index st = some res ∧
      ReadPoolEntries env function inner scope st from_index = res) ∧
    (∀ bound, st.pool.Length - from_index + 1 ≤ bound →
      ReadPoolEntriesLoop env function bound inner scope from_index st =
        some (ReadPoolEntries env function inner scope st from_index)) ∧
    (from_index ≤ st.pool.Length →
      ∀ (r : Int) (st' : DecodeState σ),
        ReadPoolEntries env function inner scope st from_index = .ok (r, st') →
        ∃ δ, st'.trace = st.trace ++ δ ∧
          ((tagsOf δ).map Prod.fst).Pairwise (· < ·) ∧
          (∀ p ∈ tagsOf δ, from_index ≤ p.1 ∧ p.1 < st.pool.Length) ∧
          (from_index : Int) ≤ r + 1 ∧ r + 1 ≤ st.pool.Length) := by
  refine ⟨⟨_, ReadPoolEntriesLoop_eq env function _ inner scope from_index st (le_refl _), rfl⟩,
    fun bound hb => ReadPoolEntriesLoop_eq env function bound inner scope from_index st hb, ?_⟩
  intro hle r st' h
  obtain ⟨δ, hrun⟩ := Run_of_ReadPoolEntries h
  have hb := hrun.bounds hle
  refine ⟨δ, hrun.trace_eq, hrun.tags_sorted hle, ?_, hb⟩
  intro p hp
  have := hrun.tags_range hle p hp
  omega

/-- C28, over `tokenEnv`, on the pool of six entries of `chainBuffer`, with two
nested closures: the decode returns 5 and the tags are read for the slots
`0, …, 5` in this order. -/
theorem ReadPoolEntries_terminates_witness :
    (ReadPoolEntries tokenEnv exampleFunction exampleFunction [] (tokenState chainBuffer 6)
        0).toOption.map (fun p => (p.1, (tagsOf p.2.trace).map Prod.fst)) =
      some (5, [0, 1, 2, 3, 4, 5]) ∧
    (∀ bound, (tokenState chainBuffer 6).pool.Length - 0 + 1 ≤ bound →
      ReadPoolEntriesLoop tokenEnv exampleFunction bound exampleFunction [] 0
          (tokenState chainBuffer 6) =
        some (ReadPoolEntries tokenEnv exampleFunction exampleFunction []
          (tokenState chainBuffer 6) 0)) ∧
    ∀ (r : Int) (st' : DecodeState TokenReader),
      ReadPoolEntries tokenEnv exampleFunction exampleFunction [] (tokenState chainBuffer 6) 0 =
        .ok (r, st') →
      ∃ δ, st'.trace = (tokenState chainBuffer 6).trace ++ δ ∧
        ((tagsOf δ).map Prod.fst).Pairwise (· < ·) ∧
        (∀ p ∈ tagsOf δ, 0 ≤ p.1 ∧ p.1 < (tokenState chainBuffer 6).pool.Length) ∧
        ((0 : Nat) : Int) ≤ r + 1 ∧ r + 1 ≤ (tokenState chainBuffer 6).pool.Length :=
  ⟨by rfl,
    (ReadPoolEntries_terminates tokenEnv exampleFunction exampleFunction []
      (tokenState chainBuffer 6) 0).2.1,
    (ReadPoolEntries_terminates tokenEnv exampleFunction exampleFunction []
      (tokenState chainBuffer 6) 0).2.2 (by decide)⟩


/-! ## Back references in the loop -/

theorem plain_entry_error (env : Env σ) (function inner : Obj) (scope : Scope)
    (st : DecodeState σ) (i tag : Nat) (rd : σ) (e : DecodeError)
    (hi : i < st.pool.Length) (htag : env.ReadTag st.reader = .ok (tag, rd))
    (hk : ConstantPoolTag.storesItself (ConstantPoolTag.ofValue tag) = false)
    (hentry : ReadPoolEntry env function scope st.pool i (ConstantPoolTag.ofValue tag) rd
      st.deopt_id = .error e) :
    ReadPoolEntries env function inner scope st i = .error (e, st.afterTag i tag rd) := by
  have hf : st.pool.Length - i + 1 = (st.pool.Length - i) + 1 := rfl
  have hloop : ReadPoolEntriesLoop env function (st.pool.Length - i + 1) inner scope i st =
      some (.error (e, st.afterTag i tag rd)) := by
    cases hv : ConstantPoolTag.ofValue tag with
    | none =>
      rw [hv] at hentry
      simp [ReadPoolEntriesLoop, hi, htag, hv, hentry, DecodeState.afterTag]
    | some t =>
      rw [hv] at hentry hk
      cases t <;> simp [ConstantPoolTag.storesItself] at hk <;>
        simp [ReadPoolEntriesLoop, hi, htag, hv, hentry, DecodeState.afterTag]
  simp only [ReadPoolEntries, hloop]

/-- C1. In `ReadPoolEntries` at slot `i`, once the tag read is one of the five
referencing tags (`kICData`, `kStaticICData`, `kList`, `kInstance`,
`kPartialTearOffInstantiation`), every pool index the entry reads is compared
with `i`: the first index read that is `≥ i` makes `ReadPoolEntries` fail with
the assertion on that index, in the state reached when the tag had been read;
when the indices read are all `< i`, none of these assertions fails:
`ReadPoolEntries` stores the value built from the referenced slots into slot
`i` and goes on with slot `i + 1` (or, for `kICData` and `kList`, fails on
the argument count or on a null canonical array). -/
theorem ReadPoolEntries_back_reference (env : Env σ) (function inner : Obj) (scope : Scope)
    (st : DecodeState σ) (i tag : Nat) (rd : σ)
    (hi : i < st.pool.Length) (htag : env.ReadTag st.reader = .ok (tag, rd)) :
    (ConstantPoolTag.ofValue tag = some .kICData →
      ∀ (rd1 rd2 rd3 : σ) (flags idx : Nat) (name : String),
      env.ReadByte rd = .ok (flags, rd1) →
      ReadICDataName env (flags &&& kInvocationKindMask) rd1 = .ok (name, rd2) →
      env.ReadUInt rd2 = .ok (idx, rd3) →
      (i ≤ idx → ReadPoolEntries env function inner scope st i =
          .error (.assertFailed .icDataArgDescIndex, st.afterTag i tag rd)) ∧
      (idx < i → ReadPoolEntries env function inner scope st i =
          if (flags &&& kInvocationKindMask = InvocationKind.method ∧
                (env.RecognizeTokenKind name = true ∨ name = env.simpleInstanceOf)) ∧
              2 < ArgumentsDescriptor_Count env (st.pool.ObjectAt idx) then
            .error (.assertFailed .argumentCount, st.afterTag i tag rd)
          else
            ReadPoolEntries env function inner scope
              (({ st.afterTag i tag rd with
                  reader := rd3, deopt_id := (env.GetNextDeoptId st.deopt_id).2 }).store i
                .kTaggedObject
                (Obj.icData function
                  (if flags.testBit 2 = true ∧
                      flags &&& kInvocationKindMask ≠ InvocationKind.getter ∧
                      env.FLAG_precompiled_mode = false ∧
                      env.should_emit_strong_mode_checks = true ∧
                      name ≠ env.Symbols_EqualOperator ∧ name ≠ env.Symbols_Call then
                    env.CreateDynamicInvocationForwarderName name
                  else name)
                  (st.pool.ObjectAt idx) (env.GetNextDeoptId st.deopt_id).1
                  (if flags &&& kInvocationKindMask = InvocationKind.method ∧
                      (env.RecognizeTokenKind name = true ∨ name = env.simpleInstanceOf) then
                    ArgumentsDescriptor_Count env (st.pool.ObjectAt idx)
                  else 1)
                  .kInstance [])) (i + 1))) ∧
    (ConstantPoolTag.ofValue tag = some .kStaticICData →
      ∀ (rd1 rd2 rd3 : σ) (kind target idx : Nat) (name : String) (elem : Obj),
      env.ReadByte rd = .ok (kind, rd1) →
      env.ReadCanonicalNameReference rd1 = .ok (target, rd2) →
      StaticICDataTarget env kind target = .ok (name, elem) → elem.IsFunction = true →
      env.ReadUInt rd2 = .ok (idx, rd3) →
      (i ≤ idx → ReadPoolEntries env function inner scope st i =
          .error (.assertFailed .staticICDataArgDescIndex, st.afterTag i tag rd)) ∧
      (idx < i → ReadPoolEntries env function inner scope st i =
          ReadPoolEntries env function inner scope
            (({ st.afterTag i tag rd with
                reader := rd3, deopt_id := (env.GetNextDeoptId st.deopt_id).2 }).store i
              .kTaggedObject
              (Obj.icData function name (st.pool.ObjectAt idx)
                (env.GetNextDeoptId st.deopt_id).1 (env.NumArgsCheckedForStaticCall elem)
                .kStatic [elem])) (i + 1))) ∧
    (ConstantPoolTag.ofValue tag = some .kList →
      ∀ (rd1 rd2 : σ) (ty : Obj) (n : Nat),
      env.BuildType scope rd = .ok (ty, rd1) → ty.IsAbstractType = true →
      env.ReadListLength rd1 = .ok (n, rd2) →
      (∀ (k m : Nat) (rd3 rd4 : σ) (pre : List Nat) (idx : Nat), n = k + 1 + m →
        ReadIndices env k rd2 = .ok (pre, rd3) → (∀ x ∈ pre, x < i) →
        env.ReadUInt rd3 = .ok (idx, rd4) → i ≤ idx →
        ReadPoolEntries env function inner scope st i =
          .error (.assertFailed .listElemIndex, st.afterTag i tag rd)) ∧
      (∀ (rd3 : σ) (idxs : List Nat),
        ReadIndices env n rd2 = .ok (idxs, rd3) → (∀ x ∈ idxs, x < i) →
        ReadPoolEntries env function inner scope st i =
          if (env.Canonicalize (Obj.array ty (idxs.map st.pool.ObjectAt))).IsNull
          then .error (.assertFailed .notNull, st.afterTag i tag rd)
          else
            ReadPoolEntries env function inner scope
              (({ st.afterTag i tag rd with reader := rd3, deopt_id := st.deopt_id }).store i
                .kTaggedObject
                (env.Canonicalize (Obj.array ty (idxs.map st.pool.ObjectAt)))) (i + 1))) ∧
    (ConstantPoolTag.ofValue tag = some .kInstance →
      ∀ (rd1 rd2 : σ) (ref tidx : Nat) (cls : Obj),
      env.ReadCanonicalNameReference rd = .ok (ref, rd1) →
      env.LookupClassByKernelClass ref = .ok cls →
      env.ReadUInt rd1 = .ok (tidx, rd2) →
      (i ≤ tidx → ReadPoolEntries env function inner scope st i =
          .error (.assertFailed .instanceTypeArgsIndex, st.afterTag i tag rd)) ∧
      (tidx < i → ∀ (rd3 : σ) (n : Nat), env.ReadUInt rd2 = .ok (n, rd3) →
        (∀ (k m : Nat) (rd4 ra rb : σ) (pre : List (Obj × Nat)) (nm idx : Nat) (f : Obj),
          n = k + 1 + m → ReadFieldIndices env k rd3 = .ok (pre, rd4) →
          (∀ p ∈ pre, p.2 < i) →
          env.ReadCanonicalNameReference rd4 = .ok (nm, ra) → env.IsField nm = true →
          env.LookupFieldByKernelField nm = .ok f →
          env.ReadUInt ra = .ok (idx, rb) → i ≤ idx →
          ReadPoolEntries env function inner scope st i =
            .error (.assertFailed .instanceElemIndex, st.afterTag i tag rd)) ∧
        (∀ (rd4 : σ) (fs : List (Obj × Nat)),
          ReadFieldIndices env n rd3 = .ok (fs, rd4) → (∀ p ∈ fs, p.2 < i) →
          ReadPoolEntries env function inner scope st i =
            ReadPoolEntries env function inner scope
              (({ st.afterTag i tag rd with reader := rd4, deopt_id := st.deopt_id }).store i
                .kTaggedObject
                (env.Canonicalize (Obj.plainInstance cls (st.pool.ObjectAt tidx)
                  (fs.map fun (p : Obj × Nat) => (p.1, st.pool.ObjectAt p.2))))) (i + 1)))) ∧
    (ConstantPoolTag.ofValue tag = some .kPartialTearOffInstantiation →
      ∀ (rd1 : σ) (tearoff : Nat),
      env.ReadUInt rd = .ok (tearoff, rd1) →
      (i ≤ tearoff → ReadPoolEntries env function inner scope st i =
          .error (.assertFailed .tearoffIndex, st.afterTag i tag rd)) ∧
      (tearoff < i → ∀ (a b c f ctx : Obj) (rd2 : σ) (targs : Nat),
        st.pool.ObjectAt tearoff = Obj.closure a b c f ctx →
        env.ReadUInt rd1 = .ok (targs, rd2) →
        (i ≤ targs → ReadPoolEntries env function inner scope st i =
            .error (.assertFailed .partialTypeArgsIndex, st.afterTag i tag rd)) ∧
        (targs < i → ReadPoolEntries env function inner scope st i =
            ReadPoolEntries env function inner scope
              (({ st.afterTag i tag rd with reader := rd2, deopt_id := st.deopt_id }).store i
                .kTaggedObject
                (env.Canonicalize (Obj.closure a b (st.pool.ObjectAt targs) f ctx)))
              (i + 1)))) := by
  have hold := back_reference_entries env function scope st.pool i
  have herr : ∀ (e : DecodeError),
      ReadPoolEntry env function scope st.pool i (ConstantPoolTag.ofValue tag) rd st.deopt_id =
        .error e →
      ConstantPoolTag.storesItself (ConstantPoolTag.ofValue tag) = false →
      ReadPoolEntries env function inner scope st i = .error (e, st.afterTag i tag rd) :=
    fun e he hk => plain_entry_error env function inner scope st i tag rd e hi htag hk he
  have hok : ∀ (obj : Obj) (rd' : σ) (deopt : Nat),
      ReadPoolEntry env function scope st.pool i (ConstantPoolTag.ofValue tag) rd st.deopt_id =
        .ok (obj, rd', deopt) →
      ConstantPoolTag.storesItself (ConstantPoolTag.ofValue tag) = false →
      ReadPoolEntries env function inner scope st i =
        ReadPoolEntries env function inner scope
          (({ st.afterTag i tag rd with reader := rd', deopt_id := deopt }).store i
            .kTaggedObject obj) (i + 1) :=
    fun obj rd' deopt he hk =>
      (plain_entry_slot env function inner scope st i tag rd rd' obj deopt hi htag hk he).1
  refine ⟨?_, ?_, ?_, ?_, ?_⟩
  · intro hv rd1 rd2 rd3 flags idx name h1 h2 h3
    have hk : ConstantPoolTag.storesItself (ConstantPoolTag.ofValue tag) = false := by
      rw [hv]; rfl
    constructor
    · intro hle
      apply herr _ _ hk
      rw [hv]
      exact (kICData_backref env function st.pool i rd rd1 rd2 rd3 st.deopt_id flags idx name
        h1 h2 h3).1 hle
    · intro hlt
      have heq := ReadPoolEntries_kICData_eq env function st.pool i rd rd1 rd2 rd3 st.deopt_id
        flags idx name h1 h2 h3 hlt
      by_cases hc : (flags &&& kInvocationKindMask = InvocationKind.method ∧
          (env.RecognizeTokenKind name = true ∨ name = env.simpleInstanceOf)) ∧
          2 < ArgumentsDescriptor_Count env (st.pool.ObjectAt idx)
      · rw [if_pos hc] at heq ⊢
        apply herr _ _ hk
        rw [hv]
        exact heq
      · rw [if_neg hc] at heq ⊢
        apply hok _ _ _ _ hk
        rw [hv]
        exact heq
  · intro hv rd1 rd2 rd3 kind target idx name elem h1 h2 h3 h4 h5
    have hk : ConstantPoolTag.storesItself (ConstantPoolTag.ofValue tag) = false := by
      rw [hv]; rfl
    have hb := kStaticICData_backref env function st.pool i rd rd1 rd2 rd3 st.deopt_id kind
      target idx name elem h1 h2 h3 h4 h5
    constructor
    · intro hle
      apply herr _ _ hk
      rw [hv]
      exact hb.1 hle
    · intro hlt
      apply hok _ _ _ _ hk
      rw [hv]
      exact hb.2 hlt
  · intro hv rd1 rd2 ty n h1 h2 h3
    have hk : ConstantPoolTag.storesItself (ConstantPoolTag.ofValue tag) = false := by
      rw [hv]; rfl
    have hb := hold.2.2.1 rd rd1 rd2 ty n h1 h2 h3
    constructor
    · intro k m rd3 rd4 pre idx hn hr hall hu hle
      apply herr _ _ hk
      rw [hv]
      simp only [ReadPoolEntry, keepDeopt, hb.1 k m rd3 rd4 pre idx hn hr hall hu hle]
      rfl
    · intro rd3 idxs hr hall
      have heq := hb.2 rd3 idxs hr hall
      by_cases hc : (env.Canonicalize (Obj.array ty (idxs.map st.pool.ObjectAt))).IsNull = true
      · rw [if_pos hc] at heq ⊢
        apply herr _ _ hk
        rw [hv]
        simp only [ReadPoolEntry, keepDeopt, heq]
        rfl
      · rw [if_neg hc] at heq ⊢
        apply hok _ _ _ _ hk
        rw [hv]
        simp only [ReadPoolEntry, keepDeopt, heq]
        rfl
  · intro hv rd1 rd2 ref tidx cls h1 h2 h3
    have hk : ConstantPoolTag.storesItself (ConstantPoolTag.ofValue tag) = false := by
      rw [hv]; rfl
    have hb := hold.2.2.2.1 rd rd1 rd2 ref tidx cls h1 h2 h3
    constructor
    · intro hle
      apply herr _ _ hk
      rw [hv]
      simp only [ReadPoolEntry, keepDeopt, hb.1 hle]
      rfl
    · intro hlt rd3 n h4
      have hb2 := hb.2 hlt rd3 n h4
      constructor
      · intro k m rd4 ra rb pre nm idx f hn hr hall hnm hisf hl hu hle
        apply herr _ _ hk
        rw [hv]
        simp only [ReadPoolEntry, keepDeopt,
          hb2.1 k m rd4 ra rb pre nm idx f hn hr hall hnm hisf hl hu hle]
        rfl
      · intro rd4 fs hr hall
        apply hok _ _ _ _ hk
        rw [hv]
        simp only [ReadPoolEntry, keepDeopt, hb2.2 rd4 fs hr hall]
        rfl
  · intro hv rd1 tearoff h1
    have hk : ConstantPoolTag.storesItself (ConstantPoolTag.ofValue tag) = false := by
      rw [hv]; rfl
    have hb := hold.2.2.2.2 rd rd1 tearoff h1
    constructor
    · intro hle
      apply herr _ _ hk
      rw [hv]
      simp only [ReadPoolEntry, keepDeopt, hb.1 hle]
      rfl
    · intro hlt a b c f ctx rd2 targs hc h2
      have hb2 := hb.2 hlt a b c f ctx rd2 targs hc h2
      constructor
      · intro hle
        apply herr _ _ hk
        rw [hv]
        simp only [ReadPoolEntry, keepDeopt, hb2.1 hle]
        rfl
      · intro hlt2
        apply hok _ _ _ _ hk
        rw [hv]
        simp only [ReadPoolEntry, keepDeopt, hb2.2 hlt2]
        rfl

/-- C1, over `tokenEnv` at slot 2 of `examplePool`: an instance call site
whose descriptor index is 2, a list whose second element names slot 2 and a
partial tear-off instantiation whose type arguments are in slot 2 are
rejected; a partial tear-off instantiation of slot 1 with type arguments in
slot 0 is stored into slot 2 and the decode returns 2. -/
theorem ReadPoolEntries_back_reference_witness :
    ReadPoolEntries tokenEnv exampleFunction exampleFunction [] (backReferenceState [7, 0, 3, 2])
        2 =
      .error (.assertFailed .icDataArgDescIndex,
        (backReferenceState [7, 0, 3, 2]).afterTag 2 7 ⟨[7, 0, 3, 2], 1⟩) ∧
    ReadPoolEntries tokenEnv exampleFunction exampleFunction []
        (backReferenceState [16, 9, 2, 0, 2]) 2 =
      .error (.assertFailed .listElemIndex,
        (backReferenceState [16, 9, 2, 0, 2]).afterTag 2 16 ⟨[16, 9, 2, 0, 2], 1⟩) ∧
    ReadPoolEntries tokenEnv exampleFunction exampleFunction [] (backReferenceState [23, 1, 2])
        2 =
      .error (.assertFailed .partialTypeArgsIndex,
        (backReferenceState [23, 1, 2]).afterTag 2 23 ⟨[23, 1, 2], 1⟩) ∧
    ReadPoolEntries tokenEnv exampleFunction exampleFunction [] (backReferenceState [23, 1, 0])
        2 =
      ReadPoolEntries tokenEnv exampleFunction exampleFunction []
        (({ (backReferenceState [23, 1, 0]).afterTag 2 23 ⟨[23, 1, 0], 1⟩ with
            reader := TokenReader.mk [23, 1, 0] 3, deopt_id := 0 }).store 2 .kTaggedObject
          (Obj.closure Obj.null Obj.null (Obj.argumentsDescriptor 0 1 []) exampleFunction
            Obj.null)) 3 ∧
    (ReadPoolEntries tokenEnv exampleFunction exampleFunction [] (backReferenceState [23, 1, 0])
        2).toOption.map (fun p => (p.1, p.2.pool.ObjectAt 2)) =
      some (2, Obj.closure Obj.null Obj.null (Obj.argumentsDescriptor 0 1 []) exampleFunction
        Obj.null) :=
  ⟨((ReadPoolEntries_back_reference tokenEnv exampleFunction exampleFunction []
      (backReferenceState [7, 0, 3, 2]) 2 7 ⟨[7, 0, 3, 2], 1⟩ (by decide) rfl).1 rfl
      ⟨[7, 0, 3, 2], 2⟩ ⟨[7, 0, 3, 2], 3⟩ ⟨[7, 0, 3, 2], 4⟩ 0 2 (tokenName 'm' 3)
      rfl rfl rfl).1 (by decide),
    ((ReadPoolEntries_back_reference tokenEnv exampleFunction exampleFunction []
      (backReferenceState [16, 9, 2, 0, 2]) 2 16 ⟨[16, 9, 2, 0, 2], 1⟩ (by decide) rfl).2.2.1 rfl
      ⟨[16, 9, 2, 0, 2], 2⟩ ⟨[16, 9, 2, 0, 2], 3⟩ (Obj.foreign .abstractType 9) 2
      rfl rfl rfl).1 1 0 ⟨[16, 9, 2, 0, 2], 4⟩ ⟨[16, 9, 2, 0, 2], 5⟩ [0] 2 rfl rfl (by decide)
      rfl (by decide),
    (((ReadPoolEntries_back_reference tokenEnv exampleFunction exampleFunction []
      (backReferenceState [23, 1, 2]) 2 23 ⟨[23, 1, 2], 1⟩ (by decide) rfl).2.2.2.2 rfl
      ⟨[23, 1, 2], 2⟩ 1 rfl).2 (by decide) Obj.null Obj.null Obj.null exampleFunction Obj.null
      ⟨[23, 1, 2], 3⟩ 2 rfl rfl).1 (by decide),
    (((ReadPoolEntries_back_reference tokenEnv exampleFunction exampleFunction []
      (backReferenceState [23, 1, 0]) 2 23 ⟨[23, 1, 0], 1⟩ (by decide) rfl).2.2.2.2 rfl
      ⟨[23, 1, 0], 2⟩ 1 rfl).2 (by decide) Obj.null Obj.null Obj.null exampleFunction Obj.null
      ⟨[23, 1, 0], 3⟩ 0 rfl rfl).2 (by decide),
    by rfl⟩

end Theorems

end BytecodeReader
